import Mathlib

/-!
# View construction of `gtensor` (`include/gtensor/gview.h`)

A shallow embedding of `gt::view`, `gt::reshape`, `gt::swapaxes` and
`gt::transpose`, and of the data access of `gt::gview`; also of the plan objects
of `include/gt-fft/backend/cuda.h` and of the device ids and the registry of
devices of `include/gtensor/backend_sycl_device.h`.

Conventions of the embedding:

* C++ `int` values (`start`, `stop`, `step`, extents, strides) are mathematical
  integers; the source computes with them without any overflow check, and the
  embedding describes the computation as long as no overflow occurs.
* The variables `offset` of `view` and `size` of `reshape` have the unsigned
  type `size_type`.  `view` and `reshape` keep them as the integer sum and the
  integer product; `view_size_type` and `reshape_size_type` keep them in their
  type, modulo `2^64`; `view_size_type_eq` and `reshape_size_type_eq` relate
  the two embeddings.
* `gslice.h` is not among the sources.  The sentinel `gslice::none` that marks
  an absent `start`, `stop` or `step` is therefore a parameter
  (`gslice_none`) of every definition that compares against it.
* The fixed-size output arrays `shape` and `strides` are written at the
  positions `0, 1, 2, ...` in this order (`shape[new_i] = x; new_i++`), so they
  are modelled by the list of the values written so far; `new_i` is kept as a
  counter of its own, as in the source.
* A read of `old_shape[old_i]` or `old_strides[old_i]` past the end of the input
  arrays is undefined behaviour in the source; the embedding reports it as the
  error `AxisOutOfRange`, at the point where the source performs the read.
* The assertions of `reshape` are checks whose failure is an error of its own,
  and so is the division by a zero `size`.
-/

namespace gt

/-- Ways in which `view` does not return a view.  The first four are the
`std::runtime_error`s thrown by the source, with these messages:
* `InvalidStep`: "view: the step parameter in a slice cannot be zero!"
* `InvalidRangeLess`: "view: start must be less than stop!"
* `InvalidRangeGreater`: "view: start must be greater than stop!"
* `OutOfBounds`: "view: cannot exceed underlying shape!"

`AxisOutOfRange` is a read of the input shape or strides past their end, and
`RankMismatch` is the failure of `assert(new_i == N)`. -/
inductive ViewError where
  | InvalidStep
  | InvalidRangeLess
  | InvalidRangeGreater
  | OutOfBounds
  | AxisOutOfRange
  | RankMismatch
  deriving DecidableEq

/-- The error kind `InvalidRange` of the specification covers the two ordering
messages of the source. -/
def ViewError.isInvalidRange : ViewError → Bool
  | .InvalidRangeLess => true
  | .InvalidRangeGreater => true
  | _ => false

/-- The fields of `gslice` that `view` reads: `slice.start`, `slice.stop`,
`slice.step`. -/
structure gslice where
  start : Int
  stop : Int
  step : Int
  deriving DecidableEq

/-- The four descriptor types that `view` distinguishes through
`descs[i].type()`, with the payload it reads through `value()` and `slice()`. -/
inductive gdesc where
  | ALL
  | VALUE (value : Int)
  | NEWAXIS
  | SLICE (slice : gslice)
  deriving DecidableEq

/-- The data members of `gview<EC, N>`: the inner expression `e_`, `offset_`,
and the shape and strides held by its base class. -/
structure gview (EC : Type) where
  e_ : EC
  offset_ : Int
  shape : List Int
  strides : List Int
  deriving DecidableEq

/-- The local variables of `view` that change in its loops. -/
structure view_state where
  offset : Int
  shape : List Int
  strides : List Int
  new_i : Nat
  old_i : Nat
  deriving DecidableEq

/-- Reads `a[i]` for `a` one of `old_shape`, `old_strides`. -/
def read_axis (a : List Int) (i : Nat) : Except ViewError Int :=
  match a[i]? with
  | some x => .ok x
  | Option.none => .error .AxisOutOfRange

/-- Lines 235-242 of `gview.h`: an absent step is 1, a zero step throws. -/
def slice_step (gslice_none : Int) (slice : gslice) : Except ViewError Int :=
  let step := if slice.step = gslice_none then 1 else slice.step
  if step = 0 then .error .InvalidStep else .ok step

/-- Lines 243-247 of `gview.h`: the resolved `start`. -/
def slice_start (gslice_none : Int) (old_shape : List Int) (old_i : Nat)
    (slice : gslice) (step : Int) : Except ViewError Int :=
  if slice.start = gslice_none then
    if step > 0 then .ok 0
    else (read_axis old_shape old_i).map (fun E => E - 1)
  else if slice.start < 0 then
    (read_axis old_shape old_i).map (fun E => slice.start + E)
  else .ok slice.start

/-- Lines 248-255 of `gview.h`: the resolved `stop`. -/
def slice_stop (gslice_none : Int) (old_shape : List Int) (old_i : Nat)
    (slice : gslice) (step : Int) : Except ViewError Int :=
  if slice.stop = gslice_none then
    if step > 0 then read_axis old_shape old_i
    else .ok (-1)
  else if slice.stop = 0 ∧ step = 1 then
    (read_axis old_shape old_i).map (fun E => slice.stop + E)
  else if slice.stop < 0 then
    (read_axis old_shape old_i).map (fun E => slice.stop + E)
  else .ok slice.stop

/-- Lines 258-267 of `gview.h`: the two ordering checks, then the check against
the extent of the axis.  As `step` is not zero here, the last condition reads
`old_shape[old_i]` on every path. -/
def slice_check (old_shape : List Int) (old_i : Nat) (start stop step : Int) :
    Except ViewError Unit :=
  if step > 0 ∧ start ≥ stop then .error .InvalidRangeLess
  else if step < 0 ∧ stop ≥ start then .error .InvalidRangeGreater
  else
    match read_axis old_shape old_i with
    | .error err => .error err
    | .ok E =>
      if (step > 0 ∧ stop > E) ∨ (step < 0 ∧ start > E) then .error .OutOfBounds
      else .ok ()

/-- Lines 268-272 of `gview.h`: the extent of the output axis of a slice, with
the truncating division of C++. -/
def slice_extent (start stop step : Int) : Int :=
  if step > 0 then Int.tdiv (stop - start - 1) step + 1
  else Int.tdiv (start - stop - 1) (-step) + 1

/-- One iteration of the `for` loop of `view` (lines 219-279). -/
def view_desc (gslice_none : Int) (old_shape old_strides : List Int)
    (st : view_state) : gdesc → Except ViewError view_state
  | .ALL => do
    let E ← read_axis old_shape st.old_i
    let s ← read_axis old_strides st.old_i
    pure { offset := st.offset, shape := st.shape ++ [E], strides := st.strides ++ [s],
           new_i := st.new_i + 1, old_i := st.old_i + 1 }
  | .VALUE value => do
    let s ← read_axis old_strides st.old_i
    pure { offset := st.offset + value * s, shape := st.shape, strides := st.strides,
           new_i := st.new_i, old_i := st.old_i + 1 }
  | .NEWAXIS =>
    pure { offset := st.offset, shape := st.shape ++ [1], strides := st.strides ++ [0],
           new_i := st.new_i + 1, old_i := st.old_i }
  | .SLICE slice => do
    let step ← slice_step gslice_none slice
    let start ← slice_start gslice_none old_shape st.old_i slice step
    let stop ← slice_stop gslice_none old_shape st.old_i slice step
    slice_check old_shape st.old_i start stop step
    let s ← read_axis old_strides st.old_i
    pure { offset := st.offset + start * s,
           shape := st.shape ++ [slice_extent start stop step],
           strides := st.strides ++ [s * step],
           new_i := st.new_i + 1, old_i := st.old_i + 1 }

/-- The `for` loop of `view` over the descriptors (lines 216-280). -/
def view_descs (gslice_none : Int) (old_shape old_strides : List Int) :
    List gdesc → view_state → Except ViewError view_state
  | [], st => .ok st
  | d :: ds, st => do
    let st1 ← view_desc gslice_none old_shape old_strides st d
    view_descs gslice_none old_shape old_strides ds st1

/-- The `while (old_i < old_shape.size())` loop of `view` (lines 282-287), run
for at most `n` iterations. -/
def view_rest_loop (old_shape old_strides : List Int) :
    Nat → view_state → Except ViewError view_state
  | 0, st => .ok st
  | n + 1, st =>
    if st.old_i < old_shape.length then do
      let E ← read_axis old_shape st.old_i
      let s ← read_axis old_strides st.old_i
      view_rest_loop old_shape old_strides n
        { offset := st.offset, shape := st.shape ++ [E], strides := st.strides ++ [s],
          new_i := st.new_i + 1, old_i := st.old_i + 1 }
    else .ok st

/-- The `while` loop of `view`: `old_i` grows by one in each iteration, so the
loop ends after `old_shape.size() - old_i` iterations. -/
def view_rest (old_shape old_strides : List Int) (st : view_state) :
    Except ViewError view_state :=
  view_rest_loop old_shape old_strides (old_shape.length - st.old_i) st

/-- The function `view<N>(e, descs)` of `gview.h`, lines 204-296, where
`old_shape = e.shape()` and `old_strides = e.strides()`. -/
def view {EC : Type} (N : Nat) (gslice_none : Int) (e : EC)
    (old_shape old_strides : List Int) (descs : List gdesc) :
    Except ViewError (gview EC) := do
  let st ← view_descs gslice_none old_shape old_strides descs
    { offset := 0, shape := [], strides := [], new_i := 0, old_i := 0 }
  let st ← view_rest old_shape old_strides st
  if st.new_i = N then
    pure { e_ := e, offset_ := st.offset, shape := st.shape, strides := st.strides }
  else .error .RankMismatch

/-- The method `gview::data_access_impl` (lines 167-177): the element at flat
position `i` of the view is the element of the inner expression at
`offset_ + i`; `data_access` is the inner expression's own accessor. -/
def gview.data_access_impl {EC α : Type} (data_access : EC → Int → α)
    (v : gview EC) (i : Int) : α :=
  data_access v.e_ (v.offset_ + i)

/-- Modelled from the spec: the storage collaborator, which supplies the raw
element accessor of a buffer (the container classes are not among the
sources).  The element of the buffer `buf` at the flat position `i`, if there
is one. -/
def buffer_access (buf : List Int) (i : Int) : Option Int :=
  if 0 ≤ i then buf[i.toNat]? else Option.none

/-- Modelled from the spec: the flat position `sum_d j[d] * strides[d]` of the
multi-index `j` under the strides `strides` (the indexing of the base class
`gstrided`, which is not among the sources). -/
def calc_index (strides j : List Int) : Int :=
  (List.zipWith (fun i s => i * s) j strides).sum

/-- The source multi-index that the specification assigns to the output
multi-index `j` of `view`, for the descriptors `descs` read from the input axis
`old_i` on: an `ALL` takes the next output index, a `VALUE(v)` is `v`, a
`NEWAXIS` skips an output index, a `SLICE` takes `start + j * step` for the next
output index `j` (`start` and `step` as resolved by the source), and the input
axes that remain after the descriptors take the remaining output indices. -/
def source_index (gslice_none : Int) (old_shape : List Int) :
    List gdesc → Nat → List Int → List Int
  | [], _, j => j
  | .ALL :: ds, old_i, jd :: j => jd :: source_index gslice_none old_shape ds (old_i + 1) j
  | .VALUE v :: ds, old_i, j => v :: source_index gslice_none old_shape ds (old_i + 1) j
  | .NEWAXIS :: ds, old_i, _ :: j => source_index gslice_none old_shape ds old_i j
  | .SLICE slice :: ds, old_i, jd :: j =>
    match slice_step gslice_none slice with
    | .error _ => []
    | .ok step =>
      match slice_start gslice_none old_shape old_i slice step with
      | .error _ => []
      | .ok start =>
        (start + jd * step) :: source_index gslice_none old_shape ds (old_i + 1) j
  | _ :: _, _, [] => []

/-- The number of input axes that a descriptor consumes, that is, by how much
the loop body of `view` advances `old_i`: one for `ALL`, `VALUE` and `SLICE`,
none for `NEWAXIS`. -/
def gdesc.consumes : gdesc → Nat
  | .NEWAXIS => 0
  | _ => 1

/-- The number of input axes that a list of descriptors consumes. -/
def consumed_axes (descs : List gdesc) : Nat :=
  (descs.map gdesc.consumes).sum

/-- The state of `view` in a run whose offset is higher by `c` and whose input
axis index is higher by `k`. -/
def view_state.shift (c : Int) (k : Nat) (st : view_state) : view_state :=
  { offset := st.offset + c, shape := st.shape, strides := st.strides,
    new_i := st.new_i, old_i := st.old_i + k }

/-- The number of output axes that a descriptor produces, that is, by how much
the loop body of `view` advances `new_i`: one for `ALL`, `NEWAXIS` and `SLICE`,
none for `VALUE`. -/
def gdesc.produces : gdesc → Nat
  | .VALUE _ => 0
  | _ => 1

/-- The number of output axes that a list of descriptors produces. -/
def produced_axes (descs : List gdesc) : Nat :=
  (descs.map gdesc.produces).sum

/-- Whether a descriptor is a `VALUE`. -/
def gdesc.isValue : gdesc → Bool
  | .VALUE _ => true
  | _ => false

/-- Whether a descriptor is a `NEWAXIS`. -/
def gdesc.isNewaxis : gdesc → Bool
  | .NEWAXIS => true
  | _ => false

/-- The state of `view` in a run that has already written the extents `sh` and
the strides `str`, `n` in number, before the output axes of `st`. -/
def view_state.prepend (sh str : List Int) (n : Nat) (st : view_state) : view_state :=
  { offset := st.offset, shape := sh ++ st.shape, strides := str ++ st.strides,
    new_i := n + st.new_i, old_i := st.old_i }

/-- Modelled from the spec: `size(shape)`, the product of all extents (the
helper `calc_size` is not among the sources). -/
def calc_size (shape : List Int) : Int :=
  shape.prod

/-- Modelled from the spec: `denseStrides(shape)`, with `stride[0] = 1` and
`stride[d] = stride[d-1] * shape[d-1]` for increasing `d` (the helper
`calc_strides` is not among the sources).  `calc_strides_from s shape` is the
list of strides from a first stride `s` on. -/
def calc_strides_from (s : Int) : List Int → List Int
  | [] => []
  | x :: shape => s :: calc_strides_from (s * x) shape

/-- Modelled from the spec: `denseStrides(shape)` (the helper `calc_strides` is
not among the sources). -/
def calc_strides (shape : List Int) : List Int :=
  calc_strides_from 1 shape

/-- Ways in which `reshape` does not return a view: the failure of one of its
four assertions, in the order of the source,
* `PlaceholderTwice`: `assert(dim_adjust == -1)`,
* `SizeMismatch`: `assert(size == e.size())`,
* `NotDivisible`: `assert(e.size() % size == 0)`,
* `CalcSizeMismatch`: `assert(calc_size(shape) == calc_size(e.shape()))`,

or `DivisionByZero`, the evaluation of `e.size() % size` with `size == 0`, which
is undefined behaviour in the source. -/
inductive ReshapeError where
  | PlaceholderTwice
  | SizeMismatch
  | NotDivisible
  | CalcSizeMismatch
  | DivisionByZero
  deriving DecidableEq

/-- The error kind `ShapeMismatch` of the specification: a placeholder that
does not divide, or a total size that disagrees with the source. -/
def ReshapeError.isShapeMismatch : ReshapeError → Bool
  | .SizeMismatch => true
  | .NotDivisible => true
  | .CalcSizeMismatch => true
  | _ => false

/-- The local variables `size` and `dim_adjust` of `reshape`.  The source
computes `size` in the unsigned `size_type`; the embedding describes it as
long as the extents other than the placeholder are not negative and the
product does not overflow. -/
structure reshape_state where
  size : Int
  dim_adjust : Int
  deriving DecidableEq

/-- The `for` loop of `reshape` (lines 319-326) over the entries `shape[d]`,
`shape[d + 1]`, ... of the target shape. -/
def reshape_dims : List Int → Nat → reshape_state → Except ReshapeError reshape_state
  | [], _, st => .ok st
  | x :: shape, d, st =>
    if x = -1 then
      if st.dim_adjust = -1 then
        reshape_dims shape (d + 1) { size := st.size, dim_adjust := d }
      else .error .PlaceholderTwice
    else reshape_dims shape (d + 1) { size := st.size * x, dim_adjust := st.dim_adjust }

/-- Lines 327-332 of `gview.h`: the check of the size, or the replacement of
the placeholder.  `size_e` is `e.size()`. -/
def reshape_resolve (size_e : Int) (shape : List Int) (st : reshape_state) :
    Except ReshapeError (List Int) :=
  if st.dim_adjust = -1 then
    if st.size = size_e then .ok shape else .error .SizeMismatch
  else if st.size = 0 then .error .DivisionByZero
  else if size_e % st.size = 0 then
    .ok (shape.set st.dim_adjust.toNat (size_e / st.size))
  else .error .NotDivisible

/-- The function `reshape<N>(e, shape)` of `gview.h`, lines 309-335, where
`old_shape = e.shape()` and `e.size()` is `calc_size(e.shape())`. -/
def reshape {EC : Type} (e : EC) (old_shape shape : List Int) :
    Except ReshapeError (gview EC) :=
  match reshape_dims shape 0 { size := 1, dim_adjust := -1 } with
  | .error err => .error err
  | .ok st =>
    match reshape_resolve (calc_size old_shape) shape st with
    | .error err => .error err
    | .ok shape1 =>
      if calc_size shape1 = calc_size old_shape then
        .ok { e_ := e, offset_ := 0, shape := shape1, strides := calc_strides shape1 }
      else .error .CalcSizeMismatch

/-- Reads `a[i]` for an `int` index `i`, as `swapaxes` and `transpose` do with
`e.shape()[axis]` and `e.strides()[axis]`; an index that is negative or past
the end is a read out of range. -/
def read_at (a : List Int) (i : Int) : Except ViewError Int :=
  if 0 ≤ i then read_axis a i.toNat else .error .AxisOutOfRange

/-- The two reads `e.shape()[k]` and `e.strides()[k]` of one iteration of the
loops of `swapaxes` and `transpose`. -/
def read_pair (old_shape old_strides : List Int) (k : Int) : Except ViewError (Int × Int) :=
  match read_at old_shape k with
  | .error err => .error err
  | .ok x =>
    match read_at old_strides k with
    | .error err => .error err
    | .ok s => .ok (x, s)

/-- The loop of `swapaxes` (lines 351-362), for the `n` iterations from `d` on:
the extents and the strides that it writes to `shape[d]`, `shape[d + 1]`, ...
and `strides[d]`, `strides[d + 1]`, ... -/
def swapaxes_dims (old_shape old_strides : List Int) (axis1 axis2 : Int) :
    Nat → Nat → Except ViewError (List Int × List Int)
  | 0, _ => .ok ([], [])
  | n + 1, d =>
    let entry :=
      if (d : Int) = axis1 then read_pair old_shape old_strides axis2
      else if (d : Int) = axis2 then read_pair old_shape old_strides axis1
      else read_pair old_shape old_strides d
    match entry with
    | .error err => .error err
    | .ok (x, s) =>
      match swapaxes_dims old_shape old_strides axis1 axis2 n (d + 1) with
      | .error err => .error err
      | .ok (shape, strides) => .ok (x :: shape, s :: strides)

/-- The function `swapaxes(e, axis1, axis2)` of `gview.h`, lines 340-367, where
`old_shape = e.shape()` and `old_strides = e.strides()`; the loop runs over the
`shape.size()` axes of the expression. -/
def swapaxes {EC : Type} (e : EC) (old_shape old_strides : List Int) (axis1 axis2 : Int) :
    Except ViewError (gview EC) :=
  match swapaxes_dims old_shape old_strides axis1 axis2 old_shape.length 0 with
  | .error err => .error err
  | .ok (shape, strides) => .ok { e_ := e, offset_ := 0, shape := shape, strides := strides }

/-- The loop of `transpose` (lines 383-386), for the `n` iterations from `d`
on. -/
def transpose_dims (old_shape old_strides axes : List Int) :
    Nat → Nat → Except ViewError (List Int × List Int)
  | 0, _ => .ok ([], [])
  | n + 1, d =>
    match read_axis axes d with
    | .error err => .error err
    | .ok a =>
      match read_pair old_shape old_strides a with
      | .error err => .error err
      | .ok (x, s) =>
        match transpose_dims old_shape old_strides axes n (d + 1) with
        | .error err => .error err
        | .ok (shape, strides) => .ok (x :: shape, s :: strides)

/-- The function `transpose(e, axes)` of `gview.h`, lines 372-389, where
`old_shape = e.shape()` and `old_strides = e.strides()`; the loop runs over the
`shape.size()` axes of the expression. -/
def transpose {EC : Type} (e : EC) (old_shape old_strides axes : List Int) :
    Except ViewError (gview EC) :=
  match transpose_dims old_shape old_strides axes old_shape.length 0 with
  | .error err => .error err
  | .ok (shape, strides) => .ok { e_ := e, offset_ := 0, shape := shape, strides := strides }

/-- The class `gview_adaptor<E>` (lines 18-65): the expression `e_`, whose
`shape()` is `shape_e`, and the strides `strides_`. -/
structure gview_adaptor (E : Type) where
  e_ : E
  shape_e : List Int
  strides_ : List Int
  deriving DecidableEq

/-- The constructor of `gview_adaptor` (line 30):
`strides_(calc_strides(e.shape()))`. -/
def gview_adaptor.make {E : Type} (e : E) (shape_e : List Int) : gview_adaptor E :=
  { e_ := e, shape_e := shape_e, strides_ := calc_strides shape_e }

/-- The method `gview_adaptor::shape` (line 32): `e_.shape()`. -/
def gview_adaptor.shape {E : Type} (a : gview_adaptor E) : List Int :=
  a.shape_e

/-- The method `gview_adaptor::strides` (line 33). -/
def gview_adaptor.strides {E : Type} (a : gview_adaptor E) : List Int :=
  a.strides_

/-- The permutation of the axes that is the identity except for exchanging `a`
and `b`. -/
def swap_axis (a b d : Int) : Int :=
  if d = a then b else if d = b then a else d

/-- The axes array of the permutation that is the identity except for
exchanging `a` and `b`, for the rank `n`. -/
def swap_axes_array (n : Nat) (a b : Int) : List Int :=
  (List.range n).map fun d : Nat => swap_axis a b d

/-- The axes array of the identity permutation, `axes[d] = d`, for the rank
`n`. -/
def identity_axes (n : Nat) : List Int :=
  (List.range n).map fun d : Nat => (d : Int)

/-- The method `gview::to_kernel` (lines 160-165): the view over
`e_.to_kernel()` with the offset, the shape and the strides of this view;
`to_kernel` is the projection of the inner expression. -/
def gview.to_kernel {EC KC : Type} (to_kernel : EC → KC) (v : gview EC) : gview KC :=
  { e_ := to_kernel v.e_, offset_ := v.offset_, shape := v.shape, strides := v.strides }

/-- Modelled from the spec: `unravel(flatIndex, strides)`, which recovers the
indices from the highest axis to the lowest by successive integer division and
remainder against each stride (the helper `unravel` is not among the sources).
`unravel_rem i strides` is the list of the indices together with the remainder
that is left after the lowest axis.  The operands are not negative in the
source (`size_type`). -/
def unravel_rem (i : Int) : List Int → List Int × Int
  | [] => ([], i)
  | s :: strides =>
    let r := unravel_rem i strides
    ((r.2 / s) :: r.1, r.2 % s)

/-- Modelled from the spec: `unravel(flatIndex, strides)` (the helper `unravel`
is not among the sources). -/
def unravel (i : Int) (strides : List Int) : List Int :=
  (unravel_rem i strides).1

/-- The method `gview_adaptor::data_access` (lines 37-47):
`e_(idx[0], ..., idx[N-1])` for `idx = unravel(i, strides_)`; `call` is the
call operator of the expression. -/
def gview_adaptor.data_access {E α : Type} (call : E → List Int → α)
    (a : gview_adaptor E) (i : Int) : α :=
  call a.e_ (unravel i a.strides_)

/-- The multi-index `idx` lies within the shape `shape`: it has one index per
axis, and `0 ≤ idx[d] < shape[d]` for every axis `d`. -/
def within_shape : List Int → List Int → Prop
  | [], [] => True
  | j :: idx, x :: shape => 0 ≤ j ∧ j < x ∧ within_shape idx shape
  | _, _ => False

/-! ### The batched-transform plans (`include/gt-fft/backend/cuda.h`) -/

/-- A call of the cuFFT library that a plan object makes after its
construction: the execution of a transform with a plan handle (`inverse` tells
the two directions apart), or `cufftDestroy` of a plan handle. -/
inductive fft.cufft_call where
  | exec (plan : Nat) (inverse : Bool)
  | destroy (plan : Nat)
  deriving DecidableEq

/-- How `operator()` and `inverse` of a plan end: they return, they throw a
`std::runtime_error` with the message `what`, or `gtFFTCheck` aborts the
process because the library did not return `CUFFT_SUCCESS`. -/
inductive fft.call_result where
  | returned
  | thrown (what : String)
  | aborted
  deriving DecidableEq

/-- The data members of `FFTPlanManyCUDA<Domain::REAL, R>`. -/
structure fft.FFTPlanManyCUDA_REAL where
  plan_forward_ : Nat
  plan_inverse_ : Nat
  is_valid_ : Bool
  deriving DecidableEq

/-- The constructors of `FFTPlanManyCUDA<Domain::REAL, R>` (lines 105-121,
181-199): `is_valid_(true)`, then `init` creates the two plans; `forward` and
`inverse` are the handles that the two `cufftPlanMany` calls give, `none` when
a call does not succeed, in which case `gtFFTCheck` aborts and no object
results. -/
def fft.FFTPlanManyCUDA_REAL.construct (forward inverse : Option Nat) :
    Option fft.FFTPlanManyCUDA_REAL :=
  match forward with
  | Option.none => Option.none
  | some f =>
    match inverse with
    | Option.none => Option.none
    | some i => some { plan_forward_ := f, plan_inverse_ := i, is_valid_ := true }

/-- The move constructor (lines 129-134): the new object and `other`
afterwards. -/
def fft.FFTPlanManyCUDA_REAL.move_construct (other : fft.FFTPlanManyCUDA_REAL) :
    fft.FFTPlanManyCUDA_REAL × fft.FFTPlanManyCUDA_REAL :=
  ({ plan_forward_ := other.plan_forward_, plan_inverse_ := other.plan_inverse_,
     is_valid_ := true },
   { plan_forward_ := other.plan_forward_, plan_inverse_ := other.plan_inverse_,
     is_valid_ := false })

/-- The move assignment (lines 136-142): `*this` and `other` afterwards. -/
def fft.FFTPlanManyCUDA_REAL.move_assign (self other : fft.FFTPlanManyCUDA_REAL) :
    fft.FFTPlanManyCUDA_REAL × fft.FFTPlanManyCUDA_REAL :=
  ({ plan_forward_ := other.plan_forward_, plan_inverse_ := other.plan_inverse_,
     is_valid_ := self.is_valid_ },
   { plan_forward_ := other.plan_forward_, plan_inverse_ := other.plan_inverse_,
     is_valid_ := false })

/-- The destructor (lines 144-150): the library calls that it makes. -/
def fft.FFTPlanManyCUDA_REAL.destructor (p : fft.FFTPlanManyCUDA_REAL) :
    List fft.cufft_call :=
  if p.is_valid_ then [.destroy p.plan_forward_, .destroy p.plan_inverse_] else []

/-- The forward transform `operator()` (lines 152-164): the library calls that
it makes and how it ends; `success` tells whether a library call returns
`CUFFT_SUCCESS`. -/
def fft.FFTPlanManyCUDA_REAL.operator_call (success : fft.cufft_call → Bool)
    (p : fft.FFTPlanManyCUDA_REAL) : List fft.cufft_call × fft.call_result :=
  if !p.is_valid_ then ([], .thrown "can't use a moved-from plan")
  else
    ([.exec p.plan_forward_ false],
      if success (.exec p.plan_forward_ false) then .returned else .aborted)

/-- The method `inverse` (lines 166-178). -/
def fft.FFTPlanManyCUDA_REAL.inverse (success : fft.cufft_call → Bool)
    (p : fft.FFTPlanManyCUDA_REAL) : List fft.cufft_call × fft.call_result :=
  if !p.is_valid_ then ([], .thrown "can't use a moved-from plan")
  else
    ([.exec p.plan_inverse_ true],
      if success (.exec p.plan_inverse_ true) then .returned else .aborted)

/-- The data members of `FFTPlanManyCUDA<Domain::COMPLEX, R>`. -/
structure fft.FFTPlanManyCUDA_COMPLEX where
  plan_ : Nat
  is_valid_ : Bool
  deriving DecidableEq

/-- The constructors of `FFTPlanManyCUDA<Domain::COMPLEX, R>` (lines 212-225,
282-289); `plan` is the handle that `cufftPlanMany` gives, `none` when the call
does not succeed, in which case `gtFFTCheck` aborts. -/
def fft.FFTPlanManyCUDA_COMPLEX.construct (plan : Option Nat) :
    Option fft.FFTPlanManyCUDA_COMPLEX :=
  match plan with
  | Option.none => Option.none
  | some h => some { plan_ := h, is_valid_ := true }

/-- The move constructor (lines 233-237): the new object and `other`
afterwards. -/
def fft.FFTPlanManyCUDA_COMPLEX.move_construct (other : fft.FFTPlanManyCUDA_COMPLEX) :
    fft.FFTPlanManyCUDA_COMPLEX × fft.FFTPlanManyCUDA_COMPLEX :=
  ({ plan_ := other.plan_, is_valid_ := true }, { plan_ := other.plan_, is_valid_ := false })

/-- The move assignment (lines 239-244): `*this` and `other` afterwards. -/
def fft.FFTPlanManyCUDA_COMPLEX.move_assign (self other : fft.FFTPlanManyCUDA_COMPLEX) :
    fft.FFTPlanManyCUDA_COMPLEX × fft.FFTPlanManyCUDA_COMPLEX :=
  ({ plan_ := other.plan_, is_valid_ := self.is_valid_ },
   { plan_ := other.plan_, is_valid_ := false })

/-- The destructor (lines 246-251): the library calls that it makes. -/
def fft.FFTPlanManyCUDA_COMPLEX.destructor (p : fft.FFTPlanManyCUDA_COMPLEX) :
    List fft.cufft_call :=
  if p.is_valid_ then [.destroy p.plan_] else []

/-- The forward transform `operator()` (lines 253-265), with the direction
`CUFFT_FORWARD`. -/
def fft.FFTPlanManyCUDA_COMPLEX.operator_call (success : fft.cufft_call → Bool)
    (p : fft.FFTPlanManyCUDA_COMPLEX) : List fft.cufft_call × fft.call_result :=
  if !p.is_valid_ then ([], .thrown "can't use a moved-from plan")
  else ([.exec p.plan_ false], if success (.exec p.plan_ false) then .returned else .aborted)

/-- The method `inverse` (lines 267-279), with the direction `CUFFT_INVERSE`. -/
def fft.FFTPlanManyCUDA_COMPLEX.inverse (success : fft.cufft_call → Bool)
    (p : fft.FFTPlanManyCUDA_COMPLEX) : List fft.cufft_call × fft.call_result :=
  if !p.is_valid_ then ([], .thrown "can't use a moved-from plan")
  else ([.exec p.plan_ true], if success (.exec p.plan_ true) then .returned else .aborted)

/-! ### The device ids (`include/gtensor/backend_sycl_device.h`) -/

/-- The fields of `zes_pci_properties_t::address` that
`get_unique_device_id` reads, each a `uint32_t`. -/
structure zes_pci_address where
  domain : Nat
  bus : Nat
  device : Nat
  deriving DecidableEq

/-- The function `get_unique_device_id_sycl` (lines 53-60): the vendor id plus
the device index, in `uint32_t`. -/
def get_unique_device_id_sycl (device_index : Int) (vendor_id : Nat) : Nat :=
  (((vendor_id : Int) + device_index) % 4294967296).toNat

/-- The function `get_unique_device_id<level_zero>` (lines 99-143), in
`uint32_t` arithmetic.  `pci` is the address that `zesDevicePciGetProperties`
gives, `none` when it does not return `ZE_RESULT_SUCCESS`; `uuid_id k` is
`ze_prop.uuid.id[k]`, a `uint8_t`, so its value is taken modulo 256;
`vendorId` and `deviceId` are those of `ze_prop`, and `sycl_vendor_id` is the
vendor id that the SYCL device reports. -/
def get_unique_device_id_level_zero (device_index : Int) (pci : Option zes_pci_address)
    (uuid_id : Nat → Nat) (vendorId deviceId sycl_vendor_id : Nat) : Nat :=
  let unique_id0 : Nat := 0
  let unique_id1 : Nat :=
    match pci with
    | Option.none => unique_id0
    | some address =>
      ((unique_id0 ||| (0x000000FF &&& (address.device % 4294967296))) |||
        (0x0000FF00 &&& ((address.bus <<< 8) % 4294967296))) |||
        (0xFFFF0000 &&& ((address.domain <<< 16) % 4294967296))
  let unique_id2 : Nat :=
    if unique_id1 = 0 then
      (((unique_id1 ||| (0x000000FF &&& (uuid_id 3 % 256))) |||
        (0x0000FF00 &&& (uuid_id 2 % 256))) |||
        (0x00FF0000 &&& (uuid_id 1 % 256))) |||
        (0xFF000000 &&& (uuid_id 0 % 256))
    else unique_id1
  let unique_id3 : Nat :=
    if unique_id2 = 0 then
      ((((vendorId <<< 16 : Nat) : Int) + (deviceId : Int) + device_index) % 4294967296).toNat
    else unique_id2
  if unique_id3 = 0 then get_unique_device_id_sycl device_index sycl_vendor_id
  else unique_id3

/-! ### The registry of devices (`include/gtensor/backend_sycl_device.h`) -/

/-- The class `SyclQueues` (lines 146-224): the vector `devices_` of the
devices of the default platform and the `int` field `current_device_id_`.  The
member `queue_map_` is left out: none of `valid_device_id_or_throw`,
`set_device_id` and `get_device_id` reads or writes it. -/
structure SyclQueues (D : Type) where
  devices_ : List D
  current_device_id_ : Int

/-- The constructor (lines 149-159): `current_device_id_(0)`, and `devices_` is
what `p.get_devices()` gives, here the argument. -/
def SyclQueues.construct {D : Type} (get_devices : List D) : SyclQueues D :=
  { devices_ := get_devices, current_device_id_ := 0 }

/-- The conversion of an `int` to `size_t`, which the comparison of an `int`
with `devices_.size()` applies to the `int`: the value modulo `2^64`. -/
def int_to_size_t (x : Int) : Nat := (x % 18446744073709551616).toNat

/-- The method `valid_device_id_or_throw` (lines 161-166).  In
`device_id >= devices_.size()` the right operand is a `size_t`, so that the
left one is converted to `size_t` before the comparison; `device_id < 0` is a
comparison of `int`s.  The exception is the error, with its message. -/
def SyclQueues.valid_device_id_or_throw {D : Type} (q : SyclQueues D) (device_id : Int) :
    Except String Unit :=
  if int_to_size_t device_id ≥ q.devices_.length ∨ device_id < 0 then
    .error "No such device"
  else .ok ()

/-- The method `set_device_id` (lines 188-192): the outcome of the call and
the object after it.  An exception of `valid_device_id_or_throw` leaves the
method before the assignment. -/
def SyclQueues.set_device_id {D : Type} (q : SyclQueues D) (device_id : Int) :
    Except String Unit × SyclQueues D :=
  match q.valid_device_id_or_throw device_id with
  | .error what => (.error what, q)
  | .ok () => (.ok (), { q with current_device_id_ := device_id })

/-- The method `get_device_id` (line 216). -/
def SyclQueues.get_device_id {D : Type} (q : SyclQueues D) : Int := q.current_device_id_

/-- The object after the calls `set_device_id(id)` for the members of
`device_ids` in this order, the caller catching the exception of each call that
throws.  Together with the constructor this describes every state of the
fields `devices_` and `current_device_id_`, which no other method writes. -/
def SyclQueues.set_device_ids {D : Type} (q : SyclQueues D) (device_ids : List Int) :
    SyclQueues D :=
  device_ids.foldl (fun q device_id => (q.set_device_id device_id).2) q

/-- The values of the type `int`. -/
def is_int (x : Int) : Prop := -2147483648 ≤ x ∧ x ≤ 2147483647

instance (x : Int) : Decidable (is_int x) :=
  inferInstanceAs (Decidable (-2147483648 ≤ x ∧ x ≤ 2147483647))

/-! ### The variables of type `size_type` of `view` and `reshape` -/

/-- One iteration of the `for` loop of `view` (lines 219-279) with the variable
`offset` in its type: `size_type offset` (line 211) is a `size_t` (the member
functions declared with `size_type` at lines 141-142 are defined with `size_t`
at lines 168 and 174), so that `offset += x` (lines 225 and 274) converts the
signed product `x` to `size_t` and adds modulo `2^64`.  Everything else is as in
`view_desc`. -/
def view_desc_size_type (gslice_none : Int) (old_shape old_strides : List Int)
    (st : view_state) : gdesc → Except ViewError view_state
  | .ALL => do
    let E ← read_axis old_shape st.old_i
    let s ← read_axis old_strides st.old_i
    pure { offset := st.offset, shape := st.shape ++ [E], strides := st.strides ++ [s],
           new_i := st.new_i + 1, old_i := st.old_i + 1 }
  | .VALUE value => do
    let s ← read_axis old_strides st.old_i
    pure { offset := int_to_size_t (st.offset + value * s), shape := st.shape,
           strides := st.strides, new_i := st.new_i, old_i := st.old_i + 1 }
  | .NEWAXIS =>
    pure { offset := st.offset, shape := st.shape ++ [1], strides := st.strides ++ [0],
           new_i := st.new_i + 1, old_i := st.old_i }
  | .SLICE slice => do
    let step ← slice_step gslice_none slice
    let start ← slice_start gslice_none old_shape st.old_i slice step
    let stop ← slice_stop gslice_none old_shape st.old_i slice step
    slice_check old_shape st.old_i start stop step
    let s ← read_axis old_strides st.old_i
    pure { offset := int_to_size_t (st.offset + start * s),
           shape := st.shape ++ [slice_extent start stop step],
           strides := st.strides ++ [s * step],
           new_i := st.new_i + 1, old_i := st.old_i + 1 }

/-- The `for` loop of `view` over the descriptors (lines 216-280), with `offset`
in `size_type`. -/
def view_descs_size_type (gslice_none : Int) (old_shape old_strides : List Int) :
    List gdesc → view_state → Except ViewError view_state
  | [], st => .ok st
  | d :: ds, st => do
    let st1 ← view_desc_size_type gslice_none old_shape old_strides st d
    view_descs_size_type gslice_none old_shape old_strides ds st1

/-- The function `view<N>(e, descs)` of `gview.h`, lines 204-296, with `offset`
in `size_type`: the member `offset_` of the view that it returns holds the value
of that variable.  The `while` loop (lines 282-287) does not write `offset`. -/
def view_size_type {EC : Type} (N : Nat) (gslice_none : Int) (e : EC)
    (old_shape old_strides : List Int) (descs : List gdesc) :
    Except ViewError (gview EC) := do
  let st ← view_descs_size_type gslice_none old_shape old_strides descs
    { offset := 0, shape := [], strides := [], new_i := 0, old_i := 0 }
  let st ← view_rest old_shape old_strides st
  if st.new_i = N then
    pure { e_ := e, offset_ := st.offset, shape := st.shape, strides := st.strides }
  else .error .RankMismatch

/-- The state of `view` whose `offset` is the `size_type` value of the offset
of `st`. -/
def view_state.to_size_type (st : view_state) : view_state :=
  { offset := int_to_size_t st.offset, shape := st.shape, strides := st.strides,
    new_i := st.new_i, old_i := st.old_i }

/-- The view whose `offset_` is the `size_type` value of the offset of `v`. -/
def gview.to_size_type {EC : Type} (v : gview EC) : gview EC :=
  { e_ := v.e_, offset_ := int_to_size_t v.offset_, shape := v.shape, strides := v.strides }

/-- The `for` loop of `reshape` (lines 319-326) with the variable `size` in its
type: `size_type size` (line 317) is a `size_t`, so that `size *= shape[d]`
converts the signed extent to `size_t` and multiplies modulo `2^64`.
Everything else is as in `reshape_dims`. -/
def reshape_dims_size_type :
    List Int → Nat → reshape_state → Except ReshapeError reshape_state
  | [], _, st => .ok st
  | x :: shape, d, st =>
    if x = -1 then
      if st.dim_adjust = -1 then
        reshape_dims_size_type shape (d + 1) { size := st.size, dim_adjust := d }
      else .error .PlaceholderTwice
    else
      reshape_dims_size_type shape (d + 1)
        { size := int_to_size_t (st.size * x), dim_adjust := st.dim_adjust }

/-- The function `reshape<N>(e, shape)` of `gview.h`, lines 309-335, with `size`
and `e.size()` in `size_type`: the comparison `size == e.size()`, the remainder
`e.size() % size` and the quotient `e.size() / size` are those of `size_t`
values, for which `reshape_resolve` computes what the source computes.  As in
`reshape`, `old_shape = e.shape()` and `e.size()` is `calc_size(e.shape())`. -/
def reshape_size_type {EC : Type} (e : EC) (old_shape shape : List Int) :
    Except ReshapeError (gview EC) :=
  match reshape_dims_size_type shape 0 { size := 1, dim_adjust := -1 } with
  | .error err => .error err
  | .ok st =>
    match reshape_resolve (int_to_size_t (calc_size old_shape)) shape st with
    | .error err => .error err
    | .ok shape1 =>
      if calc_size shape1 = calc_size old_shape then
        .ok { e_ := e, offset_ := 0, shape := shape1, strides := calc_strides shape1 }
      else .error .CalcSizeMismatch

/-- The resolved target shape of the specification, that is, the target shape
after the replacement of the placeholder: every entry -1 of `shape` is replaced
by `quotient`, the other entries stay. -/
def resolved_shape (quotient : Int) (shape : List Int) : List Int :=
  shape.map fun x => if x = -1 then quotient else x

/-- The product of the explicit extents of the specification, that is, of the
entries of the target shape other than the placeholder -1. -/
def explicit_size (shape : List Int) : Int :=
  (shape.filter fun x => x ≠ -1).prod

/-! ## Resolution of the bounds of a slice -/

theorem read_axis_of_getElem? {a : List Int} {i : Nat} {x : Int} (h : a[i]? = some x) :
    read_axis a i = .ok x := by
  simp [read_axis, h]

theorem getElem?_of_read_axis {a : List Int} {i : Nat} {x : Int} (h : read_axis a i = .ok x) :
    a[i]? = some x := by
  unfold read_axis at h
  split at h
  · rename_i y hy
    cases h
    exact hy
  · cases h

theorem read_axis_error {a : List Int} {i : Nat} {err : ViewError}
    (h : read_axis a i = .error err) : err = .AxisOutOfRange := by
  unfold read_axis at h
  split at h
  · cases h
  · cases h
    rfl

/-- The slice branch of `view_desc`, once the step and the bounds are resolved. -/
theorem view_desc_slice_eq {gslice_none : Int} {old_shape old_strides : List Int}
    {st : view_state} {slice : gslice} {step start stop : Int}
    (hstep : slice_step gslice_none slice = .ok step)
    (hstart : slice_start gslice_none old_shape st.old_i slice step = .ok start)
    (hstop : slice_stop gslice_none old_shape st.old_i slice step = .ok stop) :
    view_desc gslice_none old_shape old_strides st (.SLICE slice) =
      match slice_check old_shape st.old_i start stop step with
      | .error err => .error err
      | .ok _ =>
        match read_axis old_strides st.old_i with
        | .error err => .error err
        | .ok s =>
          .ok { offset := st.offset + start * s,
                shape := st.shape ++ [slice_extent start stop step],
                strides := st.strides ++ [s * step],
                new_i := st.new_i + 1, old_i := st.old_i + 1 } := by
  simp only [view_desc, hstep, hstart, hstop, bind, Except.bind, pure, Except.pure]
  cases slice_check old_shape st.old_i start stop step with
  | error err => rfl
  | ok u =>
    cases read_axis old_strides st.old_i with
    | error err => rfl
    | ok s => rfl

theorem view_descs_append (gslice_none : Int) (old_shape old_strides : List Int)
    (pre post : List gdesc) (st : view_state) :
    view_descs gslice_none old_shape old_strides (pre ++ post) st =
      (view_descs gslice_none old_shape old_strides pre st).bind
        (view_descs gslice_none old_shape old_strides post) := by
  induction pre generalizing st with
  | nil => rfl
  | cons d ds ih =>
    simp only [List.cons_append, view_descs, bind, Except.bind]
    cases view_desc gslice_none old_shape old_strides st d with
    | error err => rfl
    | ok st1 => exact ih st1

/-- When the descriptors before a faulty one are processed without error, `view`
fails with the error of the faulty one. -/
theorem view_error_of_desc {EC : Type} (N : Nat) (gslice_none : Int) (e : EC)
    (old_shape old_strides : List Int) (pre post : List gdesc) (d : gdesc)
    (st : view_state) (err : ViewError)
    (hpre : view_descs gslice_none old_shape old_strides pre
      { offset := 0, shape := [], strides := [], new_i := 0, old_i := 0 } = .ok st)
    (hd : view_desc gslice_none old_shape old_strides st d = .error err) :
    view N gslice_none e old_shape old_strides (pre ++ d :: post) = .error err := by
  simp [view, view_descs_append, hpre, Except.bind, view_descs, hd, bind]

/-- Descriptors that act alike on every state can be exchanged in a list. -/
theorem view_congr_desc {EC : Type} (N : Nat) (gslice_none : Int) (e : EC)
    (old_shape old_strides : List Int) (pre post : List gdesc) (d d1 : gdesc)
    (h : ∀ st, view_desc gslice_none old_shape old_strides st d =
      view_desc gslice_none old_shape old_strides st d1) :
    view N gslice_none e old_shape old_strides (pre ++ d :: post) =
      view N gslice_none e old_shape old_strides (pre ++ d1 :: post) := by
  simp only [view, view_descs_append, view_descs, h]

/-- C2: for an axis of extent `E` and a slice whose step resolves to
`step` (an absent step counting as 1, the result being non-zero), an absent
start becomes 0 for a positive and `E - 1` for a negative step, an explicit
negative start becomes `start + E`, an absent stop becomes `E` for a positive
and `-1` (not wrapped again) for a negative step, an explicit negative stop
becomes `stop + E`; and the slice with absent start and stop and step -1 over
an axis of extent `E > 0` and stride `s` appends extent `E` and stride `-s` and
adds `(E - 1) * s` to the offset. -/
theorem slice_bounds_resolution (gslice_none E s : Int) (old_shape old_strides : List Int)
    (st : view_state) (slice : gslice) (step : Int)
    (hE : old_shape[st.old_i]? = some E) (hs : old_strides[st.old_i]? = some s)
    (hstep : slice_step gslice_none slice = .ok step) :
    step ≠ 0 ∧
    (slice.step = gslice_none → step = 1) ∧
    (slice.start = gslice_none → 0 < step →
      slice_start gslice_none old_shape st.old_i slice step = .ok 0) ∧
    (slice.start = gslice_none → step < 0 →
      slice_start gslice_none old_shape st.old_i slice step = .ok (E - 1)) ∧
    (slice.start ≠ gslice_none → slice.start < 0 →
      slice_start gslice_none old_shape st.old_i slice step = .ok (slice.start + E)) ∧
    (slice.stop = gslice_none → 0 < step →
      slice_stop gslice_none old_shape st.old_i slice step = .ok E) ∧
    (slice.stop = gslice_none → step < 0 →
      slice_stop gslice_none old_shape st.old_i slice step = .ok (-1)) ∧
    (slice.stop ≠ gslice_none → slice.stop < 0 →
      slice_stop gslice_none old_shape st.old_i slice step = .ok (slice.stop + E)) ∧
    (slice = ⟨gslice_none, gslice_none, -1⟩ → gslice_none ≠ -1 → 0 < E →
      view_desc gslice_none old_shape old_strides st (.SLICE slice) =
        .ok { offset := st.offset + (E - 1) * s, shape := st.shape ++ [E],
              strides := st.strides ++ [-s], new_i := st.new_i + 1,
              old_i := st.old_i + 1 }) := by
  have hrE := read_axis_of_getElem? hE
  have hrs := read_axis_of_getElem? hs
  refine ⟨?_, ?_, ?_, ?_, ?_, ?_, ?_, ?_, ?_⟩
  · intro h0
    simp only [slice_step] at hstep
    split_ifs at hstep with h1 h2 <;> simp_all
  · intro h
    simp only [slice_step, h, if_true] at hstep
    simp at hstep
    exact hstep.symm
  · intro h hpos
    simp [slice_start, h, hpos]
  · intro h hneg
    have : ¬ (step > 0) := by omega
    simp [slice_start, h, this, hrE, Except.map]
  · intro h hneg
    simp [slice_start, h, hneg, hrE, Except.map]
  · intro h hpos
    simp [slice_stop, h, hpos, hrE]
  · intro h hneg
    have : ¬ (step > 0) := by omega
    simp [slice_stop, h, this]
  · intro h hneg
    have h0 : slice.stop ≠ 0 := by omega
    simp [slice_stop, h, hneg, h0, hrE, Except.map]
  · intro hsl hnone hEpos
    subst hsl
    have hn1 : ¬ ((-1 : Int) = gslice_none) := fun h => hnone h.symm
    have hcheck : slice_check old_shape st.old_i (E - 1) (-1) (-1) = .ok () := by
      have h1 : ¬ ((-1 : Int) ≥ E - 1) := by omega
      have h2 : ¬ (E - 1 > E) := by omega
      simp [slice_check, hrE, h1, h2]
    have hext : slice_extent (E - 1) (-1) (-1) = E := by
      simp [slice_extent]
    simp [view_desc, slice_step, slice_start, slice_stop, hn1, hrE, hrs, Except.map,
      bind, Except.bind, hcheck, hext, pure, Except.pure]

/-- Witness of C2 on an axis of extent 5 and stride 1. -/
theorem slice_bounds_resolution_witness :
    view_desc (-2147483648) [5] [1] ⟨0, [], [], 0, 0⟩
        (.SLICE ⟨-2147483648, -2147483648, -1⟩) =
      .ok { offset := 0 + (5 - 1) * 1, shape := [] ++ [5], strides := [] ++ [-1],
            new_i := 0 + 1, old_i := 0 + 1 } :=
  (slice_bounds_resolution (-2147483648) 5 1 [5] [1] ⟨0, [], [], 0, 0⟩
    ⟨-2147483648, -2147483648, -1⟩ (-1) rfl rfl rfl).2.2.2.2.2.2.2.2 rfl (by decide) (by decide)

/-! ## The extent of a slice -/

theorem extent_lt_iff (d c k : Int) (hc : 0 < c) : k < d / c + 1 ↔ k * c ≤ d := by
  rw [Int.lt_add_one_iff]
  exact Int.le_ediv_iff_mul_le hc

theorem extent_eq_ceil (d c : Int) (hc : 0 < c) :
    ⌈((d + 1 : Int) : ℚ) / ((c : Int) : ℚ)⌉ = d / c + 1 := by
  have hcq : (0 : ℚ) < (c : ℚ) := by exact_mod_cast hc
  have h1 : d / c * c ≤ d := Int.ediv_mul_le d (ne_of_gt hc)
  have h2 : d < (d / c + 1) * c := Int.lt_ediv_add_one_mul_self d hc
  rw [Int.ceil_eq_iff]
  constructor
  · rw [lt_div_iff₀ hcq]
    have : ((d / c * c : Int) : ℚ) < ((d + 1 : Int) : ℚ) := by
      exact_mod_cast Int.lt_add_one_iff.mpr h1
    push_cast at this ⊢
    linarith
  · rw [div_le_iff₀ hcq]
    have : ((d + 1 : Int) : ℚ) ≤ (((d / c + 1) * c : Int) : ℚ) := by
      exact_mod_cast Int.add_one_le_iff.mpr h2
    push_cast at this ⊢
    linarith

theorem slice_extent_of_pos {start stop step : Int} (hstep : 0 < step) (h : start < stop) :
    slice_extent start stop step = (stop - start - 1) / step + 1 := by
  have h1 : (0 : Int) ≤ stop - start - 1 := by omega
  simp [slice_extent, hstep, Int.tdiv_eq_ediv h1 (le_of_lt hstep)]

theorem slice_extent_of_neg {start stop step : Int} (hstep : step < 0) (h : stop < start) :
    slice_extent start stop step = (start - stop - 1) / (-step) + 1 := by
  have h1 : (0 : Int) ≤ start - stop - 1 := by omega
  have h2 : (0 : Int) ≤ -step := by omega
  have h3 : ¬ (step > 0) := by omega
  simp [slice_extent, h3, Int.tdiv_eq_ediv h1 h2]

theorem slice_extent_ge_one {start stop step : Int}
    (h : (0 < step ∧ start < stop) ∨ (step < 0 ∧ stop < start)) :
    1 ≤ slice_extent start stop step := by
  rcases h with ⟨hs, ho⟩ | ⟨hs, ho⟩
  · rw [slice_extent_of_pos hs ho]
    have : 0 ≤ (stop - start - 1) / step := Int.ediv_nonneg (by omega) (le_of_lt hs)
    omega
  · rw [slice_extent_of_neg hs ho]
    have : 0 ≤ (start - stop - 1) / (-step) := Int.ediv_nonneg (by omega) (by omega)
    omega

/-- What a slice that `view_desc` accepts has passed: the step is not zero and
the resolved bounds are ordered in its direction and within the extent. -/
theorem slice_check_ok {old_shape : List Int} {old_i : Nat} {start stop step : Int}
    (hstep : step ≠ 0) (h : slice_check old_shape old_i start stop step = .ok ()) :
    ((0 < step ∧ start < stop) ∨ (step < 0 ∧ stop < start)) ∧
    ∃ E, old_shape[old_i]? = some E ∧ (0 < step → stop ≤ E) ∧ (step < 0 → start ≤ E) := by
  unfold slice_check at h
  split_ifs at h with h1 h2
  split at h
  · cases h
  · rename_i E hE
    split_ifs at h with h3
    refine ⟨?_, E, getElem?_of_read_axis hE, ?_, ?_⟩
    · rcases lt_or_gt_of_ne hstep with hn | hp
      · right
        exact ⟨hn, by
          by_contra hc
          exact h2 ⟨hn, by omega⟩⟩
      · left
        exact ⟨hp, by
          by_contra hc
          exact h1 ⟨hp, by omega⟩⟩
    · intro hp
      by_contra hc
      exact h3 (Or.inl ⟨hp, by omega⟩)
    · intro hn
      by_contra hc
      exact h3 (Or.inr ⟨hn, by omega⟩)

theorem slice_step_ne_zero {gslice_none : Int} {slice : gslice} {step : Int}
    (hstep : slice_step gslice_none slice = .ok step) : step ≠ 0 := by
  intro h0
  simp only [slice_step] at hstep
  split_ifs at hstep with h1 h2 <;> simp_all

/-- The result of `view_desc` on a slice that it accepts. -/
theorem view_desc_slice_ok {gslice_none : Int} {old_shape old_strides : List Int}
    {st st1 : view_state} {slice : gslice} {step start stop : Int}
    (hstep : slice_step gslice_none slice = .ok step)
    (hstart : slice_start gslice_none old_shape st.old_i slice step = .ok start)
    (hstop : slice_stop gslice_none old_shape st.old_i slice step = .ok stop)
    (hok : view_desc gslice_none old_shape old_strides st (.SLICE slice) = .ok st1) :
    slice_check old_shape st.old_i start stop step = .ok () ∧
    ∃ s, old_strides[st.old_i]? = some s ∧
      st1 = { offset := st.offset + start * s,
              shape := st.shape ++ [slice_extent start stop step],
              strides := st.strides ++ [s * step],
              new_i := st.new_i + 1, old_i := st.old_i + 1 } := by
  rw [view_desc_slice_eq hstep hstart hstop] at hok
  split at hok
  · cases hok
  · rename_i u hu
    split at hok
    · cases hok
    · rename_i s hs
      cases hok
      exact ⟨hu, s, getElem?_of_read_axis hs, rfl⟩

/-- C7: for a slice that `view` accepts, with resolved bounds `start`, `stop`
and step `step`, the extent of the output axis is the value computed by the
source, it is at least 1, the integers `k ≥ 0` below it are exactly those for
which `start + k * step` lies strictly before `stop` in the direction of the
step, and it is the ceiling of `|stop - start| / |step|`. -/
theorem slice_extent_counts (gslice_none : Int) (old_shape old_strides : List Int)
    (st st1 : view_state) (slice : gslice) (step start stop : Int)
    (hstep : slice_step gslice_none slice = .ok step)
    (hstart : slice_start gslice_none old_shape st.old_i slice step = .ok start)
    (hstop : slice_stop gslice_none old_shape st.old_i slice step = .ok stop)
    (hok : view_desc gslice_none old_shape old_strides st (.SLICE slice) = .ok st1) :
    st1.shape = st.shape ++ [slice_extent start stop step] ∧
    (0 < step → slice_extent start stop step = Int.tdiv (stop - start - 1) step + 1) ∧
    (step < 0 → slice_extent start stop step = Int.tdiv (start - stop - 1) (-step) + 1) ∧
    1 ≤ slice_extent start stop step ∧
    (∀ k : Int, 0 ≤ k → (k < slice_extent start stop step ↔
      ((0 < step ∧ start + k * step < stop) ∨ (step < 0 ∧ stop < start + k * step)))) ∧
    slice_extent start stop step = ⌈((|stop - start| : Int) : ℚ) / ((|step| : Int) : ℚ)⌉ := by
  obtain ⟨hchk, s, -, rfl⟩ := view_desc_slice_ok hstep hstart hstop hok
  have hne := slice_step_ne_zero hstep
  obtain ⟨hord, -⟩ := slice_check_ok hne hchk
  refine ⟨rfl, ?_, ?_, slice_extent_ge_one hord, ?_, ?_⟩
  · intro hp
    simp [slice_extent, hp]
  · intro hn
    have : ¬ (step > 0) := by omega
    simp [slice_extent, this]
  · intro k hk
    rcases hord with ⟨hs, ho⟩ | ⟨hs, ho⟩
    · rw [slice_extent_of_pos hs ho, extent_lt_iff _ _ _ hs]
      constructor
      · intro h
        left
        exact ⟨hs, by omega⟩
      · rintro (⟨-, h⟩ | ⟨h, -⟩)
        · omega
        · omega
    · rw [slice_extent_of_neg hs ho, extent_lt_iff _ _ _ (by omega : 0 < -step)]
      constructor
      · intro h
        right
        refine ⟨hs, ?_⟩
        have : k * -step = -(k * step) := by ring
        omega
      · rintro (⟨h, -⟩ | ⟨-, h⟩)
        · omega
        · have : k * -step = -(k * step) := by ring
          omega
  · rcases hord with ⟨hs, ho⟩ | ⟨hs, ho⟩
    · rw [slice_extent_of_pos hs ho, ← extent_eq_ceil _ _ hs]
      have h1 : |stop - start| = stop - start - 1 + 1 := by
        rw [abs_of_pos (by omega)]
        ring
      have h2 : |step| = step := abs_of_pos hs
      rw [h1, h2]
    · rw [slice_extent_of_neg hs ho, ← extent_eq_ceil _ _ (by omega : 0 < -step)]
      have h1 : |stop - start| = start - stop - 1 + 1 := by
        rw [abs_of_neg (by omega)]
        ring
      have h2 : |step| = -step := abs_of_neg hs
      rw [h1, h2]

/-- Witness of C7: the slice 1:8:3 of an axis of extent 10 has the extent 3
(the indices 1, 4, 7). -/
theorem slice_extent_counts_witness :
    slice_extent 1 8 3 = ⌈((|8 - 1| : Int) : ℚ) / ((|3| : Int) : ℚ)⌉ :=
  (slice_extent_counts (-2147483648) [10] [1] ⟨0, [], [], 0, 0⟩ ⟨1, [3], [3], 1, 1⟩
    ⟨1, 8, 3⟩ 3 1 8 (by rfl) (by rfl) (by rfl) (by rfl)).2.2.2.2.2

/-! ## The checks of a slice -/

/-- C3: when the descriptors before it are processed without error, a slice
whose step is 0 makes `view` fail with the error "the step parameter in a slice
cannot be zero", for every start, stop, axis and input (0 being a step that is
given, not the mark of an absent one). -/
theorem view_zero_step {EC : Type} (N : Nat) (gslice_none : Int) (e : EC)
    (old_shape old_strides : List Int) (pre post : List gdesc) (slice : gslice)
    (st : view_state)
    (hpre : view_descs gslice_none old_shape old_strides pre
      { offset := 0, shape := [], strides := [], new_i := 0, old_i := 0 } = .ok st)
    (hzero : slice.step = 0) (hgiven : gslice_none ≠ 0) :
    view N gslice_none e old_shape old_strides (pre ++ .SLICE slice :: post)
      = .error .InvalidStep := by
  apply view_error_of_desc N gslice_none e old_shape old_strides pre post _ st _ hpre
  have h0 : ¬ ((0 : Int) = gslice_none) := fun h => hgiven h.symm
  simp [view_desc, slice_step, hzero, h0, bind, Except.bind]

/-- Witness of C3: a zero step after an `ALL`, with a start and a stop far
out of the range of the axis. -/
theorem view_zero_step_witness :
    view 2 (-2147483648) () [3, 2] [1, 3] ([gdesc.ALL] ++ .SLICE ⟨-7, 100, 0⟩ :: [])
      = .error .InvalidStep :=
  view_zero_step 2 (-2147483648) () [3, 2] [1, 3] [.ALL] [] ⟨-7, 100, 0⟩
    ⟨0, [3], [1], 1, 1⟩ rfl rfl (by decide)

/-- C4: for a slice with resolved step `step` (not zero) and resolved bounds
`start`, `stop`, `view_desc` fails with one of the two ordering errors exactly
when `step > 0` and `start ≥ stop`, or `step < 0` and `stop ≥ start`; this holds
whatever the extent of the axis, so the ordering check comes before the check
against the extent, and a slice that is accepted has an extent of at least 1.
When the descriptors before the slice are processed without error, `view`
fails with that error. -/
theorem slice_ordering_check (gslice_none : Int) (old_shape old_strides : List Int)
    (st : view_state) (slice : gslice) (step start stop : Int)
    (hstep : slice_step gslice_none slice = .ok step)
    (hstart : slice_start gslice_none old_shape st.old_i slice step = .ok start)
    (hstop : slice_stop gslice_none old_shape st.old_i slice step = .ok stop) :
    ((∃ err, view_desc gslice_none old_shape old_strides st (.SLICE slice) = .error err ∧
        err.isInvalidRange = true) ↔
      ((step > 0 ∧ start ≥ stop) ∨ (step < 0 ∧ stop ≥ start))) ∧
    (step > 0 → start ≥ stop →
      view_desc gslice_none old_shape old_strides st (.SLICE slice)
        = .error .InvalidRangeLess) ∧
    (step < 0 → stop ≥ start →
      view_desc gslice_none old_shape old_strides st (.SLICE slice)
        = .error .InvalidRangeGreater) ∧
    (∀ st1, view_desc gslice_none old_shape old_strides st (.SLICE slice) = .ok st1 →
      ∃ n, 1 ≤ n ∧ st1.shape = st.shape ++ [n]) ∧
    (∀ (EC : Type) (N : Nat) (e : EC) (pre post : List gdesc),
      view_descs gslice_none old_shape old_strides pre
        { offset := 0, shape := [], strides := [], new_i := 0, old_i := 0 } = .ok st →
      ((step > 0 ∧ start ≥ stop) ∨ (step < 0 ∧ stop ≥ start)) →
      ∃ err, view N gslice_none e old_shape old_strides (pre ++ .SLICE slice :: post)
          = .error err ∧ err.isInvalidRange = true) := by
  have hless : step > 0 → start ≥ stop →
      view_desc gslice_none old_shape old_strides st (.SLICE slice)
        = .error .InvalidRangeLess := by
    intro h1 h2
    rw [view_desc_slice_eq hstep hstart hstop]
    simp [slice_check, h1, h2]
  have hgreater : step < 0 → stop ≥ start →
      view_desc gslice_none old_shape old_strides st (.SLICE slice)
        = .error .InvalidRangeGreater := by
    intro h1 h2
    have h3 : ¬ (step > 0) := by omega
    rw [view_desc_slice_eq hstep hstart hstop]
    simp [slice_check, h1, h2, h3]
  have hback : ((step > 0 ∧ start ≥ stop) ∨ (step < 0 ∧ stop ≥ start)) →
      ∃ err, view_desc gslice_none old_shape old_strides st (.SLICE slice) = .error err ∧
        err.isInvalidRange = true := by
    rintro (⟨h1, h2⟩ | ⟨h1, h2⟩)
    · exact ⟨_, hless h1 h2, rfl⟩
    · exact ⟨_, hgreater h1 h2, rfl⟩
  refine ⟨⟨?_, hback⟩, hless, hgreater, ?_, ?_⟩
  · rintro ⟨err, herr, hkind⟩
    by_contra hnot
    rw [not_or] at hnot
    obtain ⟨hn1, hn2⟩ := hnot
    rw [view_desc_slice_eq hstep hstart hstop] at herr
    simp only [slice_check, hn1, hn2, if_false] at herr
    cases hE : read_axis old_shape st.old_i with
    | error err1 =>
      rw [hE] at herr
      cases herr
      rw [read_axis_error hE] at hkind
      cases hkind
    | ok E =>
      rw [hE] at herr
      simp only at herr
      split_ifs at herr with h3
      · cases herr
        cases hkind
      · simp only at herr
        cases hs : read_axis old_strides st.old_i with
        | error err2 =>
          rw [hs] at herr
          cases herr
          rw [read_axis_error hs] at hkind
          cases hkind
        | ok s =>
          rw [hs] at herr
          cases herr
  · intro st1 hok
    obtain ⟨hchk, s, -, rfl⟩ := view_desc_slice_ok hstep hstart hstop hok
    obtain ⟨hord, -⟩ := slice_check_ok (slice_step_ne_zero hstep) hchk
    exact ⟨_, slice_extent_ge_one hord, rfl⟩
  · intro EC N e pre post hpre hord
    obtain ⟨err, herr, hkind⟩ := hback hord
    exact ⟨err, view_error_of_desc N gslice_none e old_shape old_strides pre post _ st err
      hpre herr, hkind⟩

/-- Witness of C4: the empty range 2:2 of an axis of extent 5 is an error, and
so is the range 7:6, which also lies beyond the extent. -/
theorem slice_ordering_check_witness :
    view_desc (-2147483648) [5] [1] ⟨0, [], [], 0, 0⟩ (.SLICE ⟨7, 6, 1⟩)
      = .error .InvalidRangeLess :=
  (slice_ordering_check (-2147483648) [5] [1] ⟨0, [], [], 0, 0⟩ ⟨7, 6, 1⟩ 1 7 6
    (by rfl) (by rfl) (by rfl)).2.1 (by decide) (by decide)

/-- C5: for a slice with resolved step `step` (not zero) whose resolved bounds
`start`, `stop` pass the ordering check, on an axis of extent `E`, `view_desc`
fails with the error "cannot exceed underlying shape" if and only if `step > 0`
and `stop > E`, or `step < 0` and `start > E`; a slice that is accepted has
`start ≤ E` and `stop ≤ E`; and when the descriptors before the slice are
processed without error, `view` fails with that error. -/
theorem slice_bound_check (gslice_none E : Int) (old_shape old_strides : List Int)
    (st : view_state) (slice : gslice) (step start stop : Int)
    (hE : old_shape[st.old_i]? = some E)
    (hstep : slice_step gslice_none slice = .ok step)
    (hstart : slice_start gslice_none old_shape st.old_i slice step = .ok start)
    (hstop : slice_stop gslice_none old_shape st.old_i slice step = .ok stop)
    (hord : ¬ ((step > 0 ∧ start ≥ stop) ∨ (step < 0 ∧ stop ≥ start))) :
    (view_desc gslice_none old_shape old_strides st (.SLICE slice) = .error .OutOfBounds ↔
      ((step > 0 ∧ stop > E) ∨ (step < 0 ∧ start > E))) ∧
    (∀ st1, view_desc gslice_none old_shape old_strides st (.SLICE slice) = .ok st1 →
      start ≤ E ∧ stop ≤ E) ∧
    (∀ (EC : Type) (N : Nat) (e : EC) (pre post : List gdesc),
      view_descs gslice_none old_shape old_strides pre
        { offset := 0, shape := [], strides := [], new_i := 0, old_i := 0 } = .ok st →
      ((step > 0 ∧ stop > E) ∨ (step < 0 ∧ start > E)) →
      view N gslice_none e old_shape old_strides (pre ++ .SLICE slice :: post)
        = .error .OutOfBounds) := by
  rw [not_or] at hord
  obtain ⟨hn1, hn2⟩ := hord
  have hrE := read_axis_of_getElem? hE
  have hiff : view_desc gslice_none old_shape old_strides st (.SLICE slice)
      = .error .OutOfBounds ↔ ((step > 0 ∧ stop > E) ∨ (step < 0 ∧ start > E)) := by
    rw [view_desc_slice_eq hstep hstart hstop]
    simp only [slice_check, hn1, hn2, if_false, hrE]
    constructor
    · intro h
      by_contra h3
      simp only [h3, if_false] at h
      cases hs : read_axis old_strides st.old_i with
      | error err2 =>
        rw [hs] at h
        have := read_axis_error hs
        subst this
        cases h
      | ok s =>
        rw [hs] at h
        cases h
    · intro h
      simp [h]
  refine ⟨hiff, ?_, ?_⟩
  · intro st1 hok
    obtain ⟨hchk, -⟩ := view_desc_slice_ok hstep hstart hstop hok
    obtain ⟨hord, E1, hE1, hb1, hb2⟩ := slice_check_ok (slice_step_ne_zero hstep) hchk
    rw [hE] at hE1
    cases hE1
    rcases hord with ⟨hs, ho⟩ | ⟨hs, ho⟩
    · have := hb1 hs
      constructor <;> omega
    · have := hb2 hs
      constructor <;> omega
  · intro EC N e pre post hpre hcond
    exact view_error_of_desc N gslice_none e old_shape old_strides pre post _ st _ hpre
      (hiff.mpr hcond)

/-- Witness of C5: the slice 1:6 of an axis of extent 5 exceeds the axis. -/
theorem slice_bound_check_witness :
    view 1 (-2147483648) () [5] [1] ([] ++ .SLICE ⟨1, 6, 1⟩ :: []) = .error .OutOfBounds :=
  (slice_bound_check (-2147483648) 5 [5] [1] ⟨0, [], [], 0, 0⟩ ⟨1, 6, 1⟩ 1 1 6
    (by rfl) (by rfl) (by rfl) (by rfl) (by decide)).2.2 Unit 1 () [] [] (by rfl)
    (by decide)

/-- The claim C6 fails on an axis of extent 0: the slice with start -1, absent
stop and step -1 makes `view` fail with the error "start must be greater than
stop", not with "cannot exceed underlying shape".  (The mark of an absent bound
is taken to be the least `int`; any value other than -1 gives the same.) -/
theorem slice_last_reversed_empty_axis :
    view 1 (-2147483648) () [0] [1] [.SLICE ⟨-1, -2147483648, -1⟩]
        = .error .InvalidRangeGreater ∧
      view 1 (-2147483648) () [0] [1] [.SLICE ⟨-1, -2147483648, -1⟩]
        ≠ .error .OutOfBounds := by
  constructor
  · rfl
  · intro h
    have h1 : view 1 (-2147483648) () [0] [1] [.SLICE ⟨-1, -2147483648, -1⟩]
        = .error .InvalidRangeGreater := rfl
    rw [h1] at h
    cases h

/-- C6, amended: the slice with start -1, absent stop and step -1 (-1 being a
value that is given, not the mark of an absent one) on an axis of extent `E` and
stride `s` resolves its start to `E - 1`; for `E > 0` it is accepted, with
extent `E`, stride `-s` and offset contribution `(E - 1) * s`; for `E = 0` it
fails with the ordering error "start must be greater than stop". -/
theorem slice_last_reversed (gslice_none E s : Int) (old_shape old_strides : List Int)
    (st : view_state)
    (hE : old_shape[st.old_i]? = some E) (hs : old_strides[st.old_i]? = some s)
    (hgiven : gslice_none ≠ -1) :
    slice_start gslice_none old_shape st.old_i ⟨-1, gslice_none, -1⟩ (-1) = .ok (E - 1) ∧
    (0 < E →
      view_desc gslice_none old_shape old_strides st (.SLICE ⟨-1, gslice_none, -1⟩) =
        .ok { offset := st.offset + (E - 1) * s, shape := st.shape ++ [E],
              strides := st.strides ++ [-s], new_i := st.new_i + 1,
              old_i := st.old_i + 1 }) ∧
    (E = 0 →
      view_desc gslice_none old_shape old_strides st (.SLICE ⟨-1, gslice_none, -1⟩) =
        .error .InvalidRangeGreater) := by
  have hrE := read_axis_of_getElem? hE
  have hrs := read_axis_of_getElem? hs
  have hn1 : ¬ ((-1 : Int) = gslice_none) := fun h => hgiven h.symm
  have hstep : slice_step gslice_none ⟨-1, gslice_none, -1⟩ = .ok (-1) := by
    simp [slice_step, hn1]
  have hstart : slice_start gslice_none old_shape st.old_i ⟨-1, gslice_none, -1⟩ (-1)
      = .ok (E - 1) := by
    simp [slice_start, hn1, hrE, Except.map]
    omega
  have hstop : slice_stop gslice_none old_shape st.old_i ⟨-1, gslice_none, -1⟩ (-1)
      = .ok (-1) := by
    simp [slice_stop]
  refine ⟨hstart, ?_, ?_⟩
  · intro hpos
    rw [view_desc_slice_eq hstep hstart hstop]
    have h1 : ¬ ((-1 : Int) ≥ E - 1) := by omega
    have h2 : ¬ (E - 1 > E) := by omega
    have hext : slice_extent (E - 1) (-1) (-1) = E := by
      simp [slice_extent]
    simp [slice_check, hrE, hrs, h1, h2, hext]
  · intro h0
    subst h0
    rw [view_desc_slice_eq hstep hstart hstop]
    simp [slice_check]

/-- Witness of C6, amended, on an axis of extent 5: the start resolves to 4. -/
theorem slice_last_reversed_witness :
    slice_start (-2147483648) [5] 0 ⟨-1, -2147483648, -1⟩ (-1) = .ok (5 - 1) :=
  (slice_last_reversed (-2147483648) 5 1 [5] [1] ⟨0, [], [], 0, 0⟩ (by rfl) (by rfl)
    (by decide)).1

/-! ## The output of a slice -/

/-- C8: a slice that `view_desc` accepts on an axis of stride `s`, with resolved
step `step` and resolved start `start`, appends the stride `s * step`, adds
exactly `start * s` to the offset and consumes one input axis.  In particular
the slice `a:` with step 1 (`a` and 1 being given values), for `0 ≤ a < E`,
over a source of shape `(E)` and stride `(s)` yields the view of extent
`E - a`, offset `a * s` and stride `s`. -/
theorem slice_stride_offset (gslice_none s : Int) (old_shape old_strides : List Int)
    (st st1 : view_state) (slice : gslice) (step start : Int)
    (hs : old_strides[st.old_i]? = some s)
    (hstep : slice_step gslice_none slice = .ok step)
    (hstart : slice_start gslice_none old_shape st.old_i slice step = .ok start)
    (hok : view_desc gslice_none old_shape old_strides st (.SLICE slice) = .ok st1) :
    st1.strides = st.strides ++ [s * step] ∧
    st1.offset = st.offset + start * s ∧
    st1.old_i = st.old_i + 1 ∧
    st1.new_i = st.new_i + 1 ∧
    (∀ (EC : Type) (e : EC) (E a t : Int), 0 ≤ a → a < E → a ≠ gslice_none →
      gslice_none ≠ 1 →
      view 1 gslice_none e [E] [t] [.SLICE ⟨a, gslice_none, 1⟩] =
        .ok { e_ := e, offset_ := a * t, shape := [E - a], strides := [t] }) := by
  refine ⟨?_, ?_, ?_, ?_, ?_⟩
  case refine_5 =>
    intro EC e E a t ha0 haE hane hnone
    have h1 : ¬ ((1 : Int) = gslice_none) := fun h => hnone h.symm
    have h2 : ¬ (a < 0) := by omega
    have h3 : ¬ (a ≥ E) := by omega
    have hext : slice_extent a E 1 = E - a := by
      rw [slice_extent_of_pos (by decide) haE]
      simp
    simp [view, view_descs, view_desc, slice_step, slice_start, slice_stop, slice_check,
      read_axis, h1, h2, h3, hane, hext, bind, Except.bind, pure, Except.pure, view_rest,
      view_rest_loop]
  all_goals
    cases hstop : slice_stop gslice_none old_shape st.old_i slice step with
    | error err =>
      simp [view_desc, hstep, hstart, hstop, bind, Except.bind] at hok
    | ok stop =>
      obtain ⟨-, s1, hs1, rfl⟩ := view_desc_slice_ok hstep hstart hstop hok
      have hss : s1 = s := by
        rw [hs] at hs1
        exact (Option.some.inj hs1).symm
      subst hss
      exact rfl

/-- Witness of C8: the slice `1:` of the source `[0, 1, 2, 3, 4]` has extent
4, offset 1, stride 1 and the elements `[1, 2, 3, 4]`. -/
theorem slice_stride_offset_witness :
    view 1 (-2147483648) ([0, 1, 2, 3, 4] : List Int) [5] [1]
        [.SLICE ⟨1, -2147483648, 1⟩] =
        .ok { e_ := [0, 1, 2, 3, 4], offset_ := 1 * 1, shape := [5 - 1], strides := [1] } ∧
      (List.range 4).map (fun j : Nat =>
          gview.data_access_impl buffer_access
            { e_ := [0, 1, 2, 3, 4], offset_ := 1 * 1, shape := [5 - 1], strides := [1] }
            ((j : Int) * 1)) =
        [some 1, some 2, some 3, some 4] :=
  ⟨(slice_stride_offset (-2147483648) 1 [5] [1] ⟨0, [], [], 0, 0⟩ ⟨1, [4], [1], 1, 1⟩
      ⟨1, -2147483648, 1⟩ 1 1 (by rfl) (by rfl) (by rfl) (by rfl)).2.2.2.2
      (List Int) [0, 1, 2, 3, 4] 5 1 1 (by decide) (by decide) (by decide) (by decide),
    by decide⟩

/-- C9: a slice whose step resolves to 1 (given as 1 or absent) and whose stop
is 0 acts exactly like the same slice with an absent stop: the stop resolves to
the extent `E` of the axis, and `view_desc`, hence `view`, returns the same
view or the same error in both cases. -/
theorem slice_stop_zero_wraps (gslice_none : Int) (old_shape old_strides : List Int)
    (slice : gslice)
    (hstep : slice_step gslice_none slice = .ok 1) (hstop : slice.stop = 0) :
    (∀ (i : Nat) (E : Int), old_shape[i]? = some E →
      slice_stop gslice_none old_shape i slice 1 = .ok E ∧
      slice_stop gslice_none old_shape i { slice with stop := gslice_none } 1 = .ok E) ∧
    (∀ st, view_desc gslice_none old_shape old_strides st (.SLICE slice) =
      view_desc gslice_none old_shape old_strides st
        (.SLICE { slice with stop := gslice_none })) ∧
    (∀ (EC : Type) (N : Nat) (e : EC) (pre post : List gdesc),
      view N gslice_none e old_shape old_strides (pre ++ .SLICE slice :: post) =
        view N gslice_none e old_shape old_strides
          (pre ++ .SLICE { slice with stop := gslice_none } :: post)) := by
  have hstep1 : slice_step gslice_none { slice with stop := gslice_none } = .ok 1 := hstep
  have hstops : ∀ i : Nat, slice_stop gslice_none old_shape i slice 1 =
      slice_stop gslice_none old_shape i { slice with stop := gslice_none } 1 := by
    intro i
    simp only [slice_stop, hstop]
    by_cases h0 : (0 : Int) = gslice_none
    · simp [h0]
    · cases hr : read_axis old_shape i <;> simp [h0, Except.map]
  have hdesc : ∀ st, view_desc gslice_none old_shape old_strides st (.SLICE slice) =
      view_desc gslice_none old_shape old_strides st
        (.SLICE { slice with stop := gslice_none }) := by
    intro st
    have hstarts : slice_start gslice_none old_shape st.old_i slice 1 =
        slice_start gslice_none old_shape st.old_i { slice with stop := gslice_none } 1 := rfl
    simp only [view_desc, hstep, hstep1, bind, Except.bind, hstops, hstarts]
  refine ⟨?_, hdesc, ?_⟩
  · intro i E hE
    have hrE := read_axis_of_getElem? hE
    rw [hstops]
    simp [slice_stop, hrE]
  · intro EC N e pre post
    exact view_congr_desc N gslice_none e old_shape old_strides pre post _ _ hdesc

/-- Witness of C9: on an axis of extent 5 the slice 2:0 with an absent step
stands for 2:5. -/
theorem slice_stop_zero_wraps_witness :
    slice_stop (-2147483648) [5] 0 ⟨2, 0, -2147483648⟩ 1 = .ok 5 ∧
      slice_stop (-2147483648) [5] 0
        { (⟨2, 0, -2147483648⟩ : gslice) with stop := -2147483648 } 1 = .ok 5 :=
  (slice_stop_zero_wraps (-2147483648) [5] [1] ⟨2, 0, -2147483648⟩ (by rfl) (by rfl)).1
    0 5 (by rfl)

/-! ## The loops of `view` -/

theorem view_desc_all_ok {gslice_none : Int} {old_shape old_strides : List Int}
    {st st1 : view_state}
    (h : view_desc gslice_none old_shape old_strides st .ALL = .ok st1) :
    ∃ E s, old_shape[st.old_i]? = some E ∧ old_strides[st.old_i]? = some s ∧
      st1 = { offset := st.offset, shape := st.shape ++ [E], strides := st.strides ++ [s],
              new_i := st.new_i + 1, old_i := st.old_i + 1 } := by
  simp only [view_desc, bind, Except.bind, pure, Except.pure] at h
  cases hE : read_axis old_shape st.old_i with
  | error err => simp [hE] at h
  | ok E =>
    cases hs : read_axis old_strides st.old_i with
    | error err => simp [hE, hs] at h
    | ok s =>
      simp only [hE, hs] at h
      cases h
      exact ⟨E, s, getElem?_of_read_axis hE, getElem?_of_read_axis hs, rfl⟩

theorem view_desc_value_ok {gslice_none : Int} {old_shape old_strides : List Int}
    {st st1 : view_state} {value : Int}
    (h : view_desc gslice_none old_shape old_strides st (.VALUE value) = .ok st1) :
    ∃ s, old_strides[st.old_i]? = some s ∧
      st1 = { offset := st.offset + value * s, shape := st.shape, strides := st.strides,
              new_i := st.new_i, old_i := st.old_i + 1 } := by
  simp only [view_desc, bind, Except.bind, pure, Except.pure] at h
  cases hs : read_axis old_strides st.old_i with
  | error err => simp [hs] at h
  | ok s =>
    simp only [hs] at h
    cases h
    exact ⟨s, getElem?_of_read_axis hs, rfl⟩

theorem view_desc_newaxis_ok {gslice_none : Int} {old_shape old_strides : List Int}
    {st st1 : view_state}
    (h : view_desc gslice_none old_shape old_strides st .NEWAXIS = .ok st1) :
    st1 = { offset := st.offset, shape := st.shape ++ [1], strides := st.strides ++ [0],
            new_i := st.new_i + 1, old_i := st.old_i } := by
  simp only [view_desc, pure, Except.pure] at h
  cases h
  rfl

theorem view_desc_slice_ok_cases {gslice_none : Int} {old_shape old_strides : List Int}
    {st st1 : view_state} {slice : gslice}
    (h : view_desc gslice_none old_shape old_strides st (.SLICE slice) = .ok st1) :
    ∃ step start stop s, slice_step gslice_none slice = .ok step ∧
      slice_start gslice_none old_shape st.old_i slice step = .ok start ∧
      slice_stop gslice_none old_shape st.old_i slice step = .ok stop ∧
      slice_check old_shape st.old_i start stop step = .ok () ∧
      old_strides[st.old_i]? = some s ∧
      st1 = { offset := st.offset + start * s,
              shape := st.shape ++ [slice_extent start stop step],
              strides := st.strides ++ [s * step],
              new_i := st.new_i + 1, old_i := st.old_i + 1 } := by
  cases hstep : slice_step gslice_none slice with
  | error err => simp [view_desc, hstep, bind, Except.bind] at h
  | ok step =>
    cases hstart : slice_start gslice_none old_shape st.old_i slice step with
    | error err => simp [view_desc, hstep, hstart, bind, Except.bind] at h
    | ok start =>
      cases hstop : slice_stop gslice_none old_shape st.old_i slice step with
      | error err => simp [view_desc, hstep, hstart, hstop, bind, Except.bind] at h
      | ok stop =>
        obtain ⟨hchk, s, hs, hst1⟩ := view_desc_slice_ok hstep hstart hstop h
        exact ⟨step, start, stop, s, rfl, hstart, hstop, hchk, hs, hst1⟩

theorem lt_length_of_getElem? {a : List Int} {i : Nat} {x : Int} (h : a[i]? = some x) :
    i < a.length := by
  by_contra hc
  rw [List.getElem?_eq_none (by omega)] at h
  cases h

theorem drop_of_getElem? {a : List Int} {i : Nat} {x : Int} (h : a[i]? = some x) :
    a.drop i = x :: a.drop (i + 1) := by
  have hi := lt_length_of_getElem? h
  rw [List.drop_eq_getElem_cons hi]
  rw [List.getElem?_eq_getElem hi] at h
  cases h
  rfl

@[simp] theorem calc_index_cons (s jd : Int) (strides j : List Int) :
    calc_index (s :: strides) (jd :: j) = jd * s + calc_index strides j := by
  simp [calc_index]

@[simp] theorem calc_index_nil_right (strides : List Int) : calc_index strides [] = 0 := by
  simp [calc_index]

@[simp] theorem calc_index_nil_left (j : List Int) : calc_index [] j = 0 := by
  simp [calc_index]

theorem calc_index_take (strides : List Int) (n : Nat) (j : List Int) (hj : j.length ≤ n) :
    calc_index (strides.take n) j = calc_index strides j := by
  induction j generalizing strides n with
  | nil => simp
  | cons jd j ih =>
    cases n with
    | zero => simp at hj
    | succ n =>
      cases strides with
      | nil => simp
      | cons s strides =>
        simp only [List.take_succ_cons, calc_index_cons]
        rw [ih strides n (by simpa using hj)]

/-- The `while` loop of `view` ends without error exactly when the strides of
the remaining input axes can be read, and then it has appended the extents and
strides of the remaining input axes. -/
theorem view_rest_loop_ok (old_shape old_strides : List Int) (n : Nat) :
    ∀ (st st2 : view_state), n = old_shape.length - st.old_i →
      view_rest_loop old_shape old_strides n st = .ok st2 →
      st2 = { offset := st.offset, shape := st.shape ++ old_shape.drop st.old_i,
              strides := st.strides ++ (old_strides.drop st.old_i).take n,
              new_i := st.new_i + n, old_i := st.old_i + n } ∧
      ((old_strides.drop st.old_i).take n).length = n := by
  induction n with
  | zero =>
    intro st st2 hn h
    simp only [view_rest_loop] at h
    cases h
    have : old_shape.drop st.old_i = [] := List.drop_eq_nil_of_le (by omega)
    simp [this]
  | succ n ih =>
    intro st st2 hn h
    have hlt : st.old_i < old_shape.length := by omega
    simp only [view_rest_loop, hlt, if_true, bind, Except.bind] at h
    cases hE : read_axis old_shape st.old_i with
    | error err => simp [hE] at h
    | ok E =>
      cases hs : read_axis old_strides st.old_i with
      | error err => simp [hE, hs] at h
      | ok s =>
        simp only [hE, hs] at h
        obtain ⟨h2, hl⟩ := ih _ st2 (by simp only; omega) h
        have hdE := drop_of_getElem? (getElem?_of_read_axis hE)
        have hds := drop_of_getElem? (getElem?_of_read_axis hs)
        simp only at h2 hl
        refine ⟨?_, ?_⟩
        · rw [h2, hdE, hds]
          simp [List.take_succ_cons, Nat.add_assoc, Nat.add_comm 1 n]
        · rw [hds]
          simp [List.take_succ_cons, hl]

/-- The two loops of `view`, started in any state: what they append to the
output arrays, and the position that the appended axes address. -/
theorem view_loops_index (gslice_none : Int) (old_shape old_strides : List Int)
    (hlen : old_shape.length = old_strides.length) (ds : List gdesc) :
    ∀ (st st1 st2 : view_state), st.old_i ≤ old_shape.length →
      view_descs gslice_none old_shape old_strides ds st = .ok st1 →
      view_rest old_shape old_strides st1 = .ok st2 →
      ∃ sh str, st2.shape = st.shape ++ sh ∧ st2.strides = st.strides ++ str ∧
        sh.length = str.length ∧ st2.new_i = st.new_i + str.length ∧
        ∀ j : List Int, j.length = str.length →
          (source_index gslice_none old_shape ds st.old_i j).length + st.old_i
            = old_shape.length ∧
          st2.offset + calc_index str j = st.offset +
            calc_index (old_strides.drop st.old_i)
              (source_index gslice_none old_shape ds st.old_i j) := by
  induction ds with
  | nil =>
    intro st st1 st2 hle h1 h2
    simp only [view_descs] at h1
    cases h1
    obtain ⟨h3, hl⟩ := view_rest_loop_ok old_shape old_strides _ st st2 rfl h2
    refine ⟨old_shape.drop st.old_i,
      (old_strides.drop st.old_i).take (old_shape.length - st.old_i), ?_, ?_, ?_, ?_, ?_⟩
    · rw [h3]
    · rw [h3]
    · rw [hl, List.length_drop]
    · rw [h3, hl]
    · intro j hj
      rw [hl] at hj
      refine ⟨?_, ?_⟩
      · simp only [source_index]
        omega
      · simp only [source_index]
        rw [h3, calc_index_take _ _ _ (le_of_eq hj)]
  | cons d ds ih =>
    intro st st1 st2 hle h1 h2
    simp only [view_descs, bind, Except.bind] at h1
    cases hd : view_desc gslice_none old_shape old_strides st d with
    | error err => simp [hd] at h1
    | ok st0 =>
      simp only [hd] at h1
      cases d with
      | ALL =>
        obtain ⟨E, s, hE, hs, rfl⟩ := view_desc_all_ok hd
        have hlt := lt_length_of_getElem? hE
        obtain ⟨sh, str, e1, e2, e3, e4, e5⟩ := ih _ st1 st2 (by simp only; omega) h1 h2
        refine ⟨E :: sh, s :: str, by simpa using e1, by simpa using e2, by simp [e3],
          by simp only [e4, List.length_cons]; omega, ?_⟩
        intro j hj
        cases j with
        | nil => simp at hj
        | cons jd j =>
          obtain ⟨e6, e7⟩ := e5 j (by simpa using hj)
          simp only at e6 e7
          refine ⟨?_, ?_⟩
          · simp only [source_index, List.length_cons]
            omega
          · simp only [source_index, drop_of_getElem? hs, calc_index_cons]
            linarith
      | VALUE v =>
        obtain ⟨s, hs, rfl⟩ := view_desc_value_ok hd
        have hlt := lt_length_of_getElem? hs
        obtain ⟨sh, str, e1, e2, e3, e4, e5⟩ := ih _ st1 st2 (by simp only; omega) h1 h2
        refine ⟨sh, str, e1, e2, e3, e4, ?_⟩
        intro j hj
        obtain ⟨e6, e7⟩ := e5 j hj
        simp only at e6 e7
        refine ⟨?_, ?_⟩
        · simp only [source_index, List.length_cons]
          omega
        · simp only [source_index, drop_of_getElem? hs, calc_index_cons]
          linarith
      | NEWAXIS =>
        have hst0 := view_desc_newaxis_ok hd
        subst hst0
        obtain ⟨sh, str, e1, e2, e3, e4, e5⟩ := ih _ st1 st2 (by simpa using hle) h1 h2
        refine ⟨1 :: sh, 0 :: str, by simpa using e1, by simpa using e2, by simp [e3],
          by simp only [e4, List.length_cons]; omega, ?_⟩
        intro j hj
        cases j with
        | nil => simp at hj
        | cons jd j =>
          obtain ⟨e6, e7⟩ := e5 j (by simpa using hj)
          simp only at e6 e7
          refine ⟨?_, ?_⟩
          · simpa only [source_index] using e6
          · simp only [source_index, calc_index_cons]
            linarith
      | SLICE slice =>
        obtain ⟨step, start, stop, s, hstep, hstart, hstop, hchk, hs, rfl⟩ :=
          view_desc_slice_ok_cases hd
        have hlt := lt_length_of_getElem? hs
        obtain ⟨sh, str, e1, e2, e3, e4, e5⟩ := ih _ st1 st2 (by simp only; omega) h1 h2
        refine ⟨slice_extent start stop step :: sh, s * step :: str, by simpa using e1,
          by simpa using e2, by simp [e3], by simp only [e4, List.length_cons]; omega, ?_⟩
        intro j hj
        cases j with
        | nil => simp at hj
        | cons jd j =>
          obtain ⟨e6, e7⟩ := e5 j (by simpa using hj)
          simp only at e6 e7
          refine ⟨?_, ?_⟩
          · simp only [source_index, hstep, hstart, List.length_cons]
            omega
          · simp only [source_index, hstep, hstart, drop_of_getElem? hs, calc_index_cons]
            linear_combination e7

/-- What `view` has computed when it returns a view: the states after its two
loops. -/
theorem view_ok {EC : Type} {N : Nat} {gslice_none : Int} {e : EC}
    {old_shape old_strides : List Int} {descs : List gdesc} {v : gview EC}
    (hv : view N gslice_none e old_shape old_strides descs = .ok v) :
    ∃ st1 st2, view_descs gslice_none old_shape old_strides descs
        { offset := 0, shape := [], strides := [], new_i := 0, old_i := 0 } = .ok st1 ∧
      view_rest old_shape old_strides st1 = .ok st2 ∧ st2.new_i = N ∧
      v = { e_ := e, offset_ := st2.offset, shape := st2.shape, strides := st2.strides } := by
  simp only [view, bind, Except.bind, pure, Except.pure] at hv
  cases h1 : view_descs gslice_none old_shape old_strides descs
      { offset := 0, shape := [], strides := [], new_i := 0, old_i := 0 } with
  | error err => simp [h1] at hv
  | ok st1 =>
    simp only [h1] at hv
    cases h2 : view_rest old_shape old_strides st1 with
    | error err => simp [h2] at hv
    | ok st2 =>
      simp only [h2] at hv
      split_ifs at hv with h3
      cases hv
      exact ⟨st1, st2, rfl, h2, h3, rfl⟩

/-! ## The elements that a view addresses -/

/-- C1: when `view` returns a view `v` for an input of shape `old_shape` and
strides `old_strides` of the same rank, then `v` has `N` axes, and for every
output multi-index `j` the source multi-index `source_index ... j` has the
rank of the input and the position `offset_ + sum_d j[d] * strides[d]` at which
`v` addresses its inner expression equals `sum_k i[k] * old_strides[k]`; the
element that `data_access_impl` returns there is that element of the input. -/
theorem view_addresses_source {EC α : Type} (N : Nat) (gslice_none : Int) (e : EC)
    (old_shape old_strides : List Int) (descs : List gdesc) (v : gview EC)
    (j : List Int)
    (hlen : old_shape.length = old_strides.length)
    (hv : view N gslice_none e old_shape old_strides descs = .ok v)
    (hj : j.length = v.shape.length) :
    v.e_ = e ∧ v.shape.length = N ∧ v.strides.length = N ∧
    (source_index gslice_none old_shape descs 0 j).length = old_shape.length ∧
    v.offset_ + calc_index v.strides j =
      calc_index old_strides (source_index gslice_none old_shape descs 0 j) ∧
    ∀ data_access : EC → Int → α,
      v.data_access_impl data_access (calc_index v.strides j) =
        data_access e (calc_index old_strides (source_index gslice_none old_shape descs 0 j)) := by
  obtain ⟨st1, st2, h1, h2, h3, rfl⟩ := view_ok hv
  obtain ⟨sh, str, e1, e2, e3, e4, e5⟩ :=
    view_loops_index gslice_none old_shape old_strides hlen descs _ st1 st2
      (Nat.zero_le _) h1 h2
  simp only [List.nil_append, Nat.zero_add] at e1 e2 e4
  simp only at hj
  rw [e1, e3] at hj
  obtain ⟨e6, e7⟩ := e5 j hj
  simp only [List.drop_zero, Nat.add_zero, zero_add] at e6 e7
  have hpos : st2.offset + calc_index st2.strides j =
      calc_index old_strides (source_index gslice_none old_shape descs 0 j) := by
    rw [e2]
    exact e7
  refine ⟨rfl, ?_, ?_, e6, hpos, ?_⟩
  · simp only [e1, e3]
    omega
  · simp only [e2]
    omega
  · intro data_access
    simp only [gview.data_access_impl, hpos]

/-- Witness of C1: the buffer `[11, 12, 13, 21, 22, 23]` with shape `(3, 2)`
and strides `(1, 3)`, viewed through `(ALL, VALUE(1))`, is the rank-1 view of
extent 3, offset 3 and stride 1, whose elements are 21, 22, 23. -/
theorem view_addresses_source_witness :
    view 1 (-2147483648) ([11, 12, 13, 21, 22, 23] : List Int) [3, 2] [1, 3]
        [.ALL, .VALUE 1] =
        .ok { e_ := [11, 12, 13, 21, 22, 23], offset_ := 3, shape := [3], strides := [1] } ∧
      (List.range 3).map (fun j : Nat =>
          gview.data_access_impl buffer_access
            ({ e_ := [11, 12, 13, 21, 22, 23], offset_ := 3, shape := [3], strides := [1] } :
              gview (List Int))
            (calc_index [1] [(j : Int)])) =
        [some 21, some 22, some 23] ∧
      gview.data_access_impl buffer_access
          ({ e_ := [11, 12, 13, 21, 22, 23], offset_ := 3, shape := [3], strides := [1] } :
            gview (List Int))
          (calc_index [1] [2]) =
        buffer_access [11, 12, 13, 21, 22, 23]
          (calc_index [1, 3] (source_index (-2147483648) [3, 2] [.ALL, .VALUE 1] 0 [2])) :=
  ⟨by rfl, by decide,
    (view_addresses_source 1 (-2147483648) ([11, 12, 13, 21, 22, 23] : List Int) [3, 2]
      [1, 3] [.ALL, .VALUE 1]
      { e_ := [11, 12, 13, 21, 22, 23], offset_ := 3, shape := [3], strides := [1] } [2]
      (by rfl) (by rfl) (by rfl)).2.2.2.2.2 buffer_access⟩

/-! ## Runs of `view` on inputs that agree up to a shift of the axes -/

theorem read_axis_congr {a b : List Int} {i k : Nat} (h : a[i]? = b[k]?) :
    read_axis a i = read_axis b k := by
  simp only [read_axis, h]

theorem slice_start_congr (gslice_none : Int) {a b : List Int} {i k : Nat}
    (h : read_axis a i = read_axis b k) (slice : gslice) (step : Int) :
    slice_start gslice_none a i slice step = slice_start gslice_none b k slice step := by
  simp only [slice_start, h]

theorem slice_stop_congr (gslice_none : Int) {a b : List Int} {i k : Nat}
    (h : read_axis a i = read_axis b k) (slice : gslice) (step : Int) :
    slice_stop gslice_none a i slice step = slice_stop gslice_none b k slice step := by
  simp only [slice_stop, h]

theorem slice_check_congr {a b : List Int} {i k : Nat}
    (h : read_axis a i = read_axis b k) (start stop step : Int) :
    slice_check a i start stop step = slice_check b k start stop step := by
  simp only [slice_check, h]

/-- One iteration of the `for` loop in two runs that read the same extent and
stride, the first run being ahead by `k` input axes and by `c` in the offset. -/
theorem view_desc_shift (gslice_none : Int) (sh str sh1 str1 : List Int) (c : Int) (k : Nat)
    (st : view_state) (d : gdesc)
    (h : d.consumes = 1 → sh[st.old_i + k]? = sh1[st.old_i]? ∧
      str[st.old_i + k]? = str1[st.old_i]?) :
    view_desc gslice_none sh str (st.shift c k) d =
      (view_desc gslice_none sh1 str1 st d).map (view_state.shift c k) := by
  cases d with
  | NEWAXIS => rfl
  | ALL =>
    obtain ⟨h1, h2⟩ := h rfl
    have hr1 := read_axis_congr h1
    have hr2 := read_axis_congr h2
    simp only [view_desc, view_state.shift, hr1, hr2, bind, Except.bind, pure, Except.pure]
    cases read_axis sh1 st.old_i with
    | error err => rfl
    | ok E =>
      cases read_axis str1 st.old_i with
      | error err => rfl
      | ok s =>
        simp [Except.map, view_state.shift, Nat.add_right_comm]
  | VALUE v =>
    obtain ⟨h1, h2⟩ := h rfl
    have hr2 := read_axis_congr h2
    simp only [view_desc, view_state.shift, hr2, bind, Except.bind, pure, Except.pure]
    cases read_axis str1 st.old_i with
    | error err => rfl
    | ok s =>
      simp [Except.map, view_state.shift, Nat.add_right_comm, add_right_comm]
  | SLICE slice =>
    obtain ⟨h1, h2⟩ := h rfl
    have hr1 := read_axis_congr h1
    have hr2 := read_axis_congr h2
    cases hstep : slice_step gslice_none slice with
    | error err => simp [view_desc, hstep, bind, Except.bind, Except.map]
    | ok step =>
      cases hstart : slice_start gslice_none sh1 st.old_i slice step with
      | error err =>
        have hstart1 := (slice_start_congr gslice_none hr1 slice step).trans hstart
        simp [view_desc, view_state.shift, hstep, hstart, hstart1, bind, Except.bind,
          Except.map]
      | ok start =>
        have hstart1 := (slice_start_congr gslice_none hr1 slice step).trans hstart
        cases hstop : slice_stop gslice_none sh1 st.old_i slice step with
        | error err =>
          have hstop1 := (slice_stop_congr gslice_none hr1 slice step).trans hstop
          simp [view_desc, view_state.shift, hstep, hstart, hstart1, hstop, hstop1, bind,
            Except.bind, Except.map]
        | ok stop =>
          have hstop1 := (slice_stop_congr gslice_none hr1 slice step).trans hstop
          rw [view_desc_slice_eq hstep hstart hstop,
            @view_desc_slice_eq gslice_none sh str (st.shift c k) slice step start stop hstep
              hstart1 hstop1]
          simp only [view_state.shift, slice_check_congr hr1, hr2]
          cases slice_check sh1 st.old_i start stop step with
          | error err => rfl
          | ok u =>
            cases read_axis str1 st.old_i with
            | error err => rfl
            | ok s =>
              simp [Except.map, view_state.shift, Nat.add_right_comm, add_right_comm]

/-- Each iteration of the `for` loop advances `old_i` by the number of axes that
its descriptor consumes. -/
theorem view_desc_old_i {gslice_none : Int} {old_shape old_strides : List Int}
    {st st1 : view_state} {d : gdesc}
    (h : view_desc gslice_none old_shape old_strides st d = .ok st1) :
    st1.old_i = st.old_i + d.consumes := by
  cases d with
  | ALL =>
    obtain ⟨E, s, -, -, rfl⟩ := view_desc_all_ok h
    rfl
  | VALUE v =>
    obtain ⟨s, -, rfl⟩ := view_desc_value_ok h
    rfl
  | NEWAXIS =>
    rw [view_desc_newaxis_ok h]
    rfl
  | SLICE slice =>
    obtain ⟨step, start, stop, s, -, -, -, -, -, rfl⟩ := view_desc_slice_ok_cases h
    rfl

theorem view_descs_old_i {gslice_none : Int} {old_shape old_strides : List Int}
    (ds : List gdesc) :
    ∀ {st st1 : view_state},
      view_descs gslice_none old_shape old_strides ds st = .ok st1 →
      st1.old_i = st.old_i + consumed_axes ds := by
  induction ds with
  | nil =>
    intro st st1 h
    simp only [view_descs] at h
    cases h
    simp [consumed_axes]
  | cons d ds ih =>
    intro st st1 h
    simp only [view_descs, bind, Except.bind] at h
    cases hd : view_desc gslice_none old_shape old_strides st d with
    | error err => simp [hd] at h
    | ok st0 =>
      simp only [hd] at h
      rw [ih h, view_desc_old_i hd]
      simp only [consumed_axes, List.map_cons, List.sum_cons]
      omega

/-- The `for` loop in two runs that read the same extents and strides, the
first run being ahead by `k` input axes and by `c` in the offset. -/
theorem view_descs_shift (gslice_none : Int) (sh str sh1 str1 : List Int) (c : Int) (k : Nat)
    (ds : List gdesc) :
    ∀ st : view_state,
      (∀ m, st.old_i ≤ m → m < st.old_i + consumed_axes ds →
        sh[m + k]? = sh1[m]? ∧ str[m + k]? = str1[m]?) →
      view_descs gslice_none sh str ds (st.shift c k) =
        (view_descs gslice_none sh1 str1 ds st).map (view_state.shift c k) := by
  induction ds with
  | nil =>
    intro st _
    rfl
  | cons d ds ih =>
    intro st h
    have hcons : consumed_axes (d :: ds) = d.consumes + consumed_axes ds := by
      simp [consumed_axes]
    have hd := view_desc_shift gslice_none sh str sh1 str1 c k st d (by
      intro h1
      exact h st.old_i (le_refl _) (by omega))
    simp only [view_descs, bind, Except.bind, hd]
    cases hd1 : view_desc gslice_none sh1 str1 st d with
    | error err => rfl
    | ok st0 =>
      have hold := view_desc_old_i hd1
      simp only [Except.map]
      exact ih st0 (by
        intro m hm1 hm2
        exact h m (by omega) (by omega))

/-- The `while` loop in two runs whose remaining input axes agree, the first run
being ahead by `k` input axes and by `c` in the offset. -/
theorem view_rest_loop_shift (sh str sh1 str1 : List Int) (c : Int) (k : Nat)
    (hlen : sh.length = sh1.length + k) (n : Nat) :
    ∀ st : view_state,
      (∀ m, st.old_i ≤ m → sh[m + k]? = sh1[m]? ∧ str[m + k]? = str1[m]?) →
      view_rest_loop sh str n (st.shift c k) =
        (view_rest_loop sh1 str1 n st).map (view_state.shift c k) := by
  induction n with
  | zero =>
    intro st _
    rfl
  | succ n ih =>
    intro st h
    obtain ⟨h1, h2⟩ := h st.old_i (le_refl _)
    have hr1 := read_axis_congr h1
    have hr2 := read_axis_congr h2
    by_cases hlt : st.old_i < sh1.length
    · have hlt1 : st.old_i + k < sh.length := by omega
      simp only [view_rest_loop, view_state.shift, hlt, hlt1, if_true, hr1, hr2, bind,
        Except.bind]
      cases read_axis sh1 st.old_i with
      | error err => rfl
      | ok E =>
        cases read_axis str1 st.old_i with
        | error err => rfl
        | ok s =>
          have := ih { offset := st.offset, shape := st.shape ++ [E],
                       strides := st.strides ++ [s], new_i := st.new_i + 1,
                       old_i := st.old_i + 1 } (by
            intro m hm
            exact h m (by simp only at hm; omega))
          simp only [view_state.shift] at this
          simp only [Nat.add_right_comm _ k 1]
          exact this
    · have hlt1 : ¬ (st.old_i + k < sh.length) := by omega
      simp only [view_rest_loop, view_state.shift, hlt, hlt1, if_false]
      rfl

theorem view_rest_shift (sh str sh1 str1 : List Int) (c : Int) (k : Nat)
    (hlen : sh.length = sh1.length + k) (st : view_state)
    (h : ∀ m, st.old_i ≤ m → sh[m + k]? = sh1[m]? ∧ str[m + k]? = str1[m]?) :
    view_rest sh str (st.shift c k) =
      (view_rest sh1 str1 st).map (view_state.shift c k) := by
  have hn : sh.length - (st.shift c k).old_i = sh1.length - st.old_i := by
    simp only [view_state.shift]
    omega
  simp only [view_rest, hn]
  exact view_rest_loop_shift sh str sh1 str1 c k hlen _ st h

theorem view_state.shift_zero (st : view_state) : st.shift 0 0 = st := by
  cases st
  simp [view_state.shift]

theorem map_shift_zero (x : Except ViewError view_state) :
    x.map (view_state.shift 0 0) = x := by
  cases x with
  | error err => rfl
  | ok st => simp [Except.map, view_state.shift_zero]

/-- The tail of `view` after the `for` loop: the `while` loop, the assertion on
the rank and the construction of the view, in two runs whose remaining input
axes agree, the first run being ahead by `k` input axes and by `c` in the
offset. -/
theorem view_finish_shift {EC : Type} (N : Nat) (e : EC) (sh str sh1 str1 : List Int)
    (c : Int) (k : Nat) (hlen : sh.length = sh1.length + k)
    (x : Except ViewError view_state)
    (h : ∀ st, x = .ok st →
      ∀ m, st.old_i ≤ m → sh[m + k]? = sh1[m]? ∧ str[m + k]? = str1[m]?) :
    ((x.map (view_state.shift c k)).bind fun st =>
        (view_rest sh str st).bind fun st2 =>
          if st2.new_i = N then
            (.ok { e_ := e, offset_ := st2.offset, shape := st2.shape,
                   strides := st2.strides } : Except ViewError (gview EC))
          else .error .RankMismatch) =
      ((x.bind fun st =>
        (view_rest sh1 str1 st).bind fun st2 =>
          if st2.new_i = N then
            (.ok { e_ := e, offset_ := st2.offset, shape := st2.shape,
                   strides := st2.strides } : Except ViewError (gview EC))
          else .error .RankMismatch).map
        fun v => { v with offset_ := v.offset_ + c }) := by
  cases x with
  | error err => rfl
  | ok st =>
    simp only [Except.map, Except.bind]
    rw [view_rest_shift sh str sh1 str1 c k hlen st (h st rfl)]
    cases view_rest sh1 str1 st with
    | error err => rfl
    | ok st2 =>
      simp only [Except.map, Except.bind, view_state.shift]
      split_ifs <;> rfl

/-! ## The descriptor `VALUE` -/

/-- The descriptor `VALUE(i)` in terms of the integer sum of the products that
`view` adds to the offset: met at the input axis `consumed_axes pre`, whose
stride is `s`, it adds `i * s` to the sum, advances to the next input axis and
leaves the output shape, the output strides and `new_i` as they are.  The view
of `pre ++ VALUE(i) :: post` is the view that the other descriptors
`pre ++ post` give on the input without that axis, with `i * s` added to the
sum, or the same error. -/
theorem view_value_sum {EC : Type} (N : Nat) (gslice_none : Int) (e : EC)
    (old_shape old_strides : List Int) (pre post : List gdesc) (i s : Int)
    (hlen : old_shape.length = old_strides.length)
    (hs : old_strides[consumed_axes pre]? = some s) :
    (∀ st : view_state, st.old_i = consumed_axes pre →
      view_desc gslice_none old_shape old_strides st (.VALUE i) =
        .ok { offset := st.offset + i * s, shape := st.shape, strides := st.strides,
              new_i := st.new_i, old_i := st.old_i + 1 }) ∧
    view N gslice_none e old_shape old_strides (pre ++ .VALUE i :: post) =
      (view N gslice_none e (old_shape.eraseIdx (consumed_axes pre))
        (old_strides.eraseIdx (consumed_axes pre)) (pre ++ post)).map
        (fun v => { v with offset_ := v.offset_ + i * s }) := by
  have hvalue : ∀ st : view_state, st.old_i = consumed_axes pre →
      view_desc gslice_none old_shape old_strides st (.VALUE i) =
        .ok { offset := st.offset + i * s, shape := st.shape, strides := st.strides,
              new_i := st.new_i, old_i := st.old_i + 1 } := by
    intro st hst
    rw [← hst] at hs
    simp [view_desc, read_axis_of_getElem? hs, bind, Except.bind, pure, Except.pure]
  refine ⟨hvalue, ?_⟩
  have hk : consumed_axes pre < old_strides.length := lt_length_of_getElem? hs
  have hlen1 : old_shape.length =
      (old_shape.eraseIdx (consumed_axes pre)).length + 1 := by
    rw [List.length_eraseIdx_of_lt (by omega)]
    omega
  have hbefore : ∀ m, m < consumed_axes pre →
      old_shape[m + 0]? = (old_shape.eraseIdx (consumed_axes pre))[m]? ∧
      old_strides[m + 0]? = (old_strides.eraseIdx (consumed_axes pre))[m]? := by
    intro m hm
    rw [List.getElem?_eraseIdx_of_lt _ _ _ hm, List.getElem?_eraseIdx_of_lt _ _ _ hm]
    exact ⟨rfl, rfl⟩
  have hafter : ∀ m, consumed_axes pre ≤ m →
      old_shape[m + 1]? = (old_shape.eraseIdx (consumed_axes pre))[m]? ∧
      old_strides[m + 1]? = (old_strides.eraseIdx (consumed_axes pre))[m]? := by
    intro m hm
    rw [List.getElem?_eraseIdx_of_ge _ _ _ hm, List.getElem?_eraseIdx_of_ge _ _ _ hm]
    exact ⟨rfl, rfl⟩
  have hpre := view_descs_shift gslice_none old_shape old_strides
    (old_shape.eraseIdx (consumed_axes pre)) (old_strides.eraseIdx (consumed_axes pre))
    0 0 pre { offset := 0, shape := [], strides := [], new_i := 0, old_i := 0 } (by
      intro m _ hm
      exact hbefore m (by simpa using hm))
  rw [view_state.shift_zero, map_shift_zero] at hpre
  simp only [view, bind, pure, Except.pure]
  rw [view_descs_append, view_descs_append, hpre]
  cases hrun : view_descs gslice_none (old_shape.eraseIdx (consumed_axes pre))
      (old_strides.eraseIdx (consumed_axes pre)) pre
      { offset := 0, shape := [], strides := [], new_i := 0, old_i := 0 } with
  | error err => rfl
  | ok st1 =>
    have hold : st1.old_i = consumed_axes pre := by
      rw [view_descs_old_i pre hrun]
      simp
    have hval : view_desc gslice_none old_shape old_strides st1 (.VALUE i) =
        .ok (st1.shift (i * s) 1) := hvalue st1 hold
    have hpost := view_descs_shift gslice_none old_shape old_strides
      (old_shape.eraseIdx (consumed_axes pre)) (old_strides.eraseIdx (consumed_axes pre))
      (i * s) 1 post st1 (by
        intro m hm _
        exact hafter m (by omega))
    simp only [Except.bind, view_descs, bind, hval, hpost]
    exact view_finish_shift N e old_shape old_strides _ _ (i * s) 1 hlen1 _ (by
      intro st hst m hm
      have := view_descs_old_i post hst
      exact hafter m (by omega))

/-! ## Runs of `view` that differ in the output axes already written -/

theorem map_eq_ok {α β : Type} {f : α → β} {x : Except ViewError α} {y : β}
    (h : x.map f = .ok y) : ∃ a, x = .ok a ∧ y = f a := by
  cases x with
  | error err => cases h
  | ok a =>
    simp only [Except.map] at h
    cases h
    exact ⟨a, rfl, rfl⟩

theorem bind_eq_ok {α β : Type} {f : α → Except ViewError β} {x : Except ViewError α} {y : β}
    (h : x.bind f = .ok y) : ∃ a, x = .ok a ∧ f a = .ok y := by
  cases x with
  | error err => cases h
  | ok a => exact ⟨a, rfl, h⟩

/-- One iteration of the `for` loop does not read the output arrays: what has
been written before is kept in front of what the iteration writes. -/
theorem view_desc_prepend (gslice_none : Int) (old_shape old_strides sh str : List Int)
    (n : Nat) (st : view_state) (d : gdesc) :
    view_desc gslice_none old_shape old_strides (st.prepend sh str n) d =
      (view_desc gslice_none old_shape old_strides st d).map (view_state.prepend sh str n) := by
  cases d with
  | NEWAXIS =>
    simp [view_desc, view_state.prepend, Except.map, pure, Except.pure, Nat.add_assoc]
  | ALL =>
    simp only [view_desc, view_state.prepend, bind, Except.bind, pure, Except.pure]
    cases read_axis old_shape st.old_i with
    | error err => rfl
    | ok E =>
      cases read_axis old_strides st.old_i with
      | error err => rfl
      | ok s => simp [Except.map, view_state.prepend, Nat.add_assoc]
  | VALUE v =>
    simp only [view_desc, view_state.prepend, bind, Except.bind, pure, Except.pure]
    cases read_axis old_strides st.old_i with
    | error err => rfl
    | ok s => simp [Except.map, view_state.prepend]
  | SLICE slice =>
    cases hstep : slice_step gslice_none slice with
    | error err => simp [view_desc, hstep, bind, Except.bind, Except.map]
    | ok step =>
      cases hstart : slice_start gslice_none old_shape st.old_i slice step with
      | error err =>
        simp [view_desc, view_state.prepend, hstep, hstart, bind, Except.bind, Except.map]
      | ok start =>
        cases hstop : slice_stop gslice_none old_shape st.old_i slice step with
        | error err =>
          simp [view_desc, view_state.prepend, hstep, hstart, hstop, bind, Except.bind,
            Except.map]
        | ok stop =>
          rw [view_desc_slice_eq hstep hstart hstop,
            @view_desc_slice_eq gslice_none old_shape old_strides (st.prepend sh str n) slice
              step start stop hstep hstart hstop]
          simp only [view_state.prepend]
          cases slice_check old_shape st.old_i start stop step with
          | error err => rfl
          | ok u =>
            cases read_axis old_strides st.old_i with
            | error err => rfl
            | ok s => simp [Except.map, view_state.prepend, Nat.add_assoc]

theorem view_descs_prepend (gslice_none : Int) (old_shape old_strides sh str : List Int)
    (n : Nat) (ds : List gdesc) :
    ∀ st : view_state,
      view_descs gslice_none old_shape old_strides ds (st.prepend sh str n) =
        (view_descs gslice_none old_shape old_strides ds st).map
          (view_state.prepend sh str n) := by
  induction ds with
  | nil =>
    intro st
    rfl
  | cons d ds ih =>
    intro st
    simp only [view_descs, bind, Except.bind, view_desc_prepend]
    cases view_desc gslice_none old_shape old_strides st d with
    | error err => rfl
    | ok st0 =>
      simp only [Except.map]
      exact ih st0

theorem view_rest_loop_prepend (old_shape old_strides sh str : List Int) (n k : Nat) :
    ∀ st : view_state,
      view_rest_loop old_shape old_strides k (st.prepend sh str n) =
        (view_rest_loop old_shape old_strides k st).map (view_state.prepend sh str n) := by
  induction k with
  | zero =>
    intro st
    rfl
  | succ k ih =>
    intro st
    by_cases hlt : st.old_i < old_shape.length
    · simp only [view_rest_loop, view_state.prepend, hlt, if_true, bind, Except.bind]
      cases read_axis old_shape st.old_i with
      | error err => rfl
      | ok E =>
        cases read_axis old_strides st.old_i with
        | error err => rfl
        | ok s =>
          have := ih { offset := st.offset, shape := st.shape ++ [E],
                       strides := st.strides ++ [s], new_i := st.new_i + 1,
                       old_i := st.old_i + 1 }
          simp only [view_state.prepend, List.append_assoc, Nat.add_assoc] at this ⊢
          exact this
    · simp only [view_rest_loop, view_state.prepend, hlt, if_false]
      rfl

theorem view_rest_prepend (old_shape old_strides sh str : List Int) (n : Nat)
    (st : view_state) :
    view_rest old_shape old_strides (st.prepend sh str n) =
      (view_rest old_shape old_strides st).map (view_state.prepend sh str n) :=
  view_rest_loop_prepend old_shape old_strides sh str n _ st

theorem view_state.prepend_base (st : view_state) :
    ({ offset := st.offset, shape := [], strides := [], new_i := 0, old_i := st.old_i } :
      view_state).prepend st.shape st.strides st.new_i = st := by
  cases st
  simp [view_state.prepend]

/-- Each iteration of the `for` loop appends as many extents and strides as its
descriptor produces output axes, and advances `new_i` by that number. -/
theorem view_desc_new_i {gslice_none : Int} {old_shape old_strides : List Int}
    {st st1 : view_state} {d : gdesc}
    (h : view_desc gslice_none old_shape old_strides st d = .ok st1) :
    st1.shape.length = st.shape.length + d.produces ∧
    st1.strides.length = st.strides.length + d.produces ∧
    st1.new_i = st.new_i + d.produces := by
  cases d with
  | ALL =>
    obtain ⟨E, s, -, -, rfl⟩ := view_desc_all_ok h
    simp [gdesc.produces]
  | VALUE v =>
    obtain ⟨s, -, rfl⟩ := view_desc_value_ok h
    simp [gdesc.produces]
  | NEWAXIS =>
    rw [view_desc_newaxis_ok h]
    simp [gdesc.produces]
  | SLICE slice =>
    obtain ⟨step, start, stop, s, -, -, -, -, -, rfl⟩ := view_desc_slice_ok_cases h
    simp [gdesc.produces]

theorem view_descs_new_i {gslice_none : Int} {old_shape old_strides : List Int}
    (ds : List gdesc) :
    ∀ {st st1 : view_state},
      view_descs gslice_none old_shape old_strides ds st = .ok st1 →
      st1.shape.length = st.shape.length + produced_axes ds ∧
      st1.strides.length = st.strides.length + produced_axes ds ∧
      st1.new_i = st.new_i + produced_axes ds := by
  induction ds with
  | nil =>
    intro st st1 h
    simp only [view_descs] at h
    cases h
    simp [produced_axes]
  | cons d ds ih =>
    intro st st1 h
    simp only [view_descs, bind, Except.bind] at h
    cases hd : view_desc gslice_none old_shape old_strides st d with
    | error err => simp [hd] at h
    | ok st0 =>
      simp only [hd] at h
      obtain ⟨a1, a2, a3⟩ := ih h
      obtain ⟨b1, b2, b3⟩ := view_desc_new_i hd
      simp only [produced_axes, List.map_cons, List.sum_cons] at a1 a2 a3 ⊢
      omega

/-- The run of `view` after a first part `pre` of the descriptors that is
processed without error: the rest of the run starts from the offset and the
input axis reached, and its output axes follow those of `pre`. -/
theorem view_eq_tail {EC : Type} (N : Nat) (gslice_none : Int) (e : EC)
    (old_shape old_strides : List Int) (pre post : List gdesc) (st1 : view_state)
    (hpre : view_descs gslice_none old_shape old_strides pre
      { offset := 0, shape := [], strides := [], new_i := 0, old_i := 0 } = .ok st1) :
    view N gslice_none e old_shape old_strides (pre ++ post) =
      ((view_descs gslice_none old_shape old_strides post
          { offset := st1.offset, shape := [], strides := [], new_i := 0,
            old_i := st1.old_i }).bind (view_rest old_shape old_strides)).bind
        fun b2 =>
          if st1.new_i + b2.new_i = N then
            .ok { e_ := e, offset_ := b2.offset, shape := st1.shape ++ b2.shape,
                  strides := st1.strides ++ b2.strides }
          else .error .RankMismatch := by
  simp only [view, bind, pure, Except.pure]
  rw [view_descs_append, hpre]
  simp only [Except.bind]
  have h1 := view_descs_prepend gslice_none old_shape old_strides st1.shape st1.strides
    st1.new_i post
    { offset := st1.offset, shape := [], strides := [], new_i := 0, old_i := st1.old_i }
  rw [view_state.prepend_base] at h1
  rw [h1]
  cases view_descs gslice_none old_shape old_strides post
      { offset := st1.offset, shape := [], strides := [], new_i := 0,
        old_i := st1.old_i } with
  | error err => rfl
  | ok bA =>
    simp only [Except.map, view_rest_prepend]
    cases view_rest old_shape old_strides bA with
    | error err => rfl
    | ok b2 => rfl

/-! ## The descriptor `NEWAXIS` -/

/-- C11: when `view` returns the view `v` for the descriptors `pre ++ post`,
then for the descriptors with a `NEWAXIS` inserted between `pre` and `post`
(and a declared rank higher by one) it returns the view with the same inner
expression and offset, whose shape and strides are those of `v` with an extent
1 and a stride 0 inserted at the output position `produced_axes pre`; the
product of the extents is the same; and the loop body for `NEWAXIS` leaves
`old_i` and the offset as they are. -/
theorem view_newaxis {EC : Type} (N : Nat) (gslice_none : Int) (e : EC)
    (old_shape old_strides : List Int) (pre post : List gdesc) (v : gview EC)
    (hv : view N gslice_none e old_shape old_strides (pre ++ post) = .ok v) :
    view (N + 1) gslice_none e old_shape old_strides (pre ++ .NEWAXIS :: post) =
      .ok { e_ := e, offset_ := v.offset_,
            shape := v.shape.take (produced_axes pre) ++ 1 ::
              v.shape.drop (produced_axes pre),
            strides := v.strides.take (produced_axes pre) ++ 0 ::
              v.strides.drop (produced_axes pre) } ∧
    calc_size (v.shape.take (produced_axes pre) ++ 1 :: v.shape.drop (produced_axes pre))
      = calc_size v.shape ∧
    (∀ st : view_state,
      view_desc gslice_none old_shape old_strides st .NEWAXIS =
        .ok { offset := st.offset, shape := st.shape ++ [1], strides := st.strides ++ [0],
              new_i := st.new_i + 1, old_i := st.old_i }) := by
  refine ⟨?_, ?_, fun st => rfl⟩
  · cases hpre : view_descs gslice_none old_shape old_strides pre
        { offset := 0, shape := [], strides := [], new_i := 0, old_i := 0 } with
    | error err =>
      simp [view, view_descs_append, hpre, Except.bind, bind] at hv
    | ok st1 =>
      obtain ⟨hl1, hl2, -⟩ := view_descs_new_i pre hpre
      simp only [List.length_nil, Nat.zero_add] at hl1 hl2
      have hpre1 : view_descs gslice_none old_shape old_strides (pre ++ [.NEWAXIS])
          { offset := 0, shape := [], strides := [], new_i := 0, old_i := 0 } =
          .ok { offset := st1.offset, shape := st1.shape ++ [1],
                strides := st1.strides ++ [0], new_i := st1.new_i + 1,
                old_i := st1.old_i } := by
        rw [view_descs_append, hpre]
        rfl
      have hnew := view_eq_tail (N + 1) gslice_none e old_shape old_strides
        (pre ++ [.NEWAXIS]) post _ hpre1
      rw [view_eq_tail N gslice_none e old_shape old_strides pre post st1 hpre] at hv
      simp only [List.append_assoc, List.singleton_append] at hnew
      rw [hnew]
      obtain ⟨b2, hb2, hv2⟩ := bind_eq_ok hv
      rw [hb2]
      simp only [Except.bind]
      split_ifs at hv2 with hN
      cases hv2
      have hN1 : st1.new_i + 1 + b2.new_i = N + 1 := by omega
      simp only [hN1, if_true, List.take_left' hl1, List.drop_left' hl1,
        List.take_left' hl2, List.drop_left' hl2, List.append_assoc,
        List.singleton_append]
  · simp only [calc_size]
    rw [List.prod_append, List.prod_cons, one_mul, ← List.prod_append, List.take_append_drop]

/-- Witness of C11 on the input of shape `(3, 2)` and strides `(1, 3)`: a
`NEWAXIS` between `ALL` and `VALUE(1)` gives the shape `(3, 1)` and the
strides `(1, 0)` with the offset 3 of the view without it. -/
theorem view_newaxis_witness :
    view (1 + 1) (-2147483648) () [3, 2] [1, 3] ([gdesc.ALL] ++ .NEWAXIS :: [.VALUE 1]) =
      .ok { e_ := (), offset_ := 3, shape := [3, 1], strides := [1, 0] } :=
  (view_newaxis 1 (-2147483648) () [3, 2] [1, 3] [.ALL] [.VALUE 1]
    { e_ := (), offset_ := 3, shape := [3], strides := [1] } (by rfl)).1

/-! ## The input axes that the descriptors leave over -/

/-- The `while` loop acts as explicit `ALL` descriptors for the input axes that
are left over. -/
theorem view_rest_loop_eq_all (gslice_none : Int) (old_shape old_strides : List Int)
    (n : Nat) :
    ∀ st : view_state, n = old_shape.length - st.old_i →
      view_rest_loop old_shape old_strides n st =
        (view_descs gslice_none old_shape old_strides (List.replicate n .ALL) st).bind
          (view_rest old_shape old_strides) := by
  induction n with
  | zero =>
    intro st hn
    simp only [List.replicate, view_descs, Except.bind, view_rest, ← hn]
  | succ n ih =>
    intro st hn
    have hlt : st.old_i < old_shape.length := by omega
    simp only [List.replicate, view_descs, view_desc, view_rest_loop, hlt, if_true, bind,
      Except.bind, pure, Except.pure]
    cases read_axis old_shape st.old_i with
    | error err => rfl
    | ok E =>
      cases read_axis old_strides st.old_i with
      | error err => rfl
      | ok s =>
        simp only
        exact ih _ (by simp only; omega)

/-- The `while` loop ends without error when the input strides are as many as
the input extents. -/
theorem view_rest_loop_total (old_shape old_strides : List Int)
    (hlen : old_shape.length = old_strides.length) (n : Nat) :
    ∀ st : view_state, n = old_shape.length - st.old_i →
      view_rest_loop old_shape old_strides n st =
        .ok { offset := st.offset, shape := st.shape ++ old_shape.drop st.old_i,
              strides := st.strides ++ old_strides.drop st.old_i,
              new_i := st.new_i + n, old_i := st.old_i + n } := by
  induction n with
  | zero =>
    intro st hn
    have h1 : old_shape.drop st.old_i = [] := List.drop_eq_nil_of_le (by omega)
    have h2 : old_strides.drop st.old_i = [] := List.drop_eq_nil_of_le (by omega)
    simp [view_rest_loop, h1, h2]
  | succ n ih =>
    intro st hn
    have hlt : st.old_i < old_shape.length := by omega
    have hlt2 : st.old_i < old_strides.length := by omega
    have hE : old_shape[st.old_i]? = some old_shape[st.old_i] :=
      List.getElem?_eq_getElem hlt
    have hs : old_strides[st.old_i]? = some old_strides[st.old_i] :=
      List.getElem?_eq_getElem hlt2
    simp only [view_rest_loop, hlt, if_true, bind, Except.bind, read_axis_of_getElem? hE,
      read_axis_of_getElem? hs]
    rw [ih _ (by simp only; omega), drop_of_getElem? hE, drop_of_getElem? hs]
    simp [Nat.add_assoc, Nat.add_comm 1 n]

/-- C12: for an input whose shape and strides have the same rank `R` and
descriptors that consume `c` input axes, `view` returns the same view or the
same error as for the descriptors followed by `R - c` explicit `ALL` (one for
each input axis that is left over; none when `c ≥ R`); the empty descriptor list
and the list of `R` descriptors `ALL` return the shape and the strides of the
input with offset 0. -/
theorem view_trailing_all {EC : Type} (N : Nat) (gslice_none : Int) (e : EC)
    (old_shape old_strides : List Int) (descs : List gdesc)
    (hlen : old_shape.length = old_strides.length) :
    view N gslice_none e old_shape old_strides descs =
      view N gslice_none e old_shape old_strides
        (descs ++ List.replicate (old_shape.length - consumed_axes descs) .ALL) ∧
    view old_shape.length gslice_none e old_shape old_strides [] =
      .ok { e_ := e, offset_ := 0, shape := old_shape, strides := old_strides } ∧
    view old_shape.length gslice_none e old_shape old_strides
        (List.replicate old_shape.length .ALL) =
      .ok { e_ := e, offset_ := 0, shape := old_shape, strides := old_strides } := by
  have hgen : ∀ (M : Nat) (ds : List gdesc),
      view M gslice_none e old_shape old_strides ds =
        view M gslice_none e old_shape old_strides
          (ds ++ List.replicate (old_shape.length - consumed_axes ds) .ALL) := by
    intro M ds
    simp only [view, bind, pure, Except.pure]
    rw [view_descs_append]
    cases hrun : view_descs gslice_none old_shape old_strides ds
        { offset := 0, shape := [], strides := [], new_i := 0, old_i := 0 } with
    | error err => rfl
    | ok st1 =>
      have hold : st1.old_i = consumed_axes ds := by
        rw [view_descs_old_i ds hrun]
        simp
      simp only [Except.bind]
      have := view_rest_loop_eq_all gslice_none old_shape old_strides
        (old_shape.length - consumed_axes ds) st1 (by rw [hold])
      rw [← hold] at this ⊢
      simp only [view_rest] at this ⊢
      rw [this]
      cases view_descs gslice_none old_shape old_strides
          (List.replicate (old_shape.length - st1.old_i) .ALL) st1 with
      | error err => rfl
      | ok st2 => rfl
  have hempty : view old_shape.length gslice_none e old_shape old_strides [] =
      .ok { e_ := e, offset_ := 0, shape := old_shape, strides := old_strides } := by
    have h := view_rest_loop_total old_shape old_strides hlen (old_shape.length - 0)
      { offset := 0, shape := [], strides := [], new_i := 0, old_i := 0 } rfl
    simp only [Nat.sub_zero] at h
    simp [view, view_descs, view_rest, bind, Except.bind, pure, Except.pure, h]
  refine ⟨hgen N descs, hempty, ?_⟩
  have := hgen old_shape.length []
  simp only [consumed_axes, List.map_nil, List.sum_nil, Nat.sub_zero, List.nil_append] at this
  rw [← this]
  exact hempty

/-- Witness of C12 on the input of shape `(3, 2)` and strides `(1, 3)`: the
descriptor `VALUE(2)` alone acts as `(VALUE(2), ALL)`. -/
theorem view_trailing_all_witness :
    view 1 (-2147483648) () [3, 2] [1, 3] [.VALUE 2] =
      view 1 (-2147483648) () [3, 2] [1, 3]
        ([.VALUE 2] ++ List.replicate ([3, 2].length - consumed_axes [.VALUE 2]) .ALL) :=
  (view_trailing_all 1 (-2147483648) () [3, 2] [1, 3] [.VALUE 2] (by rfl)).1

/-! ## The rank of the view -/

theorem consumed_axes_cons (d : gdesc) (ds : List gdesc) :
    consumed_axes (d :: ds) = d.consumes + consumed_axes ds := by
  simp [consumed_axes]

theorem consumed_axes_append (pre post : List gdesc) :
    consumed_axes (pre ++ post) = consumed_axes pre + consumed_axes post := by
  simp [consumed_axes]

theorem produced_axes_cons (d : gdesc) (ds : List gdesc) :
    produced_axes (d :: ds) = d.produces + produced_axes ds := by
  simp [produced_axes]

theorem produced_axes_append (pre post : List gdesc) :
    produced_axes (pre ++ post) = produced_axes pre + produced_axes post := by
  simp [produced_axes]

/-- Each descriptor other than `VALUE` and `NEWAXIS` consumes one input axis and
produces one output axis; a `VALUE` only consumes, a `NEWAXIS` only produces. -/
theorem produced_add_values (ds : List gdesc) :
    produced_axes ds + ds.countP gdesc.isValue =
      consumed_axes ds + ds.countP gdesc.isNewaxis := by
  induction ds with
  | nil => rfl
  | cons d ds ih =>
    rw [produced_axes_cons, consumed_axes_cons, List.countP_cons, List.countP_cons]
    cases d <;> simp [gdesc.produces, gdesc.consumes, gdesc.isValue, gdesc.isNewaxis] <;> omega

theorem values_le_consumed (ds : List gdesc) :
    ds.countP gdesc.isValue ≤ consumed_axes ds := by
  induction ds with
  | nil => simp
  | cons d ds ih =>
    rw [consumed_axes_cons, List.countP_cons]
    cases d <;> simp [gdesc.consumes, gdesc.isValue] <;> omega

/-- An iteration of the `for` loop whose input axis exists fails only with one
of the errors of a slice. -/
theorem view_desc_error_of_lt {gslice_none : Int} {old_shape old_strides : List Int}
    {st : view_state} {d : gdesc} {err : ViewError}
    (hlen : old_shape.length = old_strides.length)
    (hlt : d.consumes = 1 → st.old_i < old_shape.length)
    (h : view_desc gslice_none old_shape old_strides st d = .error err) :
    err ≠ .AxisOutOfRange := by
  cases d with
  | NEWAXIS => cases h
  | ALL =>
    have h1 := hlt rfl
    have h2 : st.old_i < old_strides.length := by omega
    have hE : old_shape[st.old_i]? = some old_shape[st.old_i] := List.getElem?_eq_getElem h1
    have hs : old_strides[st.old_i]? = some old_strides[st.old_i] :=
      List.getElem?_eq_getElem h2
    simp [view_desc, read_axis_of_getElem? hE, read_axis_of_getElem? hs, bind, Except.bind,
      pure, Except.pure] at h
  | VALUE v =>
    have h1 := hlt rfl
    have h2 : st.old_i < old_strides.length := by omega
    have hs : old_strides[st.old_i]? = some old_strides[st.old_i] :=
      List.getElem?_eq_getElem h2
    simp [view_desc, read_axis_of_getElem? hs, bind, Except.bind, pure, Except.pure] at h
  | SLICE slice =>
    have h1 := hlt rfl
    have h2 : st.old_i < old_strides.length := by omega
    have hE := read_axis_of_getElem? (List.getElem?_eq_getElem h1)
    have hs : old_strides[st.old_i]? = some old_strides[st.old_i] :=
      List.getElem?_eq_getElem h2
    have hrs := read_axis_of_getElem? hs
    cases hstep : slice_step gslice_none slice with
    | error err1 =>
      simp only [view_desc, hstep, bind, Except.bind] at h
      cases h
      simp only [slice_step] at hstep
      split_ifs at hstep <;> cases hstep <;> simp
    | ok step =>
      have hstart : ∃ start, slice_start gslice_none old_shape st.old_i slice step
          = .ok start := by
        simp only [slice_start, hE, Except.map]
        split_ifs <;> exact ⟨_, rfl⟩
      have hstop : ∃ stop, slice_stop gslice_none old_shape st.old_i slice step
          = .ok stop := by
        simp only [slice_stop, hE, Except.map]
        split_ifs <;> exact ⟨_, rfl⟩
      obtain ⟨start, hstart⟩ := hstart
      obtain ⟨stop, hstop⟩ := hstop
      rw [view_desc_slice_eq hstep hstart hstop] at h
      simp only [slice_check, hE, hrs] at h
      split_ifs at h <;> cases h <;> simp

theorem view_descs_error_of_le {gslice_none : Int} {old_shape old_strides : List Int}
    (hlen : old_shape.length = old_strides.length) (ds : List gdesc) :
    ∀ {st : view_state} {err : ViewError},
      st.old_i + consumed_axes ds ≤ old_shape.length →
      view_descs gslice_none old_shape old_strides ds st = .error err →
      err ≠ .AxisOutOfRange := by
  induction ds with
  | nil =>
    intro st err _ h
    cases h
  | cons d ds ih =>
    intro st err hle h
    rw [consumed_axes_cons] at hle
    simp only [view_descs, bind, Except.bind] at h
    cases hd : view_desc gslice_none old_shape old_strides st d with
    | error err1 =>
      simp only [hd] at h
      cases h
      exact view_desc_error_of_lt hlen (by omega) hd
    | ok st0 =>
      simp only [hd] at h
      have := view_desc_old_i hd
      exact ih (by omega) h

/-- C13: for an input whose shape and strides have the rank `R`, and
descriptors that consume at most `R` input axes and raise none of the errors of
a slice: every iteration of the `for` loop that reads the input reads it at an
index `old_i < R`, the two loops end without a read out of range (the `while`
loop reads at the indices from `old_i ≤ R` up to `R - 1`), the number `new_i` of
output axes is `R` minus the number of `VALUE` plus the number of `NEWAXIS`,
`view` returns a view exactly when the declared rank `N` is that number and
fails on the assertion otherwise; and when `new_i = N`, every write of the two
loops is at an index `new_i < N` (which is the number of entries written
before). -/
theorem view_rank {EC : Type} (N : Nat) (gslice_none : Int) (e : EC)
    (old_shape old_strides : List Int) (descs : List gdesc)
    (hlen : old_shape.length = old_strides.length)
    (hc : consumed_axes descs ≤ old_shape.length)
    (hslice : ∀ err, view_descs gslice_none old_shape old_strides descs
      { offset := 0, shape := [], strides := [], new_i := 0, old_i := 0 } = .error err →
      err = .AxisOutOfRange) :
    (∀ pre d post st, descs = pre ++ d :: post →
      view_descs gslice_none old_shape old_strides pre
        { offset := 0, shape := [], strides := [], new_i := 0, old_i := 0 } = .ok st →
      d.consumes = 1 → st.old_i < old_shape.length) ∧
    ∃ st1 st2,
      view_descs gslice_none old_shape old_strides descs
        { offset := 0, shape := [], strides := [], new_i := 0, old_i := 0 } = .ok st1 ∧
      view_rest old_shape old_strides st1 = .ok st2 ∧
      st1.old_i ≤ old_shape.length ∧
      st2.new_i = old_shape.length - descs.countP gdesc.isValue +
        descs.countP gdesc.isNewaxis ∧
      ((∃ v, view N gslice_none e old_shape old_strides descs = .ok v) ↔
        N = old_shape.length - descs.countP gdesc.isValue +
          descs.countP gdesc.isNewaxis) ∧
      (N ≠ old_shape.length - descs.countP gdesc.isValue + descs.countP gdesc.isNewaxis →
        view N gslice_none e old_shape old_strides descs = .error .RankMismatch) ∧
      (st2.new_i = N →
        (∀ pre d post st, descs = pre ++ d :: post →
          view_descs gslice_none old_shape old_strides pre
            { offset := 0, shape := [], strides := [], new_i := 0, old_i := 0 } = .ok st →
          d.produces = 1 →
          st.shape.length = st.new_i ∧ st.strides.length = st.new_i ∧ st.new_i < N) ∧
        (∀ k, k < old_shape.length - st1.old_i → st1.new_i + k < N) ∧
        st2.shape.length = N ∧ st2.strides.length = N) := by
  have hreads : ∀ pre d post st, descs = pre ++ d :: post →
      view_descs gslice_none old_shape old_strides pre
        { offset := 0, shape := [], strides := [], new_i := 0, old_i := 0 } = .ok st →
      d.consumes = 1 → st.old_i < old_shape.length := by
    intro pre d post st hsplit hpre hd
    have hold := view_descs_old_i pre hpre
    rw [hsplit, consumed_axes_append, consumed_axes_cons] at hc
    simp only at hold
    omega
  refine ⟨hreads, ?_⟩
  cases hrun : view_descs gslice_none old_shape old_strides descs
      { offset := 0, shape := [], strides := [], new_i := 0, old_i := 0 } with
  | error err =>
    exact absurd (hslice err hrun)
      (view_descs_error_of_le hlen descs (by simpa using hc) hrun)
  | ok st1 =>
    have hold := view_descs_old_i descs hrun
    obtain ⟨hn1, hn2, hn3⟩ := view_descs_new_i descs hrun
    simp only [Nat.zero_add, List.length_nil] at hold hn1 hn2 hn3
    have hrest := view_rest_loop_total old_shape old_strides hlen
      (old_shape.length - st1.old_i) st1 rfl
    have hbal := produced_add_values descs
    have hval := values_le_consumed descs
    have hnum : st1.new_i + (old_shape.length - st1.old_i) =
        old_shape.length - descs.countP gdesc.isValue + descs.countP gdesc.isNewaxis := by
      omega
    have hview : ∀ M, view M gslice_none e old_shape old_strides descs =
        if st1.new_i + (old_shape.length - st1.old_i) = M then
          .ok { e_ := e, offset_ := st1.offset,
                shape := st1.shape ++ old_shape.drop st1.old_i,
                strides := st1.strides ++ old_strides.drop st1.old_i }
        else .error .RankMismatch := by
      intro M
      simp only [view, hrun, view_rest, hrest, bind, Except.bind, pure, Except.pure]
    refine ⟨st1, _, rfl, hrest, by omega, hnum, ?_, ?_, ?_⟩
    · rw [hview N, hnum]
      constructor
      · rintro ⟨v, hv⟩
        split_ifs at hv with h
        exact h.symm
      · intro h
        rw [if_pos h.symm]
        exact ⟨_, rfl⟩
    · intro h
      rw [hview N, hnum, if_neg (fun h1 => h h1.symm)]
    · intro hN
      simp only at hN
      refine ⟨?_, ?_, ?_, ?_⟩
      · intro pre d post st hsplit hpre hd
        obtain ⟨p1, p2, p3⟩ := view_descs_new_i pre hpre
        simp only [Nat.zero_add, List.length_nil] at p1 p2 p3
        have hp : produced_axes descs =
            produced_axes pre + (d.produces + produced_axes post) := by
          rw [hsplit, produced_axes_append, produced_axes_cons]
        refine ⟨by omega, by omega, by omega⟩
      · intro k hk
        omega
      · simp only [List.length_append, List.length_drop]
        omega
      · simp only [List.length_append, List.length_drop]
        omega

/-- Witness of C13 on the input of shape `(3, 2)` and strides `(1, 3)`: the
descriptors `(NEWAXIS, VALUE(1))` give `2 - 1 + 1 = 2` output axes, and a
declared rank of 3 fails on the assertion. -/
theorem view_rank_witness :
    view 3 (-2147483648) () [3, 2] [1, 3] [.NEWAXIS, .VALUE 1] = .error .RankMismatch := by
  obtain ⟨-, st1, st2, -, -, -, -, -, h, -⟩ :=
    view_rank 3 (-2147483648) () [3, 2] [1, 3] [.NEWAXIS, .VALUE 1] (by rfl) (by decide)
      (by
        intro err h
        cases h)
  exact h (by decide)

/-! ## `reshape` -/

/-- The `for` loop of `reshape` over extents none of which is the placeholder
multiplies them into `size`. -/
theorem reshape_dims_explicit (shape : List Int) :
    ∀ (d : Nat) (st : reshape_state), (∀ x ∈ shape, x ≠ -1) →
      reshape_dims shape d st =
        .ok { size := st.size * shape.prod, dim_adjust := st.dim_adjust } := by
  induction shape with
  | nil =>
    intro d st _
    simp [reshape_dims]
  | cons x shape ih =>
    intro d st h
    have hx : x ≠ -1 := h x (List.mem_cons_self _ _)
    simp only [reshape_dims, hx, if_false]
    rw [ih (d + 1) _ (fun y hy => h y (List.mem_cons_of_mem _ hy))]
    simp [mul_assoc]

/-- The `for` loop of `reshape` over a target shape with exactly one
placeholder, at the position `pre.length`. -/
theorem reshape_dims_placeholder (pre post : List Int) :
    ∀ (d : Nat) (st : reshape_state), (∀ x ∈ pre, x ≠ -1) → (∀ x ∈ post, x ≠ -1) →
      st.dim_adjust = -1 →
      reshape_dims (pre ++ -1 :: post) d st =
        .ok { size := st.size * (pre ++ post).prod,
              dim_adjust := ((d + pre.length : Nat) : Int) } := by
  induction pre with
  | nil =>
    intro d st _ hpost hst
    simp only [List.nil_append, reshape_dims, hst, if_true]
    rw [reshape_dims_explicit post (d + 1) _ hpost]
    simp
  | cons x pre ih =>
    intro d st hpre hpost hst
    have hx : x ≠ -1 := hpre x (List.mem_cons_self _ _)
    have := ih (d + 1) { size := st.size * x, dim_adjust := st.dim_adjust }
      (fun y hy => hpre y (List.mem_cons_of_mem _ hy)) hpost hst
    simp only [List.cons_append, reshape_dims, hx, if_false, List.append_eq]
    rw [this]
    simp only [List.prod_cons, List.prod_append, List.length_cons, mul_assoc,
      Nat.add_assoc, Nat.add_comm 1]

theorem set_length_append (pre post : List Int) (x y : Int) :
    (pre ++ x :: post).set pre.length y = pre ++ y :: post := by
  induction pre with
  | nil => rfl
  | cons z pre ih => simp [ih]

/-- What `reshape` does on a target whose sizes do not fit, when the product of
the explicit extents is not zero: with one placeholder and a product `P ≠ 0`
that does not divide the total size `T` of the source, the assertion
`e.size() % size == 0` fails; without a placeholder and with a product other
than `T`, the assertion `size == e.size()` fails.  With one placeholder and
`P = 0`, the source divides by zero. -/
theorem reshape_mismatch {EC : Type} (e : EC) (old_shape pre post : List Int)
    (hpre : ∀ x ∈ pre, x ≠ -1) (hpost : ∀ x ∈ post, x ≠ -1) :
    (calc_size (pre ++ post) ≠ 0 → ¬ (calc_size (pre ++ post) ∣ calc_size old_shape) →
      reshape e old_shape (pre ++ -1 :: post) = .error .NotDivisible) ∧
    (calc_size (pre ++ post) ≠ calc_size old_shape →
      reshape e old_shape (pre ++ post) = .error .SizeMismatch) ∧
    (calc_size (pre ++ post) = 0 →
      reshape e old_shape (pre ++ -1 :: post) = .error .DivisionByZero) := by
  have hadj : ¬ (((0 + pre.length : Nat) : Int) = -1) := by omega
  have hdims := reshape_dims_placeholder pre post 0 { size := 1, dim_adjust := -1 } hpre
    hpost rfl
  simp only [one_mul] at hdims
  refine ⟨?_, ?_, ?_⟩
  · intro hne hdvd
    have hmod : ¬ (calc_size old_shape % calc_size (pre ++ post) = 0) :=
      fun h => hdvd (Int.dvd_of_emod_eq_zero h)
    simp only [reshape, hdims, reshape_resolve, hadj, if_false]
    simp only [calc_size] at hne hmod ⊢
    simp only [hne, hmod, if_false]
  · intro hne
    have hall : ∀ x ∈ pre ++ post, x ≠ -1 := by
      intro x hx
      rcases List.mem_append.mp hx with h | h
      · exact hpre x h
      · exact hpost x h
    have hd := reshape_dims_explicit (pre ++ post) 0 { size := 1, dim_adjust := -1 } hall
    simp only [one_mul] at hd
    simp only [reshape, hd, reshape_resolve, if_true]
    simp only [calc_size] at hne ⊢
    simp only [hne, if_false]
  · intro h0
    simp only [reshape, hdims, reshape_resolve, hadj, if_false]
    simp only [calc_size] at h0 ⊢
    simp only [h0, if_true]

/-- C15 does not hold for a placeholder next to an explicit extent 0: for the
target `(0, -1)` over a source of shape `(3, 4)`, of size 12, the product 0 of
the explicit extents does not divide 12, and `reshape` evaluates
`e.size() % size` with `size == 0` instead of failing on an assertion. -/
theorem reshape_zero_extent_placeholder :
    reshape () [3, 4] [0, -1] = .error .DivisionByZero ∧
      ReshapeError.DivisionByZero.isShapeMismatch = false ∧
      calc_size [3, 4] = 12 ∧ ¬ (calc_size [0] ∣ calc_size [3, 4]) := by
  refine ⟨by rfl, by rfl, by rfl, ?_⟩
  decide

theorem calc_strides_from_length (shape : List Int) :
    ∀ s : Int, (calc_strides_from s shape).length = shape.length := by
  induction shape with
  | nil =>
    intro s
    rfl
  | cons x shape ih =>
    intro s
    simp [calc_strides_from, ih]

/-- The dense stride of the axis `d` is the first stride times the product of
the extents of the axes before `d`. -/
theorem calc_strides_from_getElem? (shape : List Int) :
    ∀ (s : Int) (d : Nat), d < shape.length →
      (calc_strides_from s shape)[d]? = some (s * (shape.take d).prod) := by
  induction shape with
  | nil =>
    intro s d hd
    simp at hd
  | cons x shape ih =>
    intro s d hd
    cases d with
    | zero => simp [calc_strides_from]
    | succ d =>
      simp only [calc_strides_from, List.getElem?_cons_succ, List.take_succ_cons,
        List.prod_cons]
      rw [ih (s * x) d (by simpa using hd), mul_assoc]

/-! ## `transpose` and `swapaxes` -/

theorem read_at_of_lt {a : List Int} {k : Int} (h0 : 0 ≤ k) (hk : k.toNat < a.length) :
    read_at a k = .ok (a.getD k.toNat 0) := by
  have h1 : a[k.toNat]? = some (a.getD k.toNat 0) := by
    rw [List.getD_eq_getElem _ _ hk]
    exact List.getElem?_eq_getElem hk
  simp only [read_at, h0, if_true, read_axis_of_getElem? h1]

theorem read_pair_of_lt {old_shape old_strides : List Int} {k : Int} (h0 : 0 ≤ k)
    (h1 : k.toNat < old_shape.length) (h2 : k.toNat < old_strides.length) :
    read_pair old_shape old_strides k =
      .ok (old_shape.getD k.toNat 0, old_strides.getD k.toNat 0) := by
  simp only [read_pair, read_at_of_lt h0 h1, read_at_of_lt h0 h2]

theorem take_drop_of_getElem? {a : List Int} {d n : Nat} {x : Int} (h : a[d]? = some x) :
    (a.drop d).take (n + 1) = x :: (a.drop (d + 1)).take n := by
  rw [drop_of_getElem? h, List.take_succ_cons]

/-- The loop of `transpose` over axes that all lie within the rank: it writes
the extent and the stride of the input axis `axes[d]` at the position `d`. -/
theorem transpose_dims_ok (old_shape old_strides axes : List Int)
    (hax : ∀ a ∈ axes, 0 ≤ a ∧ a.toNat < old_shape.length ∧ a.toNat < old_strides.length)
    (n : Nat) :
    ∀ d : Nat, d + n ≤ axes.length →
      transpose_dims old_shape old_strides axes n d =
        .ok (((axes.drop d).take n).map (fun a => old_shape.getD a.toNat 0),
             ((axes.drop d).take n).map (fun a => old_strides.getD a.toNat 0)) := by
  induction n with
  | zero =>
    intro d _
    simp [transpose_dims]
  | succ n ih =>
    intro d hd
    have hlt : d < axes.length := by omega
    have ha : axes[d]? = some axes[d] := List.getElem?_eq_getElem hlt
    obtain ⟨h0, h1, h2⟩ := hax axes[d] (List.getElem_mem hlt)
    simp only [transpose_dims, read_axis_of_getElem? ha, read_pair_of_lt h0 h1 h2,
      ih (d + 1) (by omega), take_drop_of_getElem? ha, List.map_cons]

theorem transpose_ok {EC : Type} (e : EC) (old_shape old_strides axes : List Int)
    (hax : ∀ a ∈ axes, 0 ≤ a ∧ a.toNat < old_shape.length ∧ a.toNat < old_strides.length)
    (hn : axes.length = old_shape.length) :
    transpose e old_shape old_strides axes =
      .ok { e_ := e, offset_ := 0,
            shape := axes.map (fun a => old_shape.getD a.toNat 0),
            strides := axes.map (fun a => old_strides.getD a.toNat 0) } := by
  have h := transpose_dims_ok old_shape old_strides axes hax old_shape.length 0 (by omega)
  simp only [List.drop_zero, ← hn, List.take_length] at h
  simp only [transpose, ← hn, h]

theorem map_getD_range (a : List Int) :
    (List.range a.length).map (fun d : Nat => a.getD d 0) = a := by
  apply List.ext_getElem?
  intro n
  by_cases hn : n < a.length
  · rw [List.getElem?_map, List.getElem?_range hn, List.getElem?_eq_getElem hn,
      Option.map_some', List.getD_eq_getElem _ _ hn]
  · rw [List.getElem?_eq_none (by simpa using hn), List.getElem?_eq_none (by simpa using hn)]

theorem mem_identity_axes {n : Nat} {a : Int} (h : a ∈ identity_axes n) :
    0 ≤ a ∧ a.toNat < n := by
  simp only [identity_axes, List.mem_map, List.mem_range] at h
  obtain ⟨d, hd, rfl⟩ := h
  exact ⟨Int.ofNat_nonneg d, by simpa using hd⟩

theorem identity_axes_length (n : Nat) : (identity_axes n).length = n := by
  simp [identity_axes]

/-- The loop of `swapaxes` reads what the loop of `transpose` reads for the
axes array that exchanges `axis1` and `axis2`. -/
theorem swapaxes_dims_eq_transpose_dims (old_shape old_strides : List Int)
    (axis1 axis2 : Int) (m n : Nat) :
    ∀ d : Nat, d + n ≤ m →
      swapaxes_dims old_shape old_strides axis1 axis2 n d =
        transpose_dims old_shape old_strides (swap_axes_array m axis1 axis2) n d := by
  induction n with
  | zero =>
    intro d _
    rfl
  | succ n ih =>
    intro d hd
    have hlt : d < m := by omega
    have ha : (swap_axes_array m axis1 axis2)[d]? = some (swap_axis axis1 axis2 d) := by
      simp only [swap_axes_array, List.getElem?_map, List.getElem?_range hlt, Option.map_some']
    simp only [swapaxes_dims, transpose_dims, read_axis_of_getElem? ha, ih (d + 1) (by omega),
      swap_axis]
    split_ifs <;> rfl

theorem swapaxes_eq_transpose {EC : Type} (e : EC) (old_shape old_strides : List Int)
    (axis1 axis2 : Int) :
    swapaxes e old_shape old_strides axis1 axis2 =
      transpose e old_shape old_strides (swap_axes_array old_shape.length axis1 axis2) := by
  simp only [swapaxes, transpose,
    swapaxes_dims_eq_transpose_dims old_shape old_strides axis1 axis2 old_shape.length
      old_shape.length 0 (by omega)]

theorem calc_index_eq_sum_range (strides i : List Int) (n : Nat)
    (hs : strides.length = n) (hi : i.length = n) :
    calc_index strides i = ((List.range n).map fun d : Nat => i.getD d 0 * strides.getD d 0).sum := by
  have h : calc_index ((List.range strides.length).map fun d : Nat => strides.getD d 0)
      ((List.range i.length).map fun d : Nat => i.getD d 0) = calc_index strides i := by
    rw [map_getD_range, map_getD_range]
  rw [← h, hs, hi]
  simp only [calc_index, List.zipWith_map, List.zipWith_same]

theorem map_identity_axes {β : Type} (n : Nat) (f : Nat → β) :
    (identity_axes n).map (fun a : Int => f a.toNat) = (List.range n).map f := by
  simp [identity_axes, List.map_map, Function.comp_def]

/-- C17: for a source whose shape `S` and strides `T` have the rank `N` and an
axes array `axes` that is a permutation of `0, ..., N - 1`, `transpose` returns
a view of the source with offset 0 whose extent and stride at each position `d`
are `S[axes[d]]` and `T[axes[d]]`; for multi-indices `j` of the view and `i`
of the source with `i[axes[d]] = j[d]` for all `d`, the position
`sum_d j[d] * strides[d]` is `sum_k i[k] * T[k]`, so `data_access_impl` returns
that element of the source; and the product of the extents is that of `S`. -/
theorem transpose_permutes {EC α : Type} (e : EC) (old_shape old_strides axes : List Int)
    (hlen : old_shape.length = old_strides.length)
    (hperm : axes.Perm (identity_axes old_shape.length)) :
    ∃ v : gview EC, transpose e old_shape old_strides axes = .ok v ∧
      v.e_ = e ∧ v.offset_ = 0 ∧
      v.shape.length = old_shape.length ∧ v.strides.length = old_shape.length ∧
      (∀ (d : Nat) (a : Int), axes[d]? = some a →
        v.shape[d]? = old_shape[a.toNat]? ∧ v.strides[d]? = old_strides[a.toNat]?) ∧
      (∀ i j : List Int, i.length = old_shape.length → j.length = old_shape.length →
        (∀ (d : Nat) (a : Int), axes[d]? = some a → i[a.toNat]? = j[d]?) →
        calc_index v.strides j = calc_index old_strides i ∧
        ∀ data_access : EC → Int → α,
          v.data_access_impl data_access (calc_index v.strides j) =
            data_access e (calc_index old_strides i)) ∧
      calc_size v.shape = calc_size old_shape := by
  have hn : axes.length = old_shape.length := by
    rw [hperm.length_eq, identity_axes_length]
  have hmem : ∀ a ∈ axes, 0 ≤ a ∧ a.toNat < old_shape.length := fun a ha =>
    mem_identity_axes (hperm.mem_iff.mp ha)
  have hax : ∀ a ∈ axes,
      0 ≤ a ∧ a.toNat < old_shape.length ∧ a.toNat < old_strides.length := by
    intro a ha
    obtain ⟨h0, h1⟩ := hmem a ha
    exact ⟨h0, h1, by omega⟩
  refine ⟨_, transpose_ok e old_shape old_strides axes hax hn, rfl, rfl, ?_, ?_, ?_, ?_, ?_⟩
  · simp [hn]
  · simp [hn]
  · intro d a hda
    have hamem : a ∈ axes := List.getElem?_mem hda
    obtain ⟨-, h1, h2⟩ := hax a hamem
    simp only [List.getElem?_map, hda, Option.map_some', List.getD_eq_getElem _ _ h1,
      List.getD_eq_getElem _ _ h2, List.getElem?_eq_getElem h1, List.getElem?_eq_getElem h2,
      and_self]
  · intro i j hi hj hij
    have hjmap : j = axes.map (fun a => i.getD a.toNat 0) := by
      apply List.ext_getElem?
      intro d
      by_cases hd : d < axes.length
      · have hda : axes[d]? = some axes[d] := List.getElem?_eq_getElem hd
        have h1 : axes[d].toNat < i.length := by
          rw [hi]
          exact (hmem _ (List.getElem_mem hd)).2
        rw [← hij d _ hda, List.getElem?_map, hda, Option.map_some',
          List.getElem?_eq_getElem h1, List.getD_eq_getElem _ _ h1]
      · rw [List.getElem?_eq_none (by omega), List.getElem?_eq_none (by simpa using hd)]
    have hpos : calc_index (axes.map fun a => old_strides.getD a.toNat 0) j =
        calc_index old_strides i := by
      rw [hjmap, calc_index_eq_sum_range old_strides i old_shape.length hlen.symm hi]
      simp only [calc_index, List.zipWith_map, List.zipWith_same]
      rw [(hperm.map _).sum_eq]
      exact congrArg List.sum
        (map_identity_axes old_shape.length fun d => i.getD d 0 * old_strides.getD d 0)
    refine ⟨hpos, ?_⟩
    intro data_access
    simp only [gview.data_access_impl, zero_add, hpos]
  · simp only [calc_size]
    rw [(hperm.map _).prod_eq, map_identity_axes old_shape.length fun d => old_shape.getD d 0,
      map_getD_range]

/-- Witness of C17: the axes `(2, 0, 1)` on the shape `(3, 2, 5)` with the
strides `(1, 3, 6)` give the shape `(5, 3, 2)` and the strides `(6, 1, 3)`. -/
theorem transpose_permutes_witness :
    ∃ v : gview Unit, transpose () [3, 2, 5] [1, 3, 6] [2, 0, 1] = .ok v ∧
      v.e_ = () ∧ v.offset_ = 0 ∧ v.shape.length = 3 ∧ v.strides.length = 3 ∧
      transpose () [3, 2, 5] [1, 3, 6] [2, 0, 1] =
        .ok { e_ := (), offset_ := 0, shape := [5, 3, 2], strides := [6, 1, 3] } := by
  obtain ⟨v, h1, h2, h3, h4, h5, -⟩ :=
    @transpose_permutes Unit Unit () [3, 2, 5] [1, 3, 6] [2, 0, 1] (by rfl) (by decide)
  exact ⟨v, h1, h2, h3, h4, h5, by rfl⟩

theorem swap_axis_range {n : Nat} {a b : Int} (ha0 : 0 ≤ a) (ha : a < n) (hb0 : 0 ≤ b)
    (hb : b < n) (d : Nat) (hd : d < n) :
    0 ≤ swap_axis a b d ∧ (swap_axis a b d).toNat < n := by
  simp only [swap_axis]
  split_ifs <;> omega

theorem swap_axis_twice {a b : Int} (ha0 : 0 ≤ a) (hb0 : 0 ≤ b) (d : Nat) :
    swap_axis a b ((swap_axis a b d).toNat : Nat) = d := by
  simp only [swap_axis]
  split_ifs <;> omega

/-- The view that `swapaxes` returns for axes within the rank. -/
theorem swapaxes_ok {EC : Type} (e : EC) (old_shape old_strides : List Int) (a b : Int)
    (hlen : old_shape.length = old_strides.length)
    (ha0 : 0 ≤ a) (ha : a < old_shape.length) (hb0 : 0 ≤ b) (hb : b < old_shape.length) :
    swapaxes e old_shape old_strides a b =
      .ok { e_ := e, offset_ := 0,
            shape := (List.range old_shape.length).map
              (fun d : Nat => old_shape.getD (swap_axis a b d).toNat 0),
            strides := (List.range old_shape.length).map
              (fun d : Nat => old_strides.getD (swap_axis a b d).toNat 0) } := by
  rw [swapaxes_eq_transpose, transpose_ok e old_shape old_strides _ _ (by simp [swap_axes_array])]
  · simp [swap_axes_array, List.map_map, Function.comp_def]
  · intro x hx
    simp only [swap_axes_array, List.mem_map, List.mem_range] at hx
    obtain ⟨d, hd, rfl⟩ := hx
    obtain ⟨h0, h1⟩ := swap_axis_range ha0 ha hb0 hb d hd
    exact ⟨h0, h1, by omega⟩

theorem getElem?_map_range {n d : Nat} (f : Nat → Int) (hd : d < n) :
    ((List.range n).map f)[d]? = some (f d) := by
  rw [List.getElem?_map, List.getElem?_range hd, Option.map_some']

theorem getElem?_of_getD {a : List Int} {k : Nat} (hk : k < a.length) :
    a[k]? = some (a.getD k 0) := by
  rw [List.getD_eq_getElem _ _ hk]
  exact List.getElem?_eq_getElem hk

/-- C18: for a source whose shape and strides have the rank `N` and axes `a`,
`b` in `[0, N)`, `swapaxes` returns a view of the source with offset 0 whose
shape and strides have the entries of the source at `a` and `b` exchanged and
every other entry unchanged (for `a = b` they are the shape and the strides of
the source); and `transpose` returns the same view for the axes array that is
the identity except for exchanging `a` and `b`. -/
theorem swapaxes_exchanges {EC : Type} (e : EC) (old_shape old_strides : List Int)
    (a b : Int) (hlen : old_shape.length = old_strides.length)
    (ha0 : 0 ≤ a) (ha : a < old_shape.length) (hb0 : 0 ≤ b) (hb : b < old_shape.length) :
    ∃ v : gview EC, swapaxes e old_shape old_strides a b = .ok v ∧
      v.e_ = e ∧ v.offset_ = 0 ∧
      v.shape.length = old_shape.length ∧ v.strides.length = old_shape.length ∧
      (v.shape[a.toNat]? = old_shape[b.toNat]? ∧
        v.strides[a.toNat]? = old_strides[b.toNat]?) ∧
      (v.shape[b.toNat]? = old_shape[a.toNat]? ∧
        v.strides[b.toNat]? = old_strides[a.toNat]?) ∧
      (∀ d : Nat, (d : Int) ≠ a → (d : Int) ≠ b →
        v.shape[d]? = old_shape[d]? ∧ v.strides[d]? = old_strides[d]?) ∧
      (a = b → v.shape = old_shape ∧ v.strides = old_strides) ∧
      transpose e old_shape old_strides (swap_axes_array old_shape.length a b) = .ok v := by
  have hok := swapaxes_ok e old_shape old_strides a b hlen ha0 ha hb0 hb
  have hat : a.toNat < old_shape.length := by omega
  have hbt : b.toNat < old_shape.length := by omega
  have hat2 : a.toNat < old_strides.length := by omega
  have hbt2 : b.toNat < old_strides.length := by omega
  have hsa : swap_axis a b (a.toNat : Nat) = b := by
    simp only [swap_axis]
    split_ifs <;> omega
  have hsb : swap_axis a b (b.toNat : Nat) = a := by
    simp only [swap_axis]
    split_ifs <;> omega
  refine ⟨_, hok, rfl, rfl, by simp, by simp, ?_, ?_, ?_, ?_, ?_⟩
  · simp only
    rw [getElem?_map_range _ hat, getElem?_map_range _ hat, hsa, getElem?_of_getD hbt,
      getElem?_of_getD hbt2]
    exact ⟨rfl, rfl⟩
  · simp only
    rw [getElem?_map_range _ hbt, getElem?_map_range _ hbt, hsb, getElem?_of_getD hat,
      getElem?_of_getD hat2]
    exact ⟨rfl, rfl⟩
  · intro d hda hdb
    have hsd : swap_axis a b (d : Nat) = d := by
      simp only [swap_axis, hda, hdb, if_false]
    simp only
    by_cases hd : d < old_shape.length
    · rw [getElem?_map_range _ hd, getElem?_map_range _ hd, hsd, Int.toNat_ofNat,
        getElem?_of_getD hd, getElem?_of_getD (by omega : d < old_strides.length)]
      exact ⟨rfl, rfl⟩
    · have hnone : ∀ (f : Nat → Int), ((List.range old_shape.length).map f)[d]? = none :=
        fun f => List.getElem?_eq_none (by simpa using hd)
      rw [hnone, hnone, List.getElem?_eq_none (by omega : old_shape.length ≤ d),
        List.getElem?_eq_none (by omega : old_strides.length ≤ d)]
      exact ⟨rfl, rfl⟩
  · intro hab
    subst hab
    have hid : ∀ d : Nat, (swap_axis a a d).toNat = d := by
      intro d
      simp only [swap_axis]
      split_ifs <;> omega
    simp only [hid]
    refine ⟨map_getD_range old_shape, ?_⟩
    rw [hlen]
    exact map_getD_range old_strides
  · rw [← swapaxes_eq_transpose]
    exact hok

/-- Witness of C18: exchanging the axes 0 and 2 of the shape `(3, 2, 5)` with
the strides `(1, 3, 6)`. -/
theorem swapaxes_exchanges_witness :
    ∃ v : gview Unit, swapaxes () [3, 2, 5] [1, 3, 6] 0 2 = .ok v ∧
      swapaxes () [3, 2, 5] [1, 3, 6] 0 2 =
        .ok { e_ := (), offset_ := 0, shape := [5, 2, 3], strides := [6, 3, 1] } := by
  obtain ⟨v, h1, -⟩ :=
    swapaxes_exchanges () [3, 2, 5] [1, 3, 6] 0 2 (by rfl) (by decide) (by decide)
      (by decide) (by decide)
  exact ⟨v, h1, by rfl⟩

/-- C19: for a source whose shape and strides have the rank `N` and axes `a`,
`b` in `[0, N)`, `swapaxes` applied to the view that `swapaxes` returns, with
the same axes, returns a view with the shape and the strides of the source. -/
theorem swapaxes_twice {EC : Type} (e : EC) (old_shape old_strides : List Int)
    (a b : Int) (hlen : old_shape.length = old_strides.length)
    (ha0 : 0 ≤ a) (ha : a < old_shape.length) (hb0 : 0 ≤ b) (hb : b < old_shape.length) :
    ∃ v : gview EC, swapaxes e old_shape old_strides a b = .ok v ∧
      swapaxes v v.shape v.strides a b =
        .ok { e_ := v, offset_ := 0, shape := old_shape, strides := old_strides } := by
  refine ⟨_, swapaxes_ok e old_shape old_strides a b hlen ha0 ha hb0 hb, ?_⟩
  have hback : ∀ (x : List Int), x.length = old_shape.length →
      (List.range old_shape.length).map (fun d : Nat =>
        ((List.range old_shape.length).map
          (fun k : Nat => x.getD (swap_axis a b k).toNat 0)).getD (swap_axis a b d).toNat 0)
        = x := by
    intro x hx
    have h : ∀ d ∈ List.range old_shape.length,
        ((List.range old_shape.length).map
          (fun k : Nat => x.getD (swap_axis a b k).toNat 0)).getD (swap_axis a b d).toNat 0
          = x.getD d 0 := by
      intro d hd
      obtain ⟨h0, h1⟩ := swap_axis_range ha0 ha hb0 hb d (List.mem_range.mp hd)
      rw [List.getD_eq_getElem?_getD, getElem?_map_range _ h1, Option.getD_some,
        swap_axis_twice ha0 hb0 d, Int.toNat_ofNat]
    rw [List.map_congr_left h, ← hx]
    exact map_getD_range x
  rw [swapaxes_ok _ _ _ a b (by simp) ha0 (by simpa using ha) hb0 (by simpa using hb)]
  simp only [List.length_map, List.length_range]
  rw [hback old_shape rfl, hback old_strides hlen.symm]

/-- Witness of C19: exchanging the axes 0 and 2 of the shape `(3, 2, 5)` with
the strides `(1, 3, 6)` twice. -/
theorem swapaxes_twice_witness :
    ∃ v : gview Unit, swapaxes () [3, 2, 5] [1, 3, 6] 0 2 = .ok v ∧
      swapaxes v v.shape v.strides 0 2 =
        .ok { e_ := v, offset_ := 0, shape := [3, 2, 5], strides := [1, 3, 6] } :=
  swapaxes_twice () [3, 2, 5] [1, 3, 6] 0 2 (by rfl) (by decide) (by decide) (by decide)
    (by decide)

/-- C20: for a source whose shape and strides have the rank `N`, `transpose`
with the identity axes array `axes[d] = d` returns a view with the shape and
the strides of the source; for a source without strides of its own, wrapped in
a `gview_adaptor`, these are its shape and `calc_strides` of its shape. -/
theorem transpose_identity {EC : Type} (e : EC) (old_shape old_strides : List Int)
    (hlen : old_shape.length = old_strides.length) :
    transpose e old_shape old_strides (identity_axes old_shape.length) =
      .ok { e_ := e, offset_ := 0, shape := old_shape, strides := old_strides } ∧
    (∀ shape_e : List Int,
      transpose (gview_adaptor.make e shape_e) (gview_adaptor.make e shape_e).shape
          (gview_adaptor.make e shape_e).strides (identity_axes shape_e.length) =
        .ok { e_ := gview_adaptor.make e shape_e, offset_ := 0, shape := shape_e,
              strides := calc_strides shape_e }) := by
  have hgen : ∀ (EC1 : Type) (e1 : EC1) (sh str : List Int), sh.length = str.length →
      transpose e1 sh str (identity_axes sh.length) =
        .ok { e_ := e1, offset_ := 0, shape := sh, strides := str } := by
    intro EC1 e1 sh str hl
    rw [transpose_ok e1 sh str _ _ (identity_axes_length _)]
    · rw [map_identity_axes sh.length fun d => sh.getD d 0,
        map_identity_axes sh.length fun d => str.getD d 0, map_getD_range, hl, map_getD_range]
    · intro x hx
      obtain ⟨h0, h1⟩ := mem_identity_axes hx
      exact ⟨h0, h1, by omega⟩
  refine ⟨hgen EC e old_shape old_strides hlen, ?_⟩
  intro shape_e
  exact hgen _ _ shape_e (calc_strides shape_e)
    (calc_strides_from_length shape_e 1).symm

/-- Witness of C20 on the shape `(3, 2, 5)` with the strides `(1, 3, 6)`. -/
theorem transpose_identity_witness :
    transpose () [3, 2, 5] [1, 3, 6] (identity_axes [3, 2, 5].length) =
      .ok { e_ := (), offset_ := 0, shape := [3, 2, 5], strides := [1, 3, 6] } :=
  (transpose_identity () [3, 2, 5] [1, 3, 6] (by rfl)).1


/-! ## The kernel projection of a view -/

/-- C21: the kernel projection of a view `v` is the view over the projected
inner expression with the offset, the shape and the strides of `v`; for a view
`w` over a view this holds at both levels, the inner view being projected with
its own offset, shape and strides; and when the accessor `da_k` of the
projected inner expression returns what the accessor `da` of the inner
expression returns, `data_access_impl` of the projected view at `i` is
`da_k` of the projected inner expression at `offset_ + i`, which is what the
view itself returns, also for a view over a view. -/
theorem to_kernel_preserves {EC KC α : Type} (to_kernel : EC → KC)
    (da : EC → Int → α) (da_k : KC → Int → α)
    (hda : ∀ (e : EC) (i : Int), da_k (to_kernel e) i = da e i) :
    (∀ v : gview EC,
      (v.to_kernel to_kernel).e_ = to_kernel v.e_ ∧
      (v.to_kernel to_kernel).offset_ = v.offset_ ∧
      (v.to_kernel to_kernel).shape = v.shape ∧
      (v.to_kernel to_kernel).strides = v.strides) ∧
    (∀ (v : gview EC) (i : Int),
      (v.to_kernel to_kernel).data_access_impl da_k i =
        da_k (to_kernel v.e_) (v.offset_ + i) ∧
      (v.to_kernel to_kernel).data_access_impl da_k i = v.data_access_impl da i) ∧
    (∀ w : gview (gview EC),
      w.to_kernel (gview.to_kernel to_kernel) =
        { e_ := { e_ := to_kernel w.e_.e_, offset_ := w.e_.offset_, shape := w.e_.shape,
                  strides := w.e_.strides },
          offset_ := w.offset_, shape := w.shape, strides := w.strides }) ∧
    (∀ (w : gview (gview EC)) (i : Int),
      (w.to_kernel (gview.to_kernel to_kernel)).data_access_impl
          (gview.data_access_impl da_k) i =
        (w.e_.to_kernel to_kernel).data_access_impl da_k (w.offset_ + i) ∧
      (w.to_kernel (gview.to_kernel to_kernel)).data_access_impl
          (gview.data_access_impl da_k) i =
        w.data_access_impl (gview.data_access_impl da) i) := by
  refine ⟨fun v => ⟨rfl, rfl, rfl, rfl⟩, ?_, fun w => rfl, ?_⟩
  · intro v i
    refine ⟨rfl, ?_⟩
    simp only [gview.data_access_impl, gview.to_kernel, hda]
  · intro w i
    refine ⟨rfl, ?_⟩
    simp only [gview.data_access_impl, gview.to_kernel, hda]

/-- Witness of C21: a view of offset 3 over a view of offset 1 over the buffer
`[10, 11, 12, 13, 14, 15]`, the projection of a buffer being the buffer
itself. -/
theorem to_kernel_preserves_witness :
    (({ e_ := { e_ := [10, 11, 12, 13, 14, 15], offset_ := 1, shape := [5], strides := [1] },
        offset_ := 3, shape := [2], strides := [1] } :
        gview (gview (List Int))).to_kernel (gview.to_kernel id)).data_access_impl
        (gview.data_access_impl buffer_access) 1 =
      ({ e_ := { e_ := [10, 11, 12, 13, 14, 15], offset_ := 1, shape := [5], strides := [1] },
         offset_ := 3, shape := [2], strides := [1] } :
        gview (gview (List Int))).data_access_impl (gview.data_access_impl buffer_access) 1 :=
  ((to_kernel_preserves (id : List Int → List Int) buffer_access buffer_access
    (fun _ _ => rfl)).2.2.2
    { e_ := { e_ := [10, 11, 12, 13, 14, 15], offset_ := 1, shape := [5], strides := [1] },
      offset_ := 3, shape := [2], strides := [1] } 1).2

/-! ## `unravel` -/

/-- From a flat index below the total size to indices within the shape that
address it, for the dense strides from a first stride `s` on. -/
theorem unravel_rem_dense (shape : List Int) :
    ∀ (s i : Int), (∀ x ∈ shape, 0 < x) → 0 < s → 0 ≤ i → i < s * shape.prod →
      0 ≤ (unravel_rem i (calc_strides_from s shape)).2 ∧
      (unravel_rem i (calc_strides_from s shape)).2 < s ∧
      within_shape (unravel_rem i (calc_strides_from s shape)).1 shape ∧
      calc_index (calc_strides_from s shape) (unravel_rem i (calc_strides_from s shape)).1 +
        (unravel_rem i (calc_strides_from s shape)).2 = i := by
  induction shape with
  | nil =>
    intro s i _ hs hi hlt
    simp only [List.prod_nil, mul_one] at hlt
    simp [calc_strides_from, unravel_rem, within_shape, hi, hlt]
  | cons x shape ih =>
    intro s i hpos hs hi hlt
    have hx : 0 < x := hpos x (List.mem_cons_self _ _)
    have hsx : 0 < s * x := Int.mul_pos hs hx
    obtain ⟨h1, h2, h3, h4⟩ := ih (s * x) i
      (fun y hy => hpos y (List.mem_cons_of_mem _ hy)) hsx hi
      (by rw [List.prod_cons] at hlt; rw [mul_assoc]; exact hlt)
    simp only [calc_strides_from, unravel_rem, within_shape, calc_index_cons]
    refine ⟨Int.emod_nonneg _ (ne_of_gt hs), Int.emod_lt_of_pos _ hs,
      ⟨Int.ediv_nonneg h1 (le_of_lt hs), Int.ediv_lt_of_lt_mul hs (lt_of_lt_of_eq h2 (mul_comm s x)),
        h3⟩, ?_⟩
    have := Int.ediv_add_emod' (unravel_rem i (calc_strides_from (s * x) shape)).2 s
    omega

/-- From indices within the shape back to them, for the dense strides from a
first stride `s` on and a remainder below `s`. -/
theorem unravel_rem_calc_index (shape : List Int) :
    ∀ (s r : Int) (idx : List Int), 0 < s → within_shape idx shape → 0 ≤ r → r < s →
      unravel_rem (calc_index (calc_strides_from s shape) idx + r)
        (calc_strides_from s shape) = (idx, r) := by
  induction shape with
  | nil =>
    intro s r idx _ hw _ _
    cases idx with
    | nil => simp [calc_strides_from, unravel_rem]
    | cons j idx => simp [within_shape] at hw
  | cons x shape ih =>
    intro s r idx hs hw hr0 hr
    cases idx with
    | nil => simp [within_shape] at hw
    | cons j idx =>
      simp only [within_shape] at hw
      obtain ⟨hj0, hjx, hw1⟩ := hw
      have hx : 0 < x := by omega
      have hrange : j * s + r < s * x := by
        have h1 : j * s ≤ (x - 1) * s := Int.mul_le_mul_of_nonneg_right (by omega) (le_of_lt hs)
        have h2 : (x - 1) * s = s * x - s := by ring
        omega
      have hnn : 0 ≤ j * s + r := by
        have := Int.mul_nonneg hj0 (le_of_lt hs)
        omega
      have hrec := ih (s * x) (j * s + r) idx (Int.mul_pos hs hx) hw1 hnn hrange
      have hval : j * s + calc_index (calc_strides_from (s * x) shape) idx + r =
          calc_index (calc_strides_from (s * x) shape) idx + (j * s + r) := by ring
      simp only [calc_strides_from, unravel_rem, calc_index_cons, hval, hrec]
      have hdiv : (j * s + r) / s = j := by
        rw [add_comm, Int.add_mul_ediv_right _ _ (ne_of_gt hs),
          Int.ediv_eq_zero_of_lt hr0 hr, zero_add]
      have hmod : (j * s + r) % s = r := by
        rw [add_comm, Int.add_mul_emod_self, Int.emod_eq_of_lt hr0 hr]
      rw [hdiv, hmod]

/-- C22: for a shape `S` whose extents are all positive, with its dense strides:
every flat index `i` in `[0, size(S))` unravels to a multi-index within `S`
whose flat position is `i`; every multi-index `idx` within `S` is what its flat
position unravels to; and `data_access` of the adaptor over an expression of
shape `S` without strides, at the flat position of `idx`, is the expression
called at `idx`. -/
theorem unravel_dense (shape : List Int) (hpos : ∀ x ∈ shape, 0 < x) :
    (∀ i : Int, 0 ≤ i → i < calc_size shape →
      within_shape (unravel i (calc_strides shape)) shape ∧
      calc_index (calc_strides shape) (unravel i (calc_strides shape)) = i) ∧
    (∀ idx : List Int, within_shape idx shape →
      unravel (calc_index (calc_strides shape) idx) (calc_strides shape) = idx) ∧
    (∀ (E α : Type) (call : E → List Int → α) (e : E) (idx : List Int),
      within_shape idx shape →
      (gview_adaptor.make e shape).data_access call (calc_index (calc_strides shape) idx) =
        call e idx) := by
  have hback : ∀ idx : List Int, within_shape idx shape →
      unravel (calc_index (calc_strides shape) idx) (calc_strides shape) = idx := by
    intro idx hw
    have := unravel_rem_calc_index shape 1 0 idx (by decide) hw (le_refl _) (by decide)
    simp only [add_zero] at this
    simp only [unravel, calc_strides, this]
  refine ⟨?_, hback, ?_⟩
  · intro i hi hlt
    obtain ⟨h1, h2, h3, h4⟩ := unravel_rem_dense shape 1 i hpos (by decide) hi
      (by simpa [calc_size] using hlt)
    have hr : (unravel_rem i (calc_strides_from 1 shape)).2 = 0 := by omega
    rw [hr, add_zero] at h4
    exact ⟨h3, h4⟩
  · intro E α call e idx hw
    simp only [gview_adaptor.data_access, gview_adaptor.make, hback idx hw]

/-- Witness of C22 on the shape `(3, 2)`, with the dense strides `(1, 3)`: the
flat index 5 unravels to `(2, 1)`. -/
theorem unravel_dense_witness :
    within_shape (unravel 5 (calc_strides [3, 2])) [3, 2] ∧
      calc_index (calc_strides [3, 2]) (unravel 5 (calc_strides [3, 2])) = 5 ∧
      unravel 5 (calc_strides [3, 2]) = [2, 1] :=
  ⟨((unravel_dense [3, 2] (by decide)).1 5 (by decide) (by decide)).1,
    ((unravel_dense [3, 2] (by decide)).1 5 (by decide) (by decide)).2, by decide⟩

/-- C23 does not hold: `swapaxes` of the axes 0 and 1 of a dense source of
shape `(3, 2)` gives the view of shape `(2, 3)` with the strides `(3, 1)`; the
multi-index `(1, 2)` lies within that shape and has the flat position 5, and
`unravel`, which divides by the stride of the highest axis first, turns 5 into
`(0, 5)`. -/
theorem unravel_swapped_axes :
    swapaxes () [3, 2] (calc_strides [3, 2]) 0 1 =
        .ok { e_ := (), offset_ := 0, shape := [2, 3], strides := [3, 1] } ∧
      within_shape [1, 2] [2, 3] ∧
      calc_index [3, 1] [1, 2] = 5 ∧
      unravel (calc_index [3, 1] [1, 2]) [3, 1] = [0, 5] ∧
      unravel (calc_index [3, 1] [1, 2]) [3, 1] ≠ [1, 2] := by
  refine ⟨by rfl, ?_, by decide, by decide, by decide⟩
  simp [within_shape]

/-! ## The extents that `reshape` returns -/

/-- What the `for` loop of `reshape` has seen when it ends without error:
either no placeholder in the entries it ran over, or exactly one, at the
position that it has recorded in `dim_adjust`. -/
theorem reshape_dims_ok (shape : List Int) :
    ∀ (d : Nat) (st st1 : reshape_state), reshape_dims shape d st = .ok st1 →
      ((∀ x ∈ shape, x ≠ -1) ∧ st1.size = st.size * shape.prod ∧
        st1.dim_adjust = st.dim_adjust) ∨
      (st.dim_adjust = -1 ∧ ∃ pre post : List Int, shape = pre ++ -1 :: post ∧
        (∀ x ∈ pre, x ≠ -1) ∧ (∀ x ∈ post, x ≠ -1) ∧
        st1.size = st.size * (pre ++ post).prod ∧
        st1.dim_adjust = ((d + pre.length : Nat) : Int)) := by
  induction shape with
  | nil =>
    intro d st st1 h
    simp only [reshape_dims] at h
    cases h
    left
    simp
  | cons x shape ih =>
    intro d st st1 h
    simp only [reshape_dims] at h
    by_cases hx : x = -1
    · simp only [hx, if_true] at h
      by_cases hst : st.dim_adjust = -1
      · simp only [hst, if_true] at h
        rcases ih (d + 1) _ st1 h with ⟨h1, h2, h3⟩ | ⟨h1, -⟩
        · right
          refine ⟨hst, [], shape, by rw [hx]; rfl, by simp, h1, ?_, ?_⟩
          · simpa using h2
          · simpa using h3
        · simp only at h1
          omega
      · simp only [hst, if_false] at h
        cases h
    · simp only [hx, if_false] at h
      rcases ih (d + 1) _ st1 h with ⟨h1, h2, h3⟩ | ⟨h1, pre, post, h2, h3, h4, h5, h6⟩
      · left
        refine ⟨?_, ?_, h3⟩
        · intro y hy
          rcases List.mem_cons.mp hy with rfl | hy1
          · exact hx
          · exact h1 y hy1
        · rw [h2, List.prod_cons, mul_assoc]
      · right
        refine ⟨h1, x :: pre, post, by rw [h2]; rfl, ?_, h4, ?_, ?_⟩
        · intro y hy
          rcases List.mem_cons.mp hy with rfl | hy1
          · exact hx
          · exact h3 y hy1
        · rw [h5]
          simp only [List.cons_append, List.prod_cons, mul_assoc]
        · rw [h6]
          simp only [List.length_cons]
          omega

/-- C24 does not hold for a target with negative extents other than the
placeholder: the target `(-2, -3)` over a source of shape `(6)` passes both
assertions (the product of its extents is 6), and `reshape` returns the view of
shape `(-2, -3)`. -/
theorem reshape_negative_extents :
    reshape () [6] [-2, -3] =
        .ok { e_ := (), offset_ := 0, shape := [-2, -3], strides := [1, -2] } ∧
      (∀ x ∈ [(6 : Int)], 0 ≤ x) ∧ ¬ (∀ x ∈ [(-2 : Int), -3], 0 ≤ x) := by
  refine ⟨by rfl, by decide, by decide⟩

/-- C24, amended: when `reshape` returns a view for a source whose extents are
not negative and a target whose extents other than the placeholder -1 are not
negative, every extent of the shape of the view is not negative (the
placeholder is replaced by the quotient of the size by the product of the
other extents). -/
theorem reshape_nonneg_extents {EC : Type} (e : EC) (old_shape shape : List Int)
    (v : gview EC)
    (hsrc : ∀ x ∈ old_shape, 0 ≤ x)
    (htarget : ∀ x ∈ shape, x ≠ -1 → 0 ≤ x)
    (hv : reshape e old_shape shape = .ok v) :
    ∀ x ∈ v.shape, 0 ≤ x := by
  simp only [reshape] at hv
  cases hd : reshape_dims shape 0 { size := 1, dim_adjust := -1 } with
  | error err => simp [hd] at hv
  | ok st =>
    simp only [hd] at hv
    cases hr : reshape_resolve (calc_size old_shape) shape st with
    | error err => simp [hr] at hv
    | ok shape1 =>
      simp only [hr] at hv
      split_ifs at hv with hsize
      cases hv
      simp only
      rcases reshape_dims_ok shape 0 _ st hd with ⟨h1, -, h3⟩ | ⟨-, pre, post, h2, h3, h4, h5, h6⟩
      · simp only at h3
        simp only [reshape_resolve, h3, if_true] at hr
        split_ifs at hr
        cases hr
        intro x hx
        exact htarget x hx (h1 x hx)
      · have hadj : ¬ (st.dim_adjust = -1) := by
          rw [h6]
          omega
        simp only [reshape_resolve, hadj, if_false] at hr
        split_ifs at hr with h0 hmod
        cases hr
        have hP : 0 ≤ (pre ++ post).prod := by
          apply List.prod_nonneg
          intro y hy
          have hy1 : y ∈ shape := by
            rw [h2]
            rcases List.mem_append.mp hy with h | h
            · exact List.mem_append_left _ h
            · exact List.mem_append_right _ (List.mem_cons_of_mem _ h)
          have hy2 : y ≠ -1 := by
            rcases List.mem_append.mp hy with h | h
            · exact h3 y h
            · exact h4 y h
          exact htarget y hy1 hy2
        have hT : 0 ≤ calc_size old_shape := List.prod_nonneg hsrc
        have hq : 0 ≤ calc_size old_shape / st.size := by
          rw [h5, one_mul]
          exact Int.ediv_nonneg hT hP
        rw [h6, h2]
        simp only [Nat.zero_add, Int.toNat_ofNat, set_length_append]
        intro x hx
        rcases List.mem_append.mp hx with h | h
        · exact htarget x (by rw [h2]; exact List.mem_append_left _ h) (h3 x h)
        · rcases List.mem_cons.mp h with rfl | h1
          · exact hq
          · exact htarget x
              (by rw [h2]; exact List.mem_append_right _ (List.mem_cons_of_mem _ h1)) (h4 x h1)

/-- Witness of C24, amended: the target `(2, -1)` over a source of shape
`(3, 4)`. -/
theorem reshape_nonneg_extents_witness :
    reshape () [3, 4] [2, -1] =
        .ok { e_ := (), offset_ := 0, shape := [2, 6], strides := [1, 2] } ∧
      (0 : Int) ≤ 2 ∧ (0 : Int) ≤ 6 :=
  ⟨by rfl,
    reshape_nonneg_extents () [3, 4] [2, -1]
      { e_ := (), offset_ := 0, shape := [2, 6], strides := [1, 2] } (by decide) (by decide)
      (by rfl) 2 (by decide),
    reshape_nonneg_extents () [3, 4] [2, -1]
      { e_ := (), offset_ := 0, shape := [2, 6], strides := [1, 2] } (by decide) (by decide)
      (by rfl) 6 (by decide)⟩

/-- C29 does not hold: for a target with exactly one placeholder and an
explicit extent 0, the `for` loop of `reshape` ends with `size == 0` and
`reshape` evaluates `e.size() % size` with that divisor, for every source. -/
theorem reshape_zero_divisor {EC : Type} (e : EC) (old_shape pre post : List Int)
    (hpre : ∀ x ∈ pre, x ≠ -1) (hpost : ∀ x ∈ post, x ≠ -1)
    (hzero : (0 : Int) ∈ pre ++ post) :
    reshape_dims (pre ++ -1 :: post) 0 { size := 1, dim_adjust := -1 } =
        .ok { size := 0, dim_adjust := (pre.length : Int) } ∧
      reshape e old_shape (pre ++ -1 :: post) = .error .DivisionByZero ∧
      ReshapeError.DivisionByZero.isShapeMismatch = false := by
  have h0 : (pre ++ post).prod = 0 := List.prod_eq_zero hzero
  have hdims := reshape_dims_placeholder pre post 0 { size := 1, dim_adjust := -1 } hpre
    hpost rfl
  simp only [one_mul, h0, Nat.zero_add] at hdims
  refine ⟨hdims, ?_, rfl⟩
  have hadj : ¬ ((pre.length : Int) = -1) := by omega
  simp only [reshape, hdims, reshape_resolve, hadj, if_false, if_true]

/-- Witness of C29 not holding: the target `(0, -1)` over a source of shape
`(3, 4)`. -/
theorem reshape_zero_divisor_witness :
    reshape () [3, 4] ([0] ++ -1 :: []) = .error .DivisionByZero :=
  (reshape_zero_divisor () [3, 4] [0] [] (by decide) (by decide) (by decide)).2.1

/-! ## The source indices of a slice -/

/-- The integers `k ≥ 0` below the extent of an ordered slice are those for
which `start + k * step` lies before `stop` in the direction of the step. -/
theorem slice_extent_lt_iff {start stop step : Int}
    (hord : (0 < step ∧ start < stop) ∨ (step < 0 ∧ stop < start)) (k : Int) :
    k < slice_extent start stop step ↔
      ((0 < step ∧ start + k * step < stop) ∨ (step < 0 ∧ stop < start + k * step)) := by
  rcases hord with ⟨hs, ho⟩ | ⟨hs, ho⟩
  · rw [slice_extent_of_pos hs ho, extent_lt_iff _ _ _ hs]
    constructor
    · intro h
      left
      exact ⟨hs, by omega⟩
    · rintro (⟨-, h⟩ | ⟨h, -⟩) <;> omega
  · rw [slice_extent_of_neg hs ho, extent_lt_iff _ _ _ (by omega : 0 < -step)]
    have hk : k * -step = -(k * step) := by ring
    constructor
    · intro h
      right
      exact ⟨hs, by omega⟩
    · rintro (⟨h, -⟩ | ⟨-, h⟩) <;> omega

/-- C27 does not hold: on an axis of extent 5 and stride 1, the slice with start
-7, absent stop and step 1 is accepted with the resolved start -2, so it
addresses the source index -2, has the extent 7 and adds -2 to the offset; and
the slice with start 5, absent stop and step -1 is accepted although its first
source index is 5, with the extent 6; and the slice with absent start, stop -8
and step -1 is accepted with the resolved stop -3 and the extent 7, so it
addresses the source indices from 4 down to -2. -/
theorem slice_indices_out_of_range :
    view 1 (-2147483648) () [5] [1] [.SLICE ⟨-7, -2147483648, 1⟩] =
        .ok { e_ := (), offset_ := -2, shape := [7], strides := [1] } ∧
      slice_start (-2147483648) [5] 0 ⟨-7, -2147483648, 1⟩ 1 = .ok (-2) ∧
      view 1 (-2147483648) () [5] [1] [.SLICE ⟨5, -2147483648, -1⟩] =
        .ok { e_ := (), offset_ := 5, shape := [6], strides := [-1] } ∧
      slice_start (-2147483648) [5] 0 ⟨5, -2147483648, -1⟩ (-1) = .ok 5 ∧
      view 1 (-2147483648) () [5] [1] [.SLICE ⟨-2147483648, -8, -1⟩] =
        .ok { e_ := (), offset_ := 4, shape := [7], strides := [-1] } := by
  refine ⟨by rfl, by rfl, by rfl, by rfl, by rfl⟩

/-- C27, amended: for a slice that `view_desc` accepts on an axis of extent `E`
and stride `s`, with resolved bounds `start`, `stop` and step `step`, such that
`start ≥ 0` when the step is positive, and `start < E` and `stop ≥ -1` when the
step is negative: every source index `start + k * step` for `0 ≤ k < extent`
lies in `[0, E)`, the extent is at most `E`, and `start * s` is not negative
when `s` is not negative. -/
theorem slice_indices_in_range (gslice_none E s : Int) (old_shape old_strides : List Int)
    (st st1 : view_state) (slice : gslice) (step start stop : Int)
    (hE : old_shape[st.old_i]? = some E)
    (hstep : slice_step gslice_none slice = .ok step)
    (hstart : slice_start gslice_none old_shape st.old_i slice step = .ok start)
    (hstop : slice_stop gslice_none old_shape st.old_i slice step = .ok stop)
    (hok : view_desc gslice_none old_shape old_strides st (.SLICE slice) = .ok st1)
    (hpos : 0 < step → 0 ≤ start)
    (hneg : step < 0 → start < E ∧ -1 ≤ stop) :
    (∀ k : Int, 0 ≤ k → k < slice_extent start stop step →
      0 ≤ start + k * step ∧ start + k * step < E) ∧
    slice_extent start stop step ≤ E ∧
    (0 ≤ s → 0 ≤ start * s) := by
  obtain ⟨hchk, -⟩ := view_desc_slice_ok hstep hstart hstop hok
  obtain ⟨hord, E1, hE1, hb1, hb2⟩ := slice_check_ok (slice_step_ne_zero hstep) hchk
  rw [hE] at hE1
  cases hE1
  have hidx : ∀ k : Int, 0 ≤ k → k < slice_extent start stop step →
      0 ≤ start + k * step ∧ start + k * step < E := by
    intro k hk hlt
    rcases (slice_extent_lt_iff hord k).mp hlt with ⟨hs, h⟩ | ⟨hs, h⟩
    · have h1 := hb1 hs
      have h2 := hpos hs
      have h3 : 0 ≤ k * step := Int.mul_nonneg hk (le_of_lt hs)
      constructor <;> omega
    · obtain ⟨h1, h2⟩ := hneg hs
      have h3 : k * step ≤ 0 := Int.mul_nonpos_of_nonneg_of_nonpos hk (le_of_lt hs)
      constructor <;> omega
  have hone := slice_extent_ge_one hord
  have hstart0 : 0 ≤ start := by
    rcases hord with ⟨hs, -⟩ | ⟨hs, ho⟩
    · exact hpos hs
    · have := (hneg hs).2
      omega
  refine ⟨hidx, ?_, fun hs0 => Int.mul_nonneg hstart0 hs0⟩
  obtain ⟨h1, h2⟩ := hidx (slice_extent start stop step - 1) (by omega) (by omega)
  rcases hord with ⟨hs, -⟩ | ⟨hs, -⟩
  · have h3 : slice_extent start stop step - 1 ≤ (slice_extent start stop step - 1) * step := by
      have := Int.mul_le_mul_of_nonneg_left (by omega : (1 : Int) ≤ step)
        (by omega : (0 : Int) ≤ slice_extent start stop step - 1)
      simpa using this
    omega
  · obtain ⟨h4, -⟩ := hneg hs
    have h3 : (slice_extent start stop step - 1) * step ≤ -(slice_extent start stop step - 1) := by
      have := Int.mul_le_mul_of_nonneg_left (by omega : step ≤ (-1 : Int))
        (by omega : (0 : Int) ≤ slice_extent start stop step - 1)
      simpa using this
    omega

/-- Witness of C27, amended: the slice 1:8:3 of an axis of extent 10 addresses
the source indices 1, 4, 7. -/
theorem slice_indices_in_range_witness :
    ((0 : Int) ≤ 1 + 2 * 3 ∧ (1 : Int) + 2 * 3 < 10) ∧ slice_extent 1 8 3 ≤ 10 :=
  ⟨(slice_indices_in_range (-2147483648) 10 1 [10] [1] ⟨0, [], [], 0, 0⟩ ⟨1, [3], [3], 1, 1⟩
      ⟨1, 8, 3⟩ 3 1 8 (by rfl) (by rfl) (by rfl) (by rfl) (by rfl) (by decide)
      (by decide)).1 2 (by decide) (by decide),
    (slice_indices_in_range (-2147483648) 10 1 [10] [1] ⟨0, [], [], 0, 0⟩ ⟨1, [3], [3], 1, 1⟩
      ⟨1, 8, 3⟩ 3 1 8 (by rfl) (by rfl) (by rfl) (by rfl) (by rfl) (by decide)
      (by decide)).2.1⟩

/-- C28 does not hold on an axis of extent 0: the slice whose start, stop and
step are all absent fails there with "start must be less than stop", while
`ALL` gives the axis of extent 0. -/
theorem slice_all_absent_empty_axis :
    view 1 (-2147483648) () [0] [1]
        [.SLICE ⟨-2147483648, -2147483648, -2147483648⟩] = .error .InvalidRangeLess ∧
      view 1 (-2147483648) () [0] [1] [.ALL] =
        .ok { e_ := (), offset_ := 0, shape := [0], strides := [1] } := by
  refine ⟨by rfl, by rfl⟩

/-- C28, amended: on an input axis of extent `E > 0` and stride `s`, the slice
whose start, stop and step are all absent is accepted, appends the extent `E`
and the stride `s`, leaves the offset as it is, and so acts as `ALL` does; for
an input whose extents are all positive, `view` returns the same for the
descriptors with that slice and with `ALL` in its place. -/
theorem slice_all_absent (gslice_none E s : Int) (old_shape old_strides : List Int)
    (st : view_state)
    (hE : old_shape[st.old_i]? = some E) (hs : old_strides[st.old_i]? = some s)
    (hpos : 0 < E) :
    view_desc gslice_none old_shape old_strides st
        (.SLICE ⟨gslice_none, gslice_none, gslice_none⟩) =
      .ok { offset := st.offset, shape := st.shape ++ [E], strides := st.strides ++ [s],
            new_i := st.new_i + 1, old_i := st.old_i + 1 } ∧
    view_desc gslice_none old_shape old_strides st
        (.SLICE ⟨gslice_none, gslice_none, gslice_none⟩) =
      view_desc gslice_none old_shape old_strides st .ALL ∧
    ((∀ x ∈ old_shape, 0 < x) →
      ∀ (EC : Type) (N : Nat) (e : EC) (pre post : List gdesc),
        view N gslice_none e old_shape old_strides
            (pre ++ .SLICE ⟨gslice_none, gslice_none, gslice_none⟩ :: post) =
          view N gslice_none e old_shape old_strides (pre ++ .ALL :: post)) := by
  have hgen : ∀ (st0 : view_state) (E0 : Int), old_shape[st0.old_i]? = some E0 → 0 < E0 →
      view_desc gslice_none old_shape old_strides st0
          (.SLICE ⟨gslice_none, gslice_none, gslice_none⟩) =
        view_desc gslice_none old_shape old_strides st0 .ALL := by
    intro st0 E0 hE0 hpos0
    have hrE := read_axis_of_getElem? hE0
    have hstep : slice_step gslice_none ⟨gslice_none, gslice_none, gslice_none⟩ = .ok 1 := by
      simp [slice_step]
    have hstart : slice_start gslice_none old_shape st0.old_i
        ⟨gslice_none, gslice_none, gslice_none⟩ 1 = .ok 0 := by
      simp [slice_start]
    have hstop : slice_stop gslice_none old_shape st0.old_i
        ⟨gslice_none, gslice_none, gslice_none⟩ 1 = .ok E0 := by
      simp [slice_stop, hrE]
    rw [view_desc_slice_eq hstep hstart hstop]
    have h1 : ¬ ((0 : Int) ≥ E0) := by omega
    have hext : slice_extent 0 E0 1 = E0 := by
      rw [slice_extent_of_pos (by decide) hpos0]
      simp
    simp only [slice_check, h1, hrE, view_desc, bind, Except.bind, pure, Except.pure, hext]
    cases read_axis old_strides st0.old_i with
    | error err => simp
    | ok s0 => simp
  have hall : view_desc gslice_none old_shape old_strides st .ALL =
      .ok { offset := st.offset, shape := st.shape ++ [E], strides := st.strides ++ [s],
            new_i := st.new_i + 1, old_i := st.old_i + 1 } := by
    simp [view_desc, read_axis_of_getElem? hE, read_axis_of_getElem? hs, bind, Except.bind,
      pure, Except.pure]
  refine ⟨(hgen st E hE hpos).trans hall, hgen st E hE hpos, ?_⟩
  intro hallpos EC N e pre post
  apply view_congr_desc
  intro st0
  by_cases hlt : st0.old_i < old_shape.length
  · exact hgen st0 old_shape[st0.old_i] (List.getElem?_eq_getElem hlt)
      (hallpos _ (List.getElem_mem hlt))
  · have hnone : old_shape[st0.old_i]? = Option.none := List.getElem?_eq_none (by omega)
    simp [view_desc, slice_step, slice_start, slice_stop, read_axis, hnone, bind, Except.bind]

/-- Witness of C28, amended, on the axis of extent 5 and stride 1. -/
theorem slice_all_absent_witness :
    view_desc (-2147483648) [5] [1] ⟨0, [], [], 0, 0⟩
        (.SLICE ⟨-2147483648, -2147483648, -2147483648⟩) =
      .ok { offset := 0, shape := [] ++ [5], strides := [] ++ [1], new_i := 0 + 1,
            old_i := 0 + 1 } :=
  (slice_all_absent (-2147483648) 5 1 [5] [1] ⟨0, [], [], 0, 0⟩ (by rfl) (by rfl)
    (by decide)).1

/-! ## The batched-transform plans -/

/-- C25: for both plan classes, the object that a move construction or a move
assignment has moved from throws "can't use a moved-from plan" in `operator()`
and in `inverse` without making a library call, and its destructor destroys no
plan handle; on a freshly constructed plan `operator()` and `inverse` make
their library call and end without that error. -/
theorem moved_from_plan (success : fft.cufft_call → Bool) :
    (∀ self other : fft.FFTPlanManyCUDA_REAL,
      (other.move_construct.2.operator_call success =
          ([], .thrown "can't use a moved-from plan") ∧
        other.move_construct.2.inverse success =
          ([], .thrown "can't use a moved-from plan") ∧
        other.move_construct.2.destructor = []) ∧
      ((self.move_assign other).2.operator_call success =
          ([], .thrown "can't use a moved-from plan") ∧
        (self.move_assign other).2.inverse success =
          ([], .thrown "can't use a moved-from plan") ∧
        (self.move_assign other).2.destructor = [])) ∧
    (∀ self other : fft.FFTPlanManyCUDA_COMPLEX,
      (other.move_construct.2.operator_call success =
          ([], .thrown "can't use a moved-from plan") ∧
        other.move_construct.2.inverse success =
          ([], .thrown "can't use a moved-from plan") ∧
        other.move_construct.2.destructor = []) ∧
      ((self.move_assign other).2.operator_call success =
          ([], .thrown "can't use a moved-from plan") ∧
        (self.move_assign other).2.inverse success =
          ([], .thrown "can't use a moved-from plan") ∧
        (self.move_assign other).2.destructor = [])) ∧
    (∀ f i : Nat,
      fft.FFTPlanManyCUDA_REAL.construct (some f) (some i) =
        some { plan_forward_ := f, plan_inverse_ := i, is_valid_ := true } ∧
      (({ plan_forward_ := f, plan_inverse_ := i, is_valid_ := true } :
          fft.FFTPlanManyCUDA_REAL).operator_call success).1 = [.exec f false] ∧
      (({ plan_forward_ := f, plan_inverse_ := i, is_valid_ := true } :
          fft.FFTPlanManyCUDA_REAL).operator_call success).2 ≠
        .thrown "can't use a moved-from plan" ∧
      (({ plan_forward_ := f, plan_inverse_ := i, is_valid_ := true } :
          fft.FFTPlanManyCUDA_REAL).inverse success).1 = [.exec i true] ∧
      (({ plan_forward_ := f, plan_inverse_ := i, is_valid_ := true } :
          fft.FFTPlanManyCUDA_REAL).inverse success).2 ≠
        .thrown "can't use a moved-from plan") ∧
    (∀ h : Nat,
      fft.FFTPlanManyCUDA_COMPLEX.construct (some h) = some { plan_ := h, is_valid_ := true } ∧
      (({ plan_ := h, is_valid_ := true } :
          fft.FFTPlanManyCUDA_COMPLEX).operator_call success).1 = [.exec h false] ∧
      (({ plan_ := h, is_valid_ := true } :
          fft.FFTPlanManyCUDA_COMPLEX).operator_call success).2 ≠
        .thrown "can't use a moved-from plan" ∧
      (({ plan_ := h, is_valid_ := true } :
          fft.FFTPlanManyCUDA_COMPLEX).inverse success).1 = [.exec h true] ∧
      (({ plan_ := h, is_valid_ := true } :
          fft.FFTPlanManyCUDA_COMPLEX).inverse success).2 ≠
        .thrown "can't use a moved-from plan") := by
  refine ⟨fun self other => ⟨⟨rfl, rfl, rfl⟩, ⟨rfl, rfl, rfl⟩⟩,
    fun self other => ⟨⟨rfl, rfl, rfl⟩, ⟨rfl, rfl, rfl⟩⟩, ?_, ?_⟩
  · intro f i
    refine ⟨rfl, rfl, ?_, rfl, ?_⟩
    · simp only [fft.FFTPlanManyCUDA_REAL.operator_call]
      cases success (.exec f false) <;> simp
    · simp only [fft.FFTPlanManyCUDA_REAL.inverse]
      cases success (.exec i true) <;> simp
  · intro h
    refine ⟨rfl, rfl, ?_, rfl, ?_⟩
    · simp only [fft.FFTPlanManyCUDA_COMPLEX.operator_call]
      cases success (.exec h false) <;> simp
    · simp only [fft.FFTPlanManyCUDA_COMPLEX.inverse]
      cases success (.exec h true) <;> simp

/-- C30 does not hold for the move assignment to a plan that has itself been
moved from: the move assignment leaves `is_valid_` of its target as it was
(the move constructor sets it), so after `dst = move(src)` with a valid `src`
and such a `dst`, `dst` still throws "can't use a moved-from plan", and neither
destructor destroys the handles of `src`; this holds for both plan classes. -/
theorem move_assign_to_moved_from (success : fft.cufft_call → Bool) :
    (∀ self other : fft.FFTPlanManyCUDA_REAL,
      (self.move_assign other).1.is_valid_ = self.is_valid_ ∧
      other.move_construct.1.is_valid_ = true) ∧
    (∀ self other : fft.FFTPlanManyCUDA_COMPLEX,
      (self.move_assign other).1.is_valid_ = self.is_valid_ ∧
      other.move_construct.1.is_valid_ = true) ∧
    ((({ plan_forward_ := 1, plan_inverse_ := 2, is_valid_ := true } :
          fft.FFTPlanManyCUDA_REAL).move_construct.2.move_assign
        { plan_forward_ := 3, plan_inverse_ := 4, is_valid_ := true }).1.operator_call success =
        ([], .thrown "can't use a moved-from plan") ∧
      (({ plan_forward_ := 1, plan_inverse_ := 2, is_valid_ := true } :
          fft.FFTPlanManyCUDA_REAL).move_construct.2.move_assign
        { plan_forward_ := 3, plan_inverse_ := 4, is_valid_ := true }).1.destructor = [] ∧
      (({ plan_forward_ := 1, plan_inverse_ := 2, is_valid_ := true } :
          fft.FFTPlanManyCUDA_REAL).move_construct.2.move_assign
        { plan_forward_ := 3, plan_inverse_ := 4, is_valid_ := true }).2.destructor = []) ∧
    ((({ plan_ := 1, is_valid_ := true } :
          fft.FFTPlanManyCUDA_COMPLEX).move_construct.2.move_assign
        { plan_ := 3, is_valid_ := true }).1.inverse success =
        ([], .thrown "can't use a moved-from plan") ∧
      (({ plan_ := 1, is_valid_ := true } :
          fft.FFTPlanManyCUDA_COMPLEX).move_construct.2.move_assign
        { plan_ := 3, is_valid_ := true }).1.destructor = [] ∧
      (({ plan_ := 1, is_valid_ := true } :
          fft.FFTPlanManyCUDA_COMPLEX).move_construct.2.move_assign
        { plan_ := 3, is_valid_ := true }).2.destructor = []) :=
  ⟨fun _ _ => ⟨rfl, rfl⟩, fun _ _ => ⟨rfl, rfl⟩, ⟨rfl, rfl, rfl⟩, ⟨rfl, rfl, rfl⟩⟩

/-! ## The device ids -/

set_option maxRecDepth 100000 in
theorem land_byte_zero : ∀ b : Nat, b < 256 →
    0x0000FF00 &&& b = 0 ∧ 0x00FF0000 &&& b = 0 ∧ 0xFF000000 &&& b = 0 ∧
      0x000000FF &&& b = b := by
  decide

/-- What `get_unique_device_id<level_zero>` returns when the PCI query does not
succeed and the byte 3 of the UUID is not zero: that byte alone, the masks
`0x0000FF00`, `0x00FF0000` and `0xFF000000` being applied to the bytes 2, 1
and 0 without a shift. -/
theorem level_zero_uuid_id (device_index : Int) (uuid_id : Nat → Nat)
    (vendorId deviceId sycl_vendor_id : Nat) (h3 : uuid_id 3 % 256 ≠ 0) :
    get_unique_device_id_level_zero device_index Option.none uuid_id vendorId deviceId
      sycl_vendor_id = uuid_id 3 % 256 := by
  have hb : ∀ k : Nat, uuid_id k % 256 < 256 := fun k => Nat.mod_lt _ (by decide)
  obtain ⟨-, -, -, e3⟩ := land_byte_zero _ (hb 3)
  obtain ⟨e2, -, -, -⟩ := land_byte_zero _ (hb 2)
  obtain ⟨-, e1, -, -⟩ := land_byte_zero _ (hb 1)
  obtain ⟨-, -, e0, -⟩ := land_byte_zero _ (hb 0)
  simp only [get_unique_device_id_level_zero, if_true, e3, e2, e1, e0, Nat.zero_or, Nat.or_zero,
    h3, if_false]

/-- C26 does not hold: with the PCI query failing, the devices with the UUID
bytes `(1, 2, 3, 4)` and `(9, 8, 7, 4)` both get the id 4, which is the byte 3
alone and not `(1 << 24) | (2 << 16) | (3 << 8) | 4`. -/
theorem level_zero_uuid_collision :
    get_unique_device_id_level_zero 0 Option.none (fun k => [1, 2, 3, 4].getD k 0)
        32902 0 32902 = 4 ∧
      get_unique_device_id_level_zero 1 Option.none (fun k => [9, 8, 7, 4].getD k 0)
        32902 0 32902 = 4 ∧
      (1 <<< 24 ||| 2 <<< 16 ||| 3 <<< 8 ||| 4 : Nat) = 16909060 := by
  decide

/-! ## The registry of devices -/

theorem int_to_size_t_of_nonneg {x : Int} (h0 : 0 ≤ x) (h : is_int x) :
    (int_to_size_t x : Int) = x := by
  unfold is_int at h
  unfold int_to_size_t
  omega

/-- The signed/unsigned comparison: a negative `int` is converted to a
`size_t` of at least `2^64 - 2^31`. -/
theorem int_to_size_t_of_neg {x : Int} (h0 : x < 0) (h : is_int x) :
    (int_to_size_t x : Int) = x + 18446744073709551616 := by
  unfold is_int at h
  unfold int_to_size_t
  omega

theorem valid_device_id_or_throw_error_iff {D : Type} (q : SyclQueues D) (device_id : Int)
    (h : is_int device_id) :
    q.valid_device_id_or_throw device_id = .error "No such device" ↔
      device_id < 0 ∨ (q.devices_.length : Int) ≤ device_id := by
  unfold SyclQueues.valid_device_id_or_throw
  by_cases h0 : device_id < 0
  · simp [h0]
  · have e := int_to_size_t_of_nonneg (not_lt.mp h0) h
    have hc : int_to_size_t device_id ≥ q.devices_.length ↔
        (q.devices_.length : Int) ≤ device_id := by
      omega
    simp [h0, hc]

theorem valid_device_id_or_throw_ok_iff {D : Type} (q : SyclQueues D) (device_id : Int)
    (h : is_int device_id) :
    q.valid_device_id_or_throw device_id = .ok () ↔
      0 ≤ device_id ∧ device_id < (q.devices_.length : Int) := by
  have e := valid_device_id_or_throw_error_iff q device_id h
  unfold SyclQueues.valid_device_id_or_throw at e ⊢
  split_ifs at e ⊢ with hc
  · simp only [true_iff] at e
    simp only [reduceCtorEq, false_iff]
    omega
  · simp only [reduceCtorEq, false_iff] at e
    simp only [true_iff]
    omega

theorem set_device_id_invalid {D : Type} (q : SyclQueues D) (device_id : Int)
    (h : is_int device_id) (hinv : device_id < 0 ∨ (q.devices_.length : Int) ≤ device_id) :
    q.set_device_id device_id = (.error "No such device", q) := by
  have e := (valid_device_id_or_throw_error_iff q device_id h).mpr hinv
  unfold SyclQueues.set_device_id
  rw [e]

theorem set_device_id_valid {D : Type} (q : SyclQueues D) (device_id : Int)
    (h : is_int device_id) (hval : 0 ≤ device_id ∧ device_id < (q.devices_.length : Int)) :
    q.set_device_id device_id =
      (.ok (), { devices_ := q.devices_, current_device_id_ := device_id }) := by
  have e := (valid_device_id_or_throw_ok_iff q device_id h).mpr hval
  unfold SyclQueues.set_device_id
  rw [e]

theorem set_device_id_cases {D : Type} (q : SyclQueues D) (device_id : Int)
    (h : is_int device_id) :
    (q.set_device_id device_id).2 = q ∨
      ((q.set_device_id device_id).2 =
          { devices_ := q.devices_, current_device_id_ := device_id } ∧
        0 ≤ device_id ∧ device_id < (q.devices_.length : Int)) := by
  by_cases hval : 0 ≤ device_id ∧ device_id < (q.devices_.length : Int)
  · right
    rw [set_device_id_valid q device_id h hval]
    exact ⟨rfl, hval⟩
  · left
    rw [set_device_id_invalid q device_id h (by omega)]

/-- The invariant of the calls of `set_device_id`: the vector of devices stays,
and the current device id stays one that is `0` or was given to a call and is
in the range of the devices. -/
theorem set_device_ids_invariant {D : Type} (device_ids : List Int)
    (hids : ∀ id ∈ device_ids, is_int id) (seen : List Int) (q : SyclQueues D)
    (hq : q.current_device_id_ = 0 ∨
      (q.current_device_id_ ∈ seen ∧ 0 ≤ q.current_device_id_ ∧
        q.current_device_id_ < (q.devices_.length : Int))) :
    (q.set_device_ids device_ids).devices_ = q.devices_ ∧
      ((q.set_device_ids device_ids).current_device_id_ = 0 ∨
        ((q.set_device_ids device_ids).current_device_id_ ∈ seen ++ device_ids ∧
          0 ≤ (q.set_device_ids device_ids).current_device_id_ ∧
          (q.set_device_ids device_ids).current_device_id_ < (q.devices_.length : Int))) := by
  induction device_ids generalizing seen q with
  | nil =>
    simp only [SyclQueues.set_device_ids, List.foldl_nil, List.append_nil, true_and]
    exact hq
  | cons id rest ih =>
    have hid : is_int id := hids id (List.mem_cons_self _ _)
    have hrest : ∀ x ∈ rest, is_int x := fun x hx => hids x (List.mem_cons_of_mem _ hx)
    have hstep : q.set_device_ids (id :: rest) =
        ((q.set_device_id id).2).set_device_ids rest := by
      simp only [SyclQueues.set_device_ids, List.foldl_cons]
    rw [hstep]
    have hdev : (q.set_device_id id).2.devices_ = q.devices_ := by
      rcases set_device_id_cases q id hid with e | ⟨e, -⟩ <;> rw [e]
    have hq2 : (q.set_device_id id).2.current_device_id_ = 0 ∨
        ((q.set_device_id id).2.current_device_id_ ∈ seen ++ [id] ∧
          0 ≤ (q.set_device_id id).2.current_device_id_ ∧
          (q.set_device_id id).2.current_device_id_ <
            ((q.set_device_id id).2.devices_.length : Int)) := by
      rw [hdev]
      rcases set_device_id_cases q id hid with e | ⟨e, h0, h1⟩
      · rw [e]
        rcases hq with h | ⟨hm, h0, h1⟩
        · exact Or.inl h
        · exact Or.inr ⟨List.mem_append_left _ hm, h0, h1⟩
      · rw [e]
        exact Or.inr ⟨List.mem_append_right _ (List.mem_singleton_self _), h0, h1⟩
    have := ih hrest (seen ++ [id]) (q.set_device_id id).2 hq2
    rw [hdev, List.append_assoc, List.singleton_append] at this
    exact this

/-- C31: for a registry `q` holding `n = q.devices_.length` devices and every
`int` `device_id`, `valid_device_id_or_throw(device_id)` throws "No such device"
exactly when `device_id < 0` or `device_id >= n`, the conversion of `device_id`
to `size_t` in the comparison included, and returns otherwise;
`set_device_id(device_id)` with such an id throws and leaves the object as it
was, and with an id in `0 .. n-1` it returns, after which `get_device_id()`
gives `device_id` and the devices are the same.  After the constructor and any
calls `set_device_id` with `int` arguments, the current device id is `0` or an
argument of one of the calls that passes the validation, that is, one in
`0 .. n-1`. -/
theorem sycl_queues_device_id {D : Type} (q : SyclQueues D) (device_id : Int)
    (device_ids : List Int) (h : is_int device_id) (hids : ∀ id ∈ device_ids, is_int id) :
    (q.valid_device_id_or_throw device_id = .error "No such device" ↔
        device_id < 0 ∨ (q.devices_.length : Int) ≤ device_id) ∧
      (q.valid_device_id_or_throw device_id = .ok () ↔
        ¬ (device_id < 0 ∨ (q.devices_.length : Int) ≤ device_id)) ∧
      (device_id < 0 ∨ (q.devices_.length : Int) ≤ device_id →
        q.set_device_id device_id = (.error "No such device", q)) ∧
      (0 ≤ device_id ∧ device_id < (q.devices_.length : Int) →
        (q.set_device_id device_id).1 = .ok () ∧
          (q.set_device_id device_id).2.get_device_id = device_id ∧
          (q.set_device_id device_id).2.devices_ = q.devices_) ∧
      ((SyclQueues.construct q.devices_).set_device_ids device_ids).devices_ = q.devices_ ∧
      (((SyclQueues.construct q.devices_).set_device_ids device_ids).get_device_id = 0 ∨
        (((SyclQueues.construct q.devices_).set_device_ids device_ids).get_device_id ∈
            device_ids ∧
          ((SyclQueues.construct q.devices_).set_device_ids device_ids).valid_device_id_or_throw
              ((SyclQueues.construct q.devices_).set_device_ids device_ids).get_device_id =
            .ok () ∧
          0 ≤ ((SyclQueues.construct q.devices_).set_device_ids device_ids).get_device_id ∧
          ((SyclQueues.construct q.devices_).set_device_ids device_ids).get_device_id <
            (q.devices_.length : Int))) := by
  refine ⟨valid_device_id_or_throw_error_iff q device_id h, ?_, ?_, ?_, ?_⟩
  · rw [valid_device_id_or_throw_ok_iff q device_id h]
    omega
  · exact set_device_id_invalid q device_id h
  · intro hval
    rw [set_device_id_valid q device_id h hval]
    exact ⟨rfl, rfl, rfl⟩
  · have inv := set_device_ids_invariant device_ids hids [] (SyclQueues.construct q.devices_)
      (Or.inl rfl)
    obtain ⟨hdev, hcur⟩ := inv
    have hdev2 : ((SyclQueues.construct q.devices_).set_device_ids device_ids).devices_ =
        q.devices_ := hdev
    refine ⟨hdev2, ?_⟩
    rcases hcur with h0 | ⟨hm, h0, h1⟩
    · exact Or.inl h0
    · right
      rw [List.nil_append] at hm
      have h1b : ((SyclQueues.construct q.devices_).set_device_ids device_ids).current_device_id_ <
          (q.devices_.length : Int) := h1
      refine ⟨hm, ?_, h0, h1b⟩
      refine (valid_device_id_or_throw_ok_iff _ _ (hids _ hm)).mpr ?_
      rw [hdev2]
      exact ⟨h0, h1b⟩

/-- The theorem `sycl_queues_device_id` at a registry of three devices whose
current device id is 2, for the id 1 and the calls `set_device_id(2)`,
`set_device_id(-1)`, `set_device_id(7)`, `set_device_id(1)`: the id 1 passes the
validation and becomes the current one, as it does after the four calls. -/
theorem sycl_queues_device_id_witness :
    is_int 1 ∧ (∀ id ∈ [2, -1, 7, 1], is_int id) ∧
      (({ devices_ := [(), (), ()], current_device_id_ := 2 } :
          SyclQueues Unit).set_device_id 1).2.get_device_id = 1 ∧
      ((SyclQueues.construct [(), (), ()]).set_device_ids [2, -1, 7, 1]).get_device_id = 1 ∧
      (({ devices_ := [(), (), ()], current_device_id_ := 2 } :
          SyclQueues Unit).valid_device_id_or_throw 1 = .ok () ↔
        ¬ ((1 : Int) < 0 ∨ (([(), (), ()] : List Unit).length : Int) ≤ 1)) :=
  ⟨by decide, by decide,
    ((sycl_queues_device_id { devices_ := [(), (), ()], current_device_id_ := 2 } 1
      [2, -1, 7, 1] (by decide) (by decide)).2.2.2.1 (by decide)).2.1,
    by rfl,
    (sycl_queues_device_id { devices_ := [(), (), ()], current_device_id_ := 2 } 1
      [2, -1, 7, 1] (by decide) (by decide)).2.1⟩

/-! ## The offset of `view` in `size_type` -/

/-- Adding to a `size_type` value modulo `2^64` is adding to the integer and
converting the sum. -/
theorem int_to_size_t_add (a b : Int) :
    int_to_size_t ((int_to_size_t a : Int) + b) = int_to_size_t (a + b) := by
  unfold int_to_size_t
  omega

theorem int_to_size_t_idem (a : Int) :
    int_to_size_t (int_to_size_t a : Int) = int_to_size_t a := by
  unfold int_to_size_t
  omega

/-- One iteration of the `for` loop of `view` with `offset` in `size_type` holds
the `size_type` value of the offset that `view_desc` computes in the
integers. -/
theorem view_desc_size_type_eq (gslice_none : Int) (old_shape old_strides : List Int)
    (st : view_state) (d : gdesc) :
    view_desc_size_type gslice_none old_shape old_strides st.to_size_type d =
      (view_desc gslice_none old_shape old_strides st d).map view_state.to_size_type := by
  cases d with
  | ALL =>
    simp only [view_desc, view_desc_size_type, view_state.to_size_type, bind, Except.bind,
      pure, Except.pure]
    cases read_axis old_shape st.old_i with
    | error err => rfl
    | ok E =>
      cases read_axis old_strides st.old_i with
      | error err => rfl
      | ok s => rfl
  | VALUE value =>
    simp only [view_desc, view_desc_size_type, view_state.to_size_type, bind, Except.bind,
      pure, Except.pure]
    cases read_axis old_strides st.old_i with
    | error err => rfl
    | ok s =>
      simp only [Except.map, int_to_size_t_add, view_state.to_size_type]
  | NEWAXIS => rfl
  | SLICE slice =>
    simp only [view_desc, view_desc_size_type, view_state.to_size_type, bind, Except.bind,
      pure, Except.pure]
    cases slice_step gslice_none slice with
    | error err => rfl
    | ok step =>
      simp only
      cases slice_start gslice_none old_shape st.old_i slice step with
      | error err => rfl
      | ok start =>
        simp only
        cases slice_stop gslice_none old_shape st.old_i slice step with
        | error err => rfl
        | ok stop =>
          simp only
          cases slice_check old_shape st.old_i start stop step with
          | error err => rfl
          | ok u =>
            simp only
            cases read_axis old_strides st.old_i with
            | error err => rfl
            | ok s =>
              simp only [Except.map, int_to_size_t_add, view_state.to_size_type]

theorem view_descs_size_type_eq (gslice_none : Int) (old_shape old_strides : List Int)
    (descs : List gdesc) :
    ∀ st : view_state,
      view_descs_size_type gslice_none old_shape old_strides descs st.to_size_type =
        (view_descs gslice_none old_shape old_strides descs st).map
          view_state.to_size_type := by
  induction descs with
  | nil =>
    intro st
    rfl
  | cons d ds ih =>
    intro st
    simp only [view_descs, view_descs_size_type, bind, Except.bind, view_desc_size_type_eq]
    cases view_desc gslice_none old_shape old_strides st d with
    | error err => rfl
    | ok st1 =>
      simp only [Except.map]
      exact ih st1

theorem view_rest_loop_size_type (old_shape old_strides : List Int) (n : Nat) :
    ∀ st : view_state,
      view_rest_loop old_shape old_strides n st.to_size_type =
        (view_rest_loop old_shape old_strides n st).map view_state.to_size_type := by
  induction n with
  | zero =>
    intro st
    rfl
  | succ n ih =>
    intro st
    simp only [view_rest_loop, view_state.to_size_type, bind, Except.bind]
    split_ifs with h
    · cases read_axis old_shape st.old_i with
      | error err => rfl
      | ok E =>
        cases read_axis old_strides st.old_i with
        | error err => rfl
        | ok s =>
          exact ih { offset := st.offset, shape := st.shape ++ [E], strides := st.strides ++ [s],
                     new_i := st.new_i + 1, old_i := st.old_i + 1 }
    · rfl

/-- The view that `view` returns with `offset` in `size_type` is the view of
`view`, whose offset is the integer sum of the products, with the `size_type`
value of that sum as its `offset_`; the errors are the same. -/
theorem view_size_type_eq {EC : Type} (N : Nat) (gslice_none : Int) (e : EC)
    (old_shape old_strides : List Int) (descs : List gdesc) :
    view_size_type N gslice_none e old_shape old_strides descs =
      (view N gslice_none e old_shape old_strides descs).map gview.to_size_type := by
  have h := view_descs_size_type_eq gslice_none old_shape old_strides descs
    { offset := 0, shape := [], strides := [], new_i := 0, old_i := 0 }
  have h0 : ({ offset := 0, shape := [], strides := [], new_i := 0, old_i := 0 } :
      view_state).to_size_type =
      { offset := 0, shape := [], strides := [], new_i := 0, old_i := 0 } := by
    rfl
  rw [h0] at h
  simp only [view_size_type, view, bind, Except.bind, pure, Except.pure, h]
  cases view_descs gslice_none old_shape old_strides descs
      { offset := 0, shape := [], strides := [], new_i := 0, old_i := 0 } with
  | error err => rfl
  | ok st =>
    simp only [Except.map]
    have hr := view_rest_loop_size_type old_shape old_strides (old_shape.length - st.old_i) st
    simp only [view_rest]
    have hold : st.to_size_type.old_i = st.old_i := rfl
    rw [hold, hr]
    cases view_rest_loop old_shape old_strides (old_shape.length - st.old_i) st with
    | error err => rfl
    | ok st2 =>
      simp only [Except.map, view_state.to_size_type]
      split_ifs <;> rfl

/-- C10: a descriptor `VALUE(i)` met at the input axis `consumed_axes pre`,
whose stride is `s`, consumes that one input axis (`old_i` grows by one), adds
`i * s` to the offset in the arithmetic of `size_type`, that is, modulo `2^64`,
and writes no output axis (shape, strides and `new_i` stay), for every integer
`i`: there is no check of `i` against the extent and no wraparound of a negative
`i`.  The view of `pre ++ VALUE(i) :: post` has the shape and the strides of the
view that the other descriptors `pre ++ post` give on the input without that
axis, and its offset with `i * s` added in `size_type`, or it is the same
error.  Where the sum lies in the range of `size_type`, the offset is the sum
itself. -/
theorem view_value {EC : Type} (N : Nat) (gslice_none : Int) (e : EC)
    (old_shape old_strides : List Int) (pre post : List gdesc) (i s : Int)
    (hlen : old_shape.length = old_strides.length)
    (hs : old_strides[consumed_axes pre]? = some s) :
    (∀ st : view_state, st.old_i = consumed_axes pre →
      view_desc_size_type gslice_none old_shape old_strides st (.VALUE i) =
        .ok { offset := int_to_size_t (st.offset + i * s), shape := st.shape,
              strides := st.strides, new_i := st.new_i, old_i := st.old_i + 1 }) ∧
    view_size_type N gslice_none e old_shape old_strides (pre ++ .VALUE i :: post) =
      (view_size_type N gslice_none e (old_shape.eraseIdx (consumed_axes pre))
        (old_strides.eraseIdx (consumed_axes pre)) (pre ++ post)).map
        (fun v => { v with offset_ := int_to_size_t (v.offset_ + i * s) }) ∧
    (∀ o : Int, 0 ≤ o + i * s → o + i * s < 18446744073709551616 →
      (int_to_size_t (o + i * s) : Int) = o + i * s) := by
  refine ⟨?_, ?_, ?_⟩
  · intro st hst
    rw [← hst] at hs
    simp [view_desc_size_type, read_axis_of_getElem? hs, bind, Except.bind, pure, Except.pure]
  · rw [view_size_type_eq, view_size_type_eq,
      (view_value_sum N gslice_none e old_shape old_strides pre post i s hlen hs).2]
    cases view N gslice_none e (old_shape.eraseIdx (consumed_axes pre))
        (old_strides.eraseIdx (consumed_axes pre)) (pre ++ post) with
    | error err => rfl
    | ok v =>
      simp only [Except.map, gview.to_size_type, int_to_size_t_add]
  · intro o h0 h1
    unfold int_to_size_t
    omega

/-- Witness of C10 on the input of shape `(3, 2)` and strides `(1, 3)`: the
view through `(ALL, VALUE(-4))`, whose index is negative and out of the range
of the axis, has the shape `(3)` and the stride `(1)` of the first axis alone,
and `-4 * 3` added to the offset 0 in `size_type`, which is `2^64 - 12`. -/
theorem view_value_witness :
    view_size_type 1 (-2147483648) () [3, 2] [1, 3] ([gdesc.ALL] ++ .VALUE (-4) :: []) =
      .ok { e_ := (), offset_ := 18446744073709551604, shape := [3], strides := [1] } :=
  ((view_value 1 (-2147483648) () [3, 2] [1, 3] [.ALL] [] (-4) 3 (by rfl)
    (by rfl)).2.1).trans (by rfl)

/-! ## The strides that `reshape` returns -/

theorem int_to_size_t_mul (a b : Int) :
    int_to_size_t ((int_to_size_t a : Int) * b) = int_to_size_t (a * b) := by
  unfold int_to_size_t
  rw [Int.toNat_of_nonneg (Int.emod_nonneg _ (by decide))]
  congr 1
  rw [Int.mul_emod, Int.emod_emod, ← Int.mul_emod]

theorem filter_explicit_of_forall (l : List Int) (h : ∀ x ∈ l, x ≠ -1) :
    (l.filter fun x => x ≠ -1) = l := by
  rw [List.filter_eq_self]
  intro x hx
  simpa using h x hx

theorem resolved_shape_of_explicit (q : Int) (l : List Int) (h : ∀ x ∈ l, x ≠ -1) :
    resolved_shape q l = l := by
  induction l with
  | nil => rfl
  | cons x l ih =>
    have hx : x ≠ -1 := h x (List.mem_cons_self _ _)
    simp only [resolved_shape, List.map_cons, hx, if_false] at ih ⊢
    rw [ih (fun y hy => h y (List.mem_cons_of_mem _ hy))]

theorem resolved_shape_placeholder (q : Int) (pre post : List Int)
    (hpre : ∀ x ∈ pre, x ≠ -1) (hpost : ∀ x ∈ post, x ≠ -1) :
    resolved_shape q (pre ++ -1 :: post) = pre ++ q :: post := by
  have h1 := resolved_shape_of_explicit q pre hpre
  have h2 := resolved_shape_of_explicit q post hpost
  simp only [resolved_shape] at h1 h2 ⊢
  simp only [List.map_append, List.map_cons, h1, h2, if_true]

theorem explicit_size_placeholder (pre post : List Int)
    (hpre : ∀ x ∈ pre, x ≠ -1) (hpost : ∀ x ∈ post, x ≠ -1) :
    explicit_size (pre ++ -1 :: post) = (pre ++ post).prod := by
  simp only [explicit_size, List.filter_append, filter_explicit_of_forall pre hpre]
  rw [List.filter_cons_of_neg (by simp), filter_explicit_of_forall post hpost]

/-- What the `for` loop of `reshape` with `size` in `size_type` has seen when it
ends without error: either no placeholder in the entries it ran over, or exactly
one, at the position that it has recorded in `dim_adjust`; `size` is the
`size_type` value of its product with the other entries. -/
theorem reshape_dims_size_type_ok (shape : List Int) :
    ∀ (d : Nat) (st st1 : reshape_state), (int_to_size_t st.size : Int) = st.size →
      reshape_dims_size_type shape d st = .ok st1 →
      ((∀ x ∈ shape, x ≠ -1) ∧ st1.size = int_to_size_t (st.size * shape.prod) ∧
        st1.dim_adjust = st.dim_adjust) ∨
      (st.dim_adjust = -1 ∧ ∃ pre post : List Int, shape = pre ++ -1 :: post ∧
        (∀ x ∈ pre, x ≠ -1) ∧ (∀ x ∈ post, x ≠ -1) ∧
        st1.size = int_to_size_t (st.size * (pre ++ post).prod) ∧
        st1.dim_adjust = ((d + pre.length : Nat) : Int)) := by
  induction shape with
  | nil =>
    intro d st st1 hrange h
    simp only [reshape_dims_size_type] at h
    cases h
    left
    simp [hrange]
  | cons x shape ih =>
    intro d st st1 hrange h
    simp only [reshape_dims_size_type] at h
    by_cases hx : x = -1
    · simp only [hx, if_true] at h
      by_cases hst : st.dim_adjust = -1
      · simp only [hst, if_true] at h
        rcases ih (d + 1) { size := st.size, dim_adjust := d } st1 hrange h with
          ⟨h1, h2, h3⟩ | ⟨h1, -⟩
        · right
          refine ⟨hst, [], shape, by rw [hx]; rfl, by simp, h1, ?_, ?_⟩
          · simpa using h2
          · simpa using h3
        · simp only at h1
          omega
      · simp only [hst, if_false] at h
        cases h
    · simp only [hx, if_false] at h
      have hrange1 : (int_to_size_t ((int_to_size_t (st.size * x) : Nat) : Int) : Int) =
          ((int_to_size_t (st.size * x) : Nat) : Int) := by
        rw [int_to_size_t_idem]
      rcases ih (d + 1) _ st1 hrange1 h with
        ⟨h1, h2, h3⟩ | ⟨h1, pre, post, h2, h3, h4, h5, h6⟩
      · left
        refine ⟨?_, ?_, h3⟩
        · intro y hy
          rcases List.mem_cons.mp hy with rfl | hy1
          · exact hx
          · exact h1 y hy1
        · rw [h2]
          simp only [int_to_size_t_mul, List.prod_cons, mul_assoc]
      · right
        refine ⟨h1, x :: pre, post, by rw [h2]; rfl, ?_, h4, ?_, ?_⟩
        · intro y hy
          rcases List.mem_cons.mp hy with rfl | hy1
          · exact hx
          · exact h3 y hy1
        · rw [h5]
          simp only [int_to_size_t_mul, List.cons_append, List.prod_cons, mul_assoc]
        · rw [h6]
          simp only [List.length_cons]
          omega

theorem int_to_size_t_of_range {a : Int} (h0 : 0 ≤ a) (h1 : a < 18446744073709551616) :
    (int_to_size_t a : Int) = a := by
  unfold int_to_size_t
  omega

/-- The `for` loop of `reshape` with `size` in `size_type` holds the `size_type`
value of the product that `reshape_dims` computes in the integers. -/
theorem reshape_dims_size_type_eq (shape : List Int) :
    ∀ (d : Nat) (st : reshape_state),
      reshape_dims_size_type shape d
          { size := int_to_size_t st.size, dim_adjust := st.dim_adjust } =
        (reshape_dims shape d st).map
          (fun st1 => { size := int_to_size_t st1.size, dim_adjust := st1.dim_adjust }) := by
  induction shape with
  | nil =>
    intro d st
    rfl
  | cons x shape ih =>
    intro d st
    simp only [reshape_dims_size_type, reshape_dims]
    by_cases hx : x = -1
    · simp only [hx, if_true]
      by_cases hst : st.dim_adjust = -1
      · simp only [hst, if_true]
        exact ih (d + 1) { size := st.size, dim_adjust := d }
      · simp only [hst, if_false]
        rfl
    · simp only [hx, if_false, int_to_size_t_mul]
      exact ih (d + 1) { size := st.size * x, dim_adjust := st.dim_adjust }

/-- Where the product of the explicit extents of the target and the size of
the source lie in the range of `size_type`, `reshape` with `size` in
`size_type` is `reshape` with the integer product. -/
theorem reshape_size_type_eq {EC : Type} (e : EC) (old_shape shape : List Int)
    (hP0 : 0 ≤ explicit_size shape) (hP1 : explicit_size shape < 18446744073709551616)
    (hT0 : 0 ≤ calc_size old_shape) (hT1 : calc_size old_shape < 18446744073709551616) :
    reshape_size_type e old_shape shape = reshape e old_shape shape := by
  have hd := reshape_dims_size_type_eq shape 0 { size := 1, dim_adjust := -1 }
  have h1 : ((int_to_size_t 1 : Nat) : Int) = 1 := by rfl
  simp only [h1] at hd
  simp only [reshape_size_type, reshape, hd, int_to_size_t_of_range hT0 hT1]
  cases hr : reshape_dims shape 0 { size := 1, dim_adjust := -1 } with
  | error err => rfl
  | ok st =>
    have hsize : st.size = explicit_size shape := by
      rcases reshape_dims_ok shape 0 _ st hr with ⟨h1, h2, -⟩ | ⟨-, pre, post, h2, h3, h4, h5, -⟩
      · rw [h2, one_mul, explicit_size, filter_explicit_of_forall shape h1]
      · rw [h5, one_mul, h2, explicit_size_placeholder pre post h3 h4]
    simp only [Except.map]
    rw [hsize, int_to_size_t_of_range hP0 hP1, ← hsize]

/-- C16: a view that `reshape` returns has the resolved target shape, that is,
the target shape (which has at most one placeholder) with the placeholder
replaced by the quotient `e.size() / size` of the source, both in `size_type`,
and every other extent as given; it has the offset 0 and the dense strides of
that shape, as many as extents: the first stride is 1, each further stride is
the stride before it times the extent before it (so the stride of the axis `d`
is the product of the extents before `d`); and the view is the same, shape and
strides, for every inner expression with the shape of the source, whatever its
own strides, which `reshape` does not read. -/
theorem reshape_dense_strides {EC : Type} (e : EC) (old_shape shape : List Int)
    (v : gview EC) (hv : reshape_size_type e old_shape shape = .ok v) :
    shape.count (-1) ≤ 1 ∧
    v.shape = resolved_shape
      ((int_to_size_t (calc_size old_shape) : Int) / (int_to_size_t (explicit_size shape) : Int))
      shape ∧
    v.shape.length = shape.length ∧
    v.e_ = e ∧ v.offset_ = 0 ∧ v.strides = calc_strides v.shape ∧
    v.strides.length = v.shape.length ∧
    (0 < v.shape.length → v.strides[0]? = some 1) ∧
    (∀ (d : Nat) (x s : Int), v.shape[d]? = some x → v.strides[d]? = some s →
      d + 1 < v.shape.length → v.strides[d + 1]? = some (s * x)) ∧
    (∀ d : Nat, d < v.shape.length → v.strides[d]? = some (v.shape.take d).prod) ∧
    (∀ (EC1 : Type) (e1 : EC1), reshape_size_type e1 old_shape shape =
      .ok { e_ := e1, offset_ := 0, shape := v.shape, strides := v.strides }) := by
  simp only [reshape_size_type] at hv
  cases hd : reshape_dims_size_type shape 0 { size := 1, dim_adjust := -1 } with
  | error err => simp [hd] at hv
  | ok st =>
    simp only [hd] at hv
    cases hr : reshape_resolve (int_to_size_t (calc_size old_shape)) shape st with
    | error err => simp [hr] at hv
    | ok shape1 =>
      simp only [hr] at hv
      split_ifs at hv with hsize
      cases hv
      have hclosed : ∀ d : Nat, d < shape1.length →
          (calc_strides shape1)[d]? = some (shape1.take d).prod := by
        intro d hdlt
        rw [calc_strides, calc_strides_from_getElem? shape1 1 d hdlt, one_mul]
      have hshape : shape.count (-1) ≤ 1 ∧
          shape1 = resolved_shape
            ((int_to_size_t (calc_size old_shape) : Int) /
              (int_to_size_t (explicit_size shape) : Int)) shape := by
        rcases reshape_dims_size_type_ok shape 0 _ st (by rfl) hd with
          ⟨h1, -, h3⟩ | ⟨-, pre, post, h2, h3, h4, h5, h6⟩
        · simp only at h3
          simp only [reshape_resolve, h3, if_true] at hr
          split_ifs at hr
          cases hr
          refine ⟨?_, (resolved_shape_of_explicit _ shape h1).symm⟩
          rw [List.count_eq_zero.mpr (fun hm => h1 (-1) hm rfl)]
          exact Nat.zero_le 1
        · have hadj : ¬ (st.dim_adjust = -1) := by
            rw [h6]
            omega
          simp only [reshape_resolve, hadj, if_false] at hr
          split_ifs at hr with h0 hmod
          cases hr
          refine ⟨?_, ?_⟩
          · rw [h2, List.count_append, List.count_cons_self,
              List.count_eq_zero.mpr (fun hm => h3 (-1) hm rfl),
              List.count_eq_zero.mpr (fun hm => h4 (-1) hm rfl)]
          · rw [h6, h5, h2, explicit_size_placeholder pre post h3 h4,
              resolved_shape_placeholder _ pre post h3 h4]
            simp only [Nat.zero_add, Int.toNat_ofNat, set_length_append, one_mul]
      refine ⟨hshape.1, hshape.2, ?_, rfl, rfl, rfl, calc_strides_from_length shape1 1, ?_, ?_,
        hclosed, ?_⟩
      · simp only
        rw [hshape.2]
        simp only [resolved_shape, List.length_map]
      · intro hpos
        simp only at hpos ⊢
        rw [hclosed 0 hpos]
        simp
      · intro d x s hx hs hlt
        simp only at hx hs hlt ⊢
        have hdlt : d < shape1.length := by omega
        rw [hclosed d hdlt] at hs
        rw [hclosed (d + 1) hlt, List.prod_take_succ shape1 d hdlt]
        rw [List.getElem?_eq_getElem hdlt] at hx
        cases hx
        cases hs
        rfl
      · intro EC1 e1
        simp only [reshape_size_type, hd, hr, hsize, if_true]

/-- Witness of C16: the target `(2, -1)` over a source of shape `(3, 4)`, of
size 12, gives the shape `(2, 6)`, the placeholder being replaced by `12 / 2`,
with the strides `(1, 2)` and the offset 0. -/
theorem reshape_dense_strides_witness :
    reshape_size_type () [3, 4] [2, -1] =
        .ok { e_ := (), offset_ := 0, shape := [2, 6], strides := [1, 2] } ∧
      ([2, 6] : List Int) = resolved_shape
        ((int_to_size_t (calc_size [3, 4]) : Int) / (int_to_size_t (explicit_size [2, -1]) : Int))
        [2, -1] ∧
      ([1, 2] : List Int) = calc_strides [2, 6] :=
  ⟨by rfl,
    (reshape_dense_strides () [3, 4] [2, -1]
      { e_ := (), offset_ := 0, shape := [2, 6], strides := [1, 2] } (by rfl)).2.1,
    (reshape_dense_strides () [3, 4] [2, -1]
      { e_ := (), offset_ := 0, shape := [2, 6], strides := [1, 2] } (by rfl)).2.2.2.2.2.1⟩

/-! ## `unravel` against the strides of a permuted view -/

theorem unravel_calc_index_dense (shape idx : List Int) (hw : within_shape idx shape) :
    unravel (calc_index (calc_strides shape) idx) (calc_strides shape) = idx := by
  have := unravel_rem_calc_index shape 1 0 idx (by decide) hw (le_refl _) (by decide)
  simp only [add_zero] at this
  simp only [unravel, calc_strides, this]

theorem transpose_identity_axes {EC : Type} (e : EC) (old_shape old_strides : List Int)
    (hlen : old_shape.length = old_strides.length) :
    transpose e old_shape old_strides (identity_axes old_shape.length) =
      .ok { e_ := e, offset_ := 0, shape := old_shape, strides := old_strides } := by
  rw [transpose_ok e old_shape old_strides _ _ (identity_axes_length _)]
  · rw [map_identity_axes old_shape.length fun d => old_shape.getD d 0,
      map_identity_axes old_shape.length fun d => old_strides.getD d 0, map_getD_range, hlen,
      map_getD_range]
  · intro x hx
    obtain ⟨h0, h1⟩ := mem_identity_axes hx
    exact ⟨h0, h1, by omega⟩

theorem swap_axes_array_same (n : Nat) (a : Int) : swap_axes_array n a a = identity_axes n := by
  simp only [swap_axes_array, identity_axes, swap_axis]
  apply List.map_congr_left
  intro d _
  split_ifs with h
  · exact h.symm
  · rfl

/-- C23, amended: for a view that `transpose` or `swapaxes` returns over a
dense source of shape `S`, `unravel` against the view's own strides is correct
when those strides are the dense strides of the view's shape: then every
multi-index `idx` within the view's shape is what its flat position
`sum_d idx[d] * strides[d]` unravels to.  This is so for the identity
permutation and for `swapaxes` with `axis1 = axis2`, which return the shape and
the dense strides of the source.  For strides that are not dense it fails: for
every dense source of rank 2 with extents `m ≥ 1` and `n ≥ 2`, `swapaxes` of the
axes 0 and 1 returns the shape `(n, m)` with the strides `(m, 1)`, and the flat
position `m` of the multi-index `(1, 0)` unravels to `(0, m)`. -/
theorem unravel_permuted_strides {EC : Type} (e : EC) (old_shape : List Int) :
    (∀ (axes : List Int) (v : gview EC),
      transpose e old_shape (calc_strides old_shape) axes = .ok v →
      v.strides = calc_strides v.shape →
      ∀ idx : List Int, within_shape idx v.shape →
        unravel (calc_index v.strides idx) v.strides = idx) ∧
    (∀ (axis1 axis2 : Int) (v : gview EC),
      swapaxes e old_shape (calc_strides old_shape) axis1 axis2 = .ok v →
      v.strides = calc_strides v.shape →
      ∀ idx : List Int, within_shape idx v.shape →
        unravel (calc_index v.strides idx) v.strides = idx) ∧
    transpose e old_shape (calc_strides old_shape) (identity_axes old_shape.length) =
      .ok { e_ := e, offset_ := 0, shape := old_shape, strides := calc_strides old_shape } ∧
    (∀ axis : Int, swapaxes e old_shape (calc_strides old_shape) axis axis =
      .ok { e_ := e, offset_ := 0, shape := old_shape, strides := calc_strides old_shape }) ∧
    (∀ m n : Int, 0 < m → 1 < n →
      swapaxes e [m, n] (calc_strides [m, n]) 0 1 =
          .ok { e_ := e, offset_ := 0, shape := [n, m], strides := [m, 1] } ∧
        within_shape [1, 0] [n, m] ∧
        calc_index [m, 1] [1, 0] = m ∧
        unravel (calc_index [m, 1] [1, 0]) [m, 1] = [0, m] ∧
        unravel (calc_index [m, 1] [1, 0]) [m, 1] ≠ [1, 0]) := by
  have hlen : old_shape.length = (calc_strides old_shape).length :=
    (calc_strides_from_length old_shape 1).symm
  have hid := transpose_identity_axes e old_shape (calc_strides old_shape) hlen
  refine ⟨?_, ?_, hid, ?_, ?_⟩
  · intro axes v _ hdense idx hw
    rw [hdense]
    exact unravel_calc_index_dense v.shape idx hw
  · intro axis1 axis2 v _ hdense idx hw
    rw [hdense]
    exact unravel_calc_index_dense v.shape idx hw
  · intro axis
    rw [swapaxes_eq_transpose, swap_axes_array_same]
    exact hid
  · intro m n hm hn
    have hflat : calc_index [m, 1] [1, 0] = m := by
      simp [calc_index]
    have hun : unravel (calc_index [m, 1] [1, 0]) [m, 1] = [0, m] := by
      rw [hflat]
      simp [unravel, unravel_rem]
    refine ⟨?_, ?_, hflat, hun, ?_⟩
    · simp [swapaxes, swapaxes_dims, read_pair, read_at, read_axis, calc_strides,
        calc_strides_from]
    · simp only [within_shape, and_true]
      omega
    · rw [hun]
      simp

/-- Witness of C23, amended: `swapaxes` of the axes 0 and 1 of the dense source
of shape `(1, 1, 3)` returns the strides `(1, 1, 1)`, which are the dense
strides of its shape, and the flat position 2 of the multi-index `(0, 0, 2)`
unravels to it; for the dense source of shape `(3, 2)`, the flat position 3 of
the multi-index `(1, 0)` of the view with the axes exchanged unravels to
`(0, 3)`. -/
theorem unravel_permuted_strides_witness :
    swapaxes () [1, 1, 3] (calc_strides [1, 1, 3]) 0 1 =
        .ok { e_ := (), offset_ := 0, shape := [1, 1, 3], strides := [1, 1, 1] } ∧
      unravel (calc_index [1, 1, 1] [0, 0, 2]) [1, 1, 1] = [0, 0, 2] ∧
      unravel (calc_index [3, 1] [1, 0]) [3, 1] = [0, 3] :=
  ⟨by rfl,
    (unravel_permuted_strides () [1, 1, 3]).2.1 0 1
      { e_ := (), offset_ := 0, shape := [1, 1, 3], strides := [1, 1, 1] } (by rfl) (by rfl)
      [0, 0, 2] (by simp [within_shape]),
    ((unravel_permuted_strides () [3, 2]).2.2.2.2 3 2 (by decide) (by decide)).2.2.2.1⟩

end gt
